import Mathlib

/-!
Verification development for the engine-go real-time localization core.

The Go sources under fusion/ (ekf.go, dim_constrain.go, layer_manager.go and
the pipeline file) are shallowly embedded below.  float64 is modelled by the
real numbers: arithmetic is exact, and math.IsNaN / math.IsInf are identically
false in this idealized semantics (the real numbers contain no NaN or
infinity).  Go slices are modelled by Lean lists; an out-of-range slice read
uses getD with the zero default at positions that the original program only
touches in range, and the single write that the original program can perform
out of range (the fixed twelve-row BLE2Dis buffer in EKF.KfUpdate) is
modelled with an explicit bound check returning Option, mirroring the runtime
panic of the original.
-/

namespace EngineGo

/-- Truncation toward zero, the semantics of the Go conversion int(x). -/
noncomputable def goTrunc (x : ℝ) : ℤ := if 0 ≤ x then ⌊x⌋ else ⌈x⌉

/-- Rounding half away from zero, the semantics of Go math.Round. -/
noncomputable def goRound (x : ℝ) : ℤ := if 0 ≤ x then ⌊x + 1/2⌋ else -⌊-x + 1/2⌋

/-- Euclidean norm of a pair, the semantics of Go math.Hypot (no overflow in ℝ). -/
noncomputable def hypot (x y : ℝ) : ℝ := Real.sqrt (x * x + y * y)

/-- Base-ten logarithm, Go math.Log10. -/
noncomputable def log10 (x : ℝ) : ℝ := Real.logb 10 x

/-- Real exponentiation, Go math.Pow. -/
noncomputable def goPow (x y : ℝ) : ℝ := x ^ y

/-- Go math.IsNaN: identically false over the real numbers. -/
def isNaN (_ : ℝ) : Bool := false

/-- Go math.IsInf(x, 0): identically false over the real numbers. -/
def isInf (_ : ℝ) : Bool := false

/-- Go math.Max on float64. -/
noncomputable def goMax (a b : ℝ) : ℝ := max a b

/-- Go math.Abs on float64. -/
def goAbs (a : ℝ) : ℝ := |a|

end EngineGo

namespace EngineGo

/-- Engine constants mirrored from layer_manager.go (constants document). -/
def PathLossExp : List ℝ := [2.5, 3.0, 3.5]

/-- BLE one-meter adjustment vector DeltaA. -/
def DeltaA : List ℝ := [7.0, 8.0, 9.0]

/-- Maximum clamped velocity (m/s). -/
def MaxVel : ℝ := 1.5

/-- TWR base error. -/
def ToFErr : ℝ := 0.4

/-- BLE base error. -/
def BleErr : ℝ := 3.0

/-- Dimension-constraint base error. -/
def DimErr : ℝ := 0.2

/-- Process-noise acceleration sigma. -/
def SigmaAcc : ℝ := 0.08

/-- Path-loss-exponent process sigma. -/
def SigmaN : ℝ := 1e-3

/-- Adjustment process sigma. -/
def SigmaA : ℝ := 1e-2

/-- Initial position sigma. -/
def SigmaPos : ℝ := 5.0

/-- Initial velocity sigma. -/
def SigmaVel : ℝ := 1.0

/-- Initial path-loss-exponent sigma. -/
def SigmaN0 : ℝ := 0.1

/-- Initial adjustment sigma. -/
def SigmaA0 : ℝ := 1.0

/-- Distance floor used to avoid division by zero. -/
def MinDistance : ℝ := 0.1

/-- State dimension. -/
def StateDim : ℕ := 6

/-- Maximum measurement dimension. -/
def MaxMeaDim : ℕ := 12

/-- Adaptive measurement-noise switch. -/
def UseAdaptive : Bool := true

/-- Fading-memory factor. -/
def Fading : ℝ := 1.0

/-- Predict-only deceleration (m/s^2). -/
def Deceleration : ℝ := 0.3

/-- Initial adaptive fading value. -/
def BetaInit : ℝ := 1.0

/-- Adaptive fading recurrence constant. -/
def BetaB : ℝ := 0.98

/-- Covariance regularization constant. -/
def SReg : ℝ := 1e-9

/-- Cross-covariance factor with BLE. -/
def PxkFacWithBle : ℝ := 3.0

/-- Cross-covariance factor without BLE. -/
def PxkFacNoBle : ℝ := 0.5

/-- Line-distance limit for enabling a dimension constraint (m). -/
def DisLimit : ℝ := 10.0

/-- Endpoint-distance limit for enabling a dimension constraint (m). -/
def EndpointLimit : ℝ := 3.0

/-- Rolling history length. -/
def HistoryLen : ℕ := 5

/-- HDOP sanity cap. -/
def HDOPMax : ℝ := 50.0

/-- Outdoor layer identifier. -/
def OutdoorLayer : ℤ := 1

/-- Cached natural log of ten (the source stores this decimal literal). -/
def Ln10 : ℝ := 2.302585092994046

/-- ChiSquare table at p = 0.99 for df 1..10. -/
def chi2_01 : List ℝ :=
  [6.6349, 9.2103, 11.3449, 13.2767, 15.0863, 16.8119, 18.4753, 20.0902, 21.6660, 23.2093]

/-- ChiSquare table at p = 0.95 for df 1..10. -/
def chi2_05 : List ℝ :=
  [3.8415, 5.9915, 7.8147, 9.4877, 11.0705, 12.5916, 14.0671, 15.5073, 16.9189, 18.3070]

/-- Clamp x into the interval from lo to hi, as in the source clamp function. -/
noncomputable def clamp (x lo hi : ℝ) : ℝ := if x < lo then lo else if hi < x then hi else x

/-- Squaring helper Pow2 from the source. -/
def Pow2 (x : ℝ) : ℝ := x * x

end EngineGo

namespace EngineGo

/-- Matrix entry read with the Go out-of-range panic replaced by a zero
default; all in-range uses coincide with the source. -/
def getE (m : List (List ℝ)) (i j : ℕ) : ℝ := (m.getD i []).getD j 0

/-- Matrix entry write m[i][j] = v. -/
def matSet (m : List (List ℝ)) (i j : ℕ) (v : ℝ) : List (List ℝ) :=
  m.set i ((m.getD i []).set j v)

/-- Go zeroMat: an r-by-c matrix of zeros. -/
def zeroMat (r c : ℕ) : List (List ℝ) := List.replicate r (List.replicate c 0)

/-- Go identity: zero matrix with ones written on the diagonal. -/
def identityMat (n : ℕ) : List (List ℝ) :=
  (List.range n).foldl (fun m i => matSet m i i 1) (zeroMat n n)

/-- Go matAdd. -/
def matAdd (a b : List (List ℝ)) : List (List ℝ) :=
  (List.range a.length).map fun i =>
    (List.range (a.headD []).length).map fun j => getE a i j + getE b i j

/-- Go matSub. -/
def matSub (a b : List (List ℝ)) : List (List ℝ) :=
  (List.range a.length).map fun i =>
    (List.range (a.headD []).length).map fun j => getE a i j - getE b i j

/-- Go matMul: dimensions are taken from the operands exactly as in the source
(rows of a, columns of b, inner dimension from the columns of a). -/
def matMul (a b : List (List ℝ)) : List (List ℝ) :=
  (List.range a.length).map fun i =>
    (List.range (b.headD []).length).map fun j =>
      (List.range (a.headD []).length).foldl (fun s t => s + getE a i t * getE b t j) 0

/-- Go matVec. -/
def matVec (a : List (List ℝ)) (v : List ℝ) : List ℝ :=
  a.map fun row => (List.range v.length).foldl (fun s j => s + row.getD j 0 * v.getD j 0) 0

/-- Go transpose. -/
def transposeMat (a : List (List ℝ)) : List (List ℝ) :=
  (List.range (a.headD []).length).map fun j =>
    (List.range a.length).map fun i => getE a i j

/-- Go rank2 for a two-by-two matrix. -/
noncomputable def rank2 (m : List (List ℝ)) : ℕ :=
  if |getE m 0 0 * getE m 1 1 - getE m 0 1 * getE m 1 0| < 1e-9 then 1 else 2

/-- Go invert2x2 with its pivot floor. -/
noncomputable def invert2x2 (m : List (List ℝ)) : List (List ℝ) :=
  let det0 := getE m 0 0 * getE m 1 1 - getE m 0 1 * getE m 1 0
  let det := if |det0| < 1e-12 then 1e-12 else det0
  [[getE m 1 1 / det, -(getE m 0 1) / det], [-(getE m 1 0) / det, getE m 0 0 / det]]

/-- Go scalarMat. -/
def scalarMat (a : List (List ℝ)) (s : ℝ) : List (List ℝ) :=
  (List.range a.length).map fun i =>
    (List.range (a.headD []).length).map fun j => getE a i j * s

/-- Go symmetrize. -/
def symmetrize (a : List (List ℝ)) : List (List ℝ) :=
  (List.range a.length).map fun i =>
    (List.range (a.headD []).length).map fun j => 0.5 * (getE a i j + getE a j i)

/-- Norm of a vector as accumulated in minEigen. -/
noncomputable def vecNorm (v : List ℝ) : ℝ := Real.sqrt (v.foldl (fun s x => s + x * x) 0)

/-- Power-iteration loop of minEigen, with the fuel playing the role of the
bounded iteration count; the loop breaks (returning the unnormalized vector)
when the norm falls under 1e-12, exactly as the source does. -/
noncomputable def powerIter (a : List (List ℝ)) : ℕ → List ℝ → List ℝ
  | 0, v => v
  | n + 1, v =>
    let w := matVec a v
    let norm := vecNorm w
    if norm < 1e-12 then w else powerIter a n (w.map (fun x => x / norm))

/-- Go minEigen: Rayleigh quotient of twenty power iterations combined with
the Gershgorin disc lower bound. -/
noncomputable def minEigen (a : List (List ℝ)) : ℝ :=
  let n := a.length
  if n = 0 then 0
  else
    let v0 : List ℝ := List.replicate n (1 / (n : ℝ))
    let v := powerIter a 20 v0
    let num := (List.range n).foldl
      (fun s i => s + (List.range n).foldl
        (fun t j => t + v.getD i 0 * getE a i j * v.getD j 0) 0) 0
    (List.range n).foldl
      (fun minDisc i =>
        let off := (List.range n).foldl (fun s j => if i = j then s else s + |getE a i j|) 0
        let disc := getE a i i - off
        if disc < minDisc then disc else minDisc)
      num

/-- Go allFinite: no real number is NaN or infinite, so the check holds. -/
def allFinite (_ : List ℝ) : Bool := true

/-- Go allFiniteMat: identically true over the real numbers. -/
def allFiniteMat (_ : List (List ℝ)) : Bool := true

/-- Pivot search of the Gauss-Jordan elimination in pinv: index of the row
with the largest absolute entry in column i among rows i..n-1. -/
noncomputable def pinvPivot (aug : List (List ℝ)) (n i : ℕ) : ℕ :=
  (List.range n).foldl
    (fun pivot j => if i < j ∧ |getE aug pivot i| < |getE aug j i| then j else pivot) i

/-- Row operations of one Gauss-Jordan step in pinv. -/
noncomputable def pinvStep (n : ℕ) (aug : List (List ℝ)) (i : ℕ) : List (List ℝ) :=
  let pivot := pinvPivot aug n i
  if |getE aug pivot i| < 1e-12 then aug
  else
    let swapped := (aug.set i (aug.getD pivot [])).set pivot (aug.getD i [])
    let factor := getE swapped i i
    let scaled := swapped.set i ((swapped.getD i []).map (fun x => x / factor))
    (List.range n).foldl
      (fun m j =>
        if j = i then m
        else
          let f := getE m j i
          if f = 0 then m
          else m.set j ((List.range (2 * n)).map fun k => getE m j k - f * getE m i k))
      scaled

/-- Go pinv (Gauss-Jordan variant from the utility document): pseudo-inverse
of a small square matrix via elimination on the augmented matrix.  The
repository also carries an SVD-based variant built on an external library;
no claim settled here depends on the value of pinv. -/
noncomputable def pinv (a : List (List ℝ)) : List (List ℝ) :=
  let n := a.length
  if n = 0 then []
  else
    let aug0 := (List.range n).map fun i =>
      ((a.getD i []).takeD n 0 ++ List.replicate n (0 : ℝ)).set (n + i) 1
    let aug := (List.range n).foldl (pinvStep n) aug0
    (List.range n).map fun i => (aug.getD i []).drop n

/-- Go RandomModel, the piecewise multiplicative noise-scale family keyed by
a model type string. -/
noncomputable def RandomModel (x : ℝ) (modelType : String) : ℝ :=
  if modelType = ("dd") then
    if x ≤ 3 then 5.0 * (goPow 2 (2 * x - 4.5) + 0.2) else 5.0 * (-goPow 2 (-x + 5.58) + 9.0)
  else if modelType = ("dh") then
    if x ≤ 0 ∨ 20 < x then 0.5 else if 2 < x ∧ x ≤ 6 then 0.9 else if 6 < x then 0.7 else 1.0
  else if modelType = ("ble") then
    if x ≤ 15 then (goPow 2 (0.45 * x - 5.3) + 0.2) / 3.0
    else if x ≤ 40 then (-goPow 2 (-0.2 * x + 5.34) + 8.0) / 3.0
    else 3.3
  else if modelType = ("tof") then
    if x < 1e-1 then 100.0
    else if x < 10 then 0.9
    else if x < 30 then 2.0
    else if x < 50 then 5.0
    else 10.0
  else if modelType = ("MH") then
    if x ≤ 0 ∨ 20 < x then 2.0 else if 6 < x then 1.5 else if 3 < x then 1.1 else 1.0
  else 1.0

/-- Go Chi2Inv: table lookup with clamped degrees of freedom. -/
noncomputable def Chi2Inv (p : ℝ) (df : ℤ) : ℝ :=
  let table := if 0.97 ≤ p then chi2_01 else chi2_05
  if df < 1 then table.getD 0 0
  else if 10 < df then table.getD (table.length - 1) 0
  else table.getD (df - 1).toNat 0

/-- Go RKStatistics: mean, sample standard deviation and normalized
innovation squared of the real-measurement residuals. -/
noncomputable def RKStatistics (meaSize : ℕ) (rk : List ℝ) (pykk1 : List (List ℝ)) :
    List ℝ :=
  let diagS := (List.range meaSize).map fun i =>
    let v := getE pykk1 i i
    if v < 1e-9 then 1e-9 else v
  let stand := (List.range meaSize).map fun i => rk.getD i 0 / Real.sqrt (diagS.getD i 0)
  let nisEach := stand.map fun x => x * x
  let sum := (List.range meaSize).foldl (fun s i => s + rk.getD i 0) 0
  let mean := sum / (meaSize : ℝ)
  let varVar := (List.range meaSize).foldl
    (fun s i => s + (rk.getD i 0 - mean) * (rk.getD i 0 - mean)) 0
  let stddev := Real.sqrt (varVar / goMax ((meaSize : ℝ) - 1) 1)
  let inv := pinv pykk1
  let chi := (List.range meaSize).foldl
    (fun s i => s + (List.range meaSize).foldl
      (fun t j => t + rk.getD i 0 * getE inv i j * rk.getD j 0) 0) 0
  [mean, stddev, chi]

end EngineGo

namespace EngineGo

/-- BLERssi state following the C++-derived Go implementation. -/
structure BLERssi where
  Factor : ℝ
  AdjustRSSI : ℝ
  MaxRSSI : ℤ
  RssiThresh1 : ℤ
  RssiThresh2 : ℤ
  SideLength : ℤ
  HypotenuseLen : ℝ
  ranges : List ℤ

/-- Go BLERssi.range2rssi as a function of the model parameters. -/
noncomputable def range2rssiF (factor adjust : ℝ) (dist : ℤ) : ℤ :=
  if dist ≤ 100 then -goTrunc adjust
  else ⌈log10 ((dist : ℝ) * 0.01) * 10.0 * factor - adjust⌉

/-- Go BLERssi.rssi2rangeRaw as a function of the model parameters. -/
noncomputable def rssi2rangeRawF (factor adjust : ℝ) (str : ℤ) : ℤ :=
  let val := (str : ℝ) + adjust
  if val < 0 then 100 else goRound (100.0 * goPow 10.0 (val / (10.0 * factor)))

/-- Go BLERssi.Init: computes thresholds and precomputes the range table. -/
noncomputable def initBLERssi (f adjust : ℝ) (intrDist : ℤ) : BLERssi :=
  let maxRssi := range2rssiF f adjust (intrDist + 700)
  let thresh := range2rssiF f adjust (intrDist + 400)
  let tblLen := (maxRssi + goTrunc |adjust| + 1).toNat
  { Factor := f
    AdjustRSSI := adjust
    MaxRSSI := maxRssi
    RssiThresh1 := thresh
    RssiThresh2 := thresh
    SideLength := intrDist + 400
    HypotenuseLen := ((intrDist + 700 : ℤ) : ℝ) * 1.4142135623730951
    ranges := (List.range tblLen).map fun i =>
      rssi2rangeRawF f adjust ((i : ℤ) - goTrunc adjust) }

/-- Go BLERssi.range2rssi on a model value. -/
noncomputable def BLERssi.range2rssi (r : BLERssi) (dist : ℤ) : ℤ :=
  range2rssiF r.Factor r.AdjustRSSI dist

/-- Go BLERssi.rssi2rangeRaw on a model value. -/
noncomputable def BLERssi.rssi2rangeRaw (r : BLERssi) (str : ℤ) : ℤ :=
  rssi2rangeRawF r.Factor r.AdjustRSSI str

/-- Go BLERssi.Rssi2Range: table lookup with fallback to the raw formula. -/
noncomputable def BLERssi.rssi2Range (r : BLERssi) (strength : ℤ) : ℤ :=
  let idx := strength + goTrunc r.AdjustRSSI
  if 0 ≤ idx ∧ idx < (r.ranges.length : ℤ) then r.ranges.getD idx.toNat 0
  else r.rssi2rangeRaw strength

/-- Go BLERssi.ValidRssi. -/
def BLERssi.validRssi (r : BLERssi) (strength : ℤ) : Bool := strength ≤ r.MaxRSSI

/-- Go BLERssi.StrengthFromDbm: signed dBm to positive strength. -/
def BLERssi.strengthFromDbm (_ : BLERssi) (dbm : ℤ) : ℤ := if 0 ≤ dbm then dbm else -dbm

end EngineGo

namespace EngineGo

/-- Anchor record: fixed position in meters plus layer and building ids. -/
structure Anchor where
  ID : ℤ
  X : ℝ
  Y : ℝ
  Z : ℝ
  Layer : ℤ
  Building : ℤ

/-- Raw BLE measurement (anchor id, signed dBm). -/
structure BLEMeas where
  AnchorID : ℤ
  RSSIDb : ℤ

/-- Raw TWR measurement (anchor id, metric range). -/
structure TWRMeas where
  AnchorID : ℤ
  Range : ℝ

/-- BLE measurement row of an EKF sample. -/
structure BLERow where
  X : ℝ
  Y : ℝ
  Z : ℝ
  Strength : ℝ
  AnchorID : ℤ
  Layer : ℤ

/-- TWR measurement row of an EKF sample. -/
structure TWRRow where
  X : ℝ
  Y : ℝ
  Z : ℝ
  Range : ℝ
  AnchorID : ℤ
  Layer : ℤ

/-- Dimension-constraint matrix: one row for a point, two for a segment; each
row lists x, y, z. -/
abbrev DimMat : Type := List (List ℝ)

/-- Anchor table: the Go map is modelled as an association list searched from
the front; lookup returns the first binding of the id. -/
abbrev AnchorTable : Type := List (ℤ × Anchor)

/-- Map indexing anchors[id] with its presence flag. -/
def lookupAnchor (t : AnchorTable) (id : ℤ) : Option Anchor :=
  (t.find? (fun p => p.1 = id)).map (fun p => p.2)

/-- Axis-aligned region bounding box in centimeters. -/
structure Region where
  XTL : ℝ
  YTL : ℝ
  XBR : ℝ
  YBR : ℝ

/-- Layer geometry record. -/
structure Layer where
  ID : ℤ
  Building : ℤ
  Width : ℝ
  Height : ℝ
  XTL : ℝ
  YTL : ℝ
  XBR : ℝ
  YBR : ℝ
  ProjectIdx : ℤ
  Regions : List Region

/-- Project (building) record; the member layers are stored by value here,
standing for the Go slice of layer pointers. -/
structure Project where
  ID : ℤ
  Building : ℤ
  XTL : ℝ
  YTL : ℝ
  XBR : ℝ
  YBR : ℝ
  Regions : List Layer

/-- Layer manager state. -/
structure LayerManager where
  layers : ℤ → Option Layer
  projects : List Project

/-- Go isInProject: the position (meters) lies in the project box (cm). -/
noncomputable def isInProject (pos : List ℝ) (proj : Project) : Bool :=
  let x := pos.getD 0 0 * 100.0
  let y := pos.getD 1 0 * 100.0
  decide (proj.XTL ≤ x ∧ x ≤ proj.XBR ∧ proj.YTL ≤ y ∧ y ≤ proj.YBR)

/-- Go isInLayer: inside the layer box and inside some region box. -/
noncomputable def isInLayer (pos : List ℝ) (layer : Layer) : Bool :=
  let x := pos.getD 0 0 * 100.0
  let y := pos.getD 1 0 * 100.0
  decide (layer.XTL ≤ x ∧ x ≤ layer.XBR ∧ layer.YTL ≤ y ∧ y ≤ layer.YBR) &&
    layer.Regions.any (fun r => decide (r.XTL ≤ x ∧ x ≤ r.XBR ∧ r.YTL ≤ y ∧ y ≤ r.YBR))

/-- Go layerTrustRate: mean ratio of measured to geometric range over the
anchors of one layer, folded into the absolute deviation from one; 0xFF when
the layer has no usable anchors in the measurement lists. -/
noncomputable def layerTrustRate (bleMeas : List BLEMeas) (twrMeas : List TWRMeas)
    (pos : List ℝ) (layerID : ℤ) (rssi : BLERssi) (anchors : AnchorTable) : ℝ :=
  if bleMeas.length = 0 ∧ twrMeas.length = 0 then 0xFF
  else
    let cmX := pos.getD 0 0 * 100.0
    let cmY := pos.getD 1 0 * 100.0
    let twrAcc := twrMeas.foldl
      (fun (acc : ℕ × ℝ) m =>
        match lookupAnchor anchors m.AnchorID with
        | none => acc
        | some a =>
          if a.Layer ≠ layerID then acc
          else
            let distance := hypot (cmX - a.X * 100.0) (cmY - a.Y * 100.0)
            if distance < 1e-3 then acc
            else (acc.1 + 1, acc.2 + 1.0 * (m.Range * 100.0) / distance))
      (0, 0)
    let bleAcc := bleMeas.foldl
      (fun (acc : ℕ × ℝ) m =>
        match lookupAnchor anchors m.AnchorID with
        | none => acc
        | some a =>
          if a.Layer ≠ layerID then acc
          else
            let distance := hypot (cmX - a.X * 100.0) (cmY - a.Y * 100.0)
            if distance < 1e-3 then acc
            else
              let strength := rssi.strengthFromDbm m.RSSIDb
              let dRangeCm := rssi.rssi2Range strength
              let dDataM := 0.01 * (dRangeCm : ℝ)
              (acc.1 + 1, acc.2 + 100.0 * dDataM / distance))
      twrAcc
    if 0 < bleAcc.1 then |1.0 - bleAcc.2 / (bleAcc.1 : ℝ)| else 0xFF

/-- Layer id collection of GetLayer: distinct anchor layers in measurement
order (BLE first, then TWR) plus the outdoor flag. -/
def collectLayerList (bleMeas : List BLEMeas) (twrMeas : List TWRMeas)
    (anchors : AnchorTable) : List ℤ × Bool :=
  let step := fun (acc : List ℤ × Bool) (aid : ℤ) =>
    match lookupAnchor anchors aid with
    | none => acc
    | some a =>
      let outdoor := acc.2 || decide (a.Layer = OutdoorLayer)
      if acc.1.contains a.Layer then (acc.1, outdoor) else (acc.1 ++ [a.Layer], outdoor)
  let afterBle := (bleMeas.map (fun m => m.AnchorID)).foldl step ([], false)
  (twrMeas.map (fun m => m.AnchorID)).foldl step afterBle

/-- Candidate project indices of GetLayer: projects of the indoor layers that
contain the position, deduplicated by identity (projects are constructed once
per building, so pointer identity in the Go source coincides with slice
index identity here). -/
noncomputable def collectProList (lm : LayerManager) (layerList : List ℤ) (pos : List ℝ) :
    List ℕ :=
  layerList.foldl
    (fun acc lid =>
      if lid = OutdoorLayer then acc
      else
        match lm.layers lid with
        | none => acc
        | some lyr =>
          if lyr.ProjectIdx < 0 ∨ (lm.projects.length : ℤ) ≤ lyr.ProjectIdx then acc
          else
            let idx := lyr.ProjectIdx.toNat
            match lm.projects.get? idx with
            | none => acc
            | some proj =>
              if isInProject pos proj ∧ ¬ (acc.contains idx : Bool) then acc ++ [idx] else acc)
    []

/-- Tie-break loop of GetLayer.  The running best rate is held in an integer
variable initialized to 0xFF and updated with the Go conversion int(rate),
exactly as the source does. -/
noncomputable def trustTieBreak (bleMeas : List BLEMeas) (twrMeas : List TWRMeas)
    (pos : List ℝ) (rssi : BLERssi) (anchors : AnchorTable) (cands : List Layer) :
    Option ℤ :=
  (cands.foldl
    (fun (acc : Option ℤ × ℤ) lyr =>
      let rate := layerTrustRate bleMeas twrMeas pos lyr.ID rssi anchors
      if rate < (acc.2 : ℝ) then (some lyr.ID, goTrunc rate) else acc)
    (none, 0xFF)).1

/-- Go LayerManager.GetLayer. -/
noncomputable def LayerManager.getLayer (lm : LayerManager) (bleMeas : List BLEMeas)
    (twrMeas : List TWRMeas) (pos : List ℝ) (rssi : BLERssi) (anchors : AnchorTable) :
    Option ℤ :=
  let collected := collectLayerList bleMeas twrMeas anchors
  let layerList := collected.1
  let outdoor := collected.2
  if layerList.length = 0 then none
  else
    let proList := collectProList lm layerList pos
    if proList.length = 0 then (if outdoor then some OutdoorLayer else none)
    else if 1 < proList.length then none
    else
      match lm.projects.get? (proList.getD 0 0) with
      | none => none
      | some proj =>
        let layersInProj := proj.Regions.filter (fun lyr => isInLayer pos lyr)
        if layersInProj.length = 0 then some OutdoorLayer
        else if layersInProj.length = 1 then layersInProj.head?.map (fun l => l.ID)
        else trustTieBreak bleMeas twrMeas pos rssi anchors layersInProj

end EngineGo

namespace EngineGo

/-- Stands for Go math.Inf(1) in distanceCal; its only use is in comparisons
against the small limits DisLimit and EndpointLimit, for which any value above
those limits is equivalent to positive infinity. -/
def goInf : ℝ := 1e308

/-- Indexed write on a list of lists (m[i][j] = v for element type a). -/
def setIdx2 {α : Type} (m : List (List α)) (i j : ℕ) (v : α) : List (List α) :=
  m.set i ((m.getD i []).set j v)

/-- One EKF sample: a shaped measurement event. -/
structure EKFSample where
  Timestamp : ℤ
  TagID : ℤ
  TagHeight : ℝ
  BLE : List BLERow
  TWR : List TWRRow
  DimPos : List DimMat

/-- Dimension-constraint engine state. -/
structure DimConstrain where
  hisLen : ℕ
  rkExamed : List (List ℝ)
  dimConsedFlags : List (List ℤ)
  dimConsedDis : List (List ℝ)
  dimConsUse : List Bool
  dimRkOverLim : Bool

/-- Go NewDimConstrain. -/
def newDimConstrain (hisLen : ℕ) : DimConstrain :=
  { hisLen := hisLen
    rkExamed := List.replicate hisLen [0, 0, 0]
    dimConsedFlags := List.replicate hisLen [0, 0]
    dimConsedDis := List.replicate hisLen [0, 0]
    dimConsUse := []
    dimRkOverLim := false }

/-- Go DimConstrain.distanceCal: line distance and endpoint distance of a
point against a point or segment constraint. -/
noncomputable def distanceCal (point : List ℝ) (dimPos : DimMat) : ℝ × ℝ :=
  let rows : List (List ℝ) := dimPos
  if rows.length = 1 then
    let dx := point.getD 0 0 - getE rows 0 0
    let dy := point.getD 1 0 - getE rows 0 1
    (hypot dx dy, 0.0)
  else if rows.length = 2 then
    let a := getE rows 1 1 - getE rows 0 1
    let b := getE rows 0 0 - getE rows 1 0
    let c := getE rows 1 0 * getE rows 0 1 - getE rows 0 0 * getE rows 1 1
    let norm0 := hypot a b
    let norm := if norm0 < MinDistance then MinDistance else norm0
    let distLine := |a * point.getD 0 0 + b * point.getD 1 0 + c| / norm
    let t := ((point.getD 0 0 - getE rows 0 0) * (getE rows 1 0 - getE rows 0 0) +
        (point.getD 1 0 - getE rows 0 1) * (getE rows 1 1 - getE rows 0 1)) /
      (Pow2 (getE rows 1 0 - getE rows 0 0) + Pow2 (getE rows 1 1 - getE rows 0 1))
    let distEP :=
      if t < 0 then hypot (point.getD 0 0 - getE rows 0 0) (point.getD 1 0 - getE rows 0 1)
      else if 1 < t then hypot (point.getD 0 0 - getE rows 1 0) (point.getD 1 0 - getE rows 1 1)
      else 0.0
    (distLine, distEP)
  else (goInf, goInf)

/-- EKF state record mirroring the Go struct field for field. -/
structure EKFState where
  n : ℕ
  m : ℕ
  ts : ℝ
  fading : ℝ
  adaptive : Bool
  beta : ℝ
  b : ℝ
  xconstrain : List Bool
  xMin : List ℝ
  xMax : List ℝ
  usedMea : List ℕ
  ret : ℤ
  HDOP : ℝ
  HMaha : ℝ
  BLE2Dis : List (List ℝ)
  xk : List ℝ
  Pxk : List (List ℝ)
  Phikk1 : List (List ℝ)
  Qk : List (List ℝ)
  yk : List ℝ
  ykk1 : List ℝ
  Hk : List (List ℝ)
  Rk : List (List ℝ)
  Rmin : List (List ℝ)
  Rmax : List (List ℝ)
  Dc : DimConstrain
  xkk1 : List ℝ
  Pykk1 : List (List ℝ)
  rk : List ℝ

/-- Loop body result of DimConsDeter for the constraint state: the new
constraint record together with the count of enabled constraints and the
dimension-type flags.  The Go method reads only ekf.xk from the filter and
writes only the constraint record and ekf.usedMea[3]; this core makes those
data flows explicit. -/
noncomputable def dimConsDeterCore (sample : EKFSample) (xk : List ℝ) (dcIn : DimConstrain) :
    DimConstrain × ℕ :=
  let hasData := 0 < sample.DimPos.length
  let start : DimConstrain × ℕ × List ℤ :=
    ({ dcIn with dimConsUse := List.replicate sample.DimPos.length false }, 0, ([0, 0] : List ℤ))
  let looped :=
    if hasData ∧ ¬ dcIn.dimRkOverLim then
      sample.DimPos.enum.foldl
        (fun (st : DimConstrain × ℕ × List ℤ) entry =>
          let i := entry.1
          let mat := entry.2
          let dc0 := st.1
          let cnt := st.2.1
          let dimType := st.2.2
          let grown :=
            if dc0.dimConsedDis.length ≤ i then
              let extra := i - dc0.dimConsedDis.length + 1
              { dc0 with
                dimConsedDis := dc0.dimConsedDis ++ List.replicate extra [0, 0]
                dimConsedFlags := dc0.dimConsedFlags ++ List.replicate extra [0, 0] }
            else dc0
          let rows : List (List ℝ) := mat
          if rows.length = 0 then
            ({ grown with dimConsUse := grown.dimConsUse.set i false }, cnt, dimType)
          else
            let dists := distanceCal [xk.getD 0 0, xk.getD 1 0] mat
            let distLine := dists.1
            let distEP := dists.2
            let dimType1 :=
              if rows.length = 1 then dimType.set 0 1
              else if rows.length = 2 then dimType.set 1 1
              else dimType
            if DisLimit < distLine ∨ EndpointLimit < distEP then
              ({ grown with dimConsUse := grown.dimConsUse.set i false }, cnt, dimType1)
            else
              ({ grown with
                  dimConsedDis := setIdx2 (setIdx2 grown.dimConsedDis i 0 distLine) i 1 distEP
                  dimConsUse := grown.dimConsUse.set i true },
                cnt + 1, dimType1))
        start
    else start
  let dc := looped.1
  let dimType := looped.2.2
  let shifted :=
    if 1 < dc.dimConsedFlags.length then dc.dimConsedFlags.dropLast else dc.dimConsedFlags.drop 1
  ({ dc with dimConsedFlags := dimType :: shifted }, looped.2.1)

/-- Go DimConstrain.DimConsDeter: decide which constraints to enable, record
their distances, and shift the activity history.  The history shift is
modelled with value semantics; the Go original shifts a slice of row
pointers, which leaves rows zero and one aliased afterwards — none of the
claims settled in this development reads the flag history. -/
noncomputable def dimConsDeter (sample : EKFSample) (k : EKFState) : EKFState :=
  let core := dimConsDeterCore sample k.xk k.Dc
  { k with
    Dc := core.1
    usedMea := k.usedMea.set 3 (k.usedMea.getD 3 0 + core.2) }

/-- Loop body of ConsHk over the measurement vectors: the Go method reads the
predicted state, the HDOP and the constraint record and writes only the
measurement vectors yk, ykk1, the Jacobian Hk and the noise matrix Rk. -/
noncomputable def consHkCore (sample : EKFSample) (meaSize : ℕ) (xkk1 : List ℝ) (hdop : ℝ)
    (dc : DimConstrain) (v0 : List ℝ × List ℝ × List (List ℝ) × List (List ℝ)) :
    List ℝ × List ℝ × List (List ℝ) × List (List ℝ) :=
  (sample.DimPos.enum.foldl
    (fun (st : (List ℝ × List ℝ × List (List ℝ) × List (List ℝ)) × ℕ) entry =>
      let g := entry.1
      let mat := entry.2
      let v := st.1
      let g1 := st.2
      if ¬ (dc.dimConsUse.getD g false : Bool) then (v, g1)
      else
        let idx := meaSize + g1
        let rows : List (List ℝ) := mat
        if rows.length = 1 then
          let dx := xkk1.getD 0 0 - getE rows 0 0
          let dy := xkk1.getD 1 0 - getE rows 0 1
          let dval0 := hypot dx dy
          let dval := if dval0 < MinDistance then MinDistance else dval0
          let zeroRow := List.replicate (v.2.2.1.getD idx []).length (0 : ℝ)
          let fHdop := RandomModel hdop ("dh")
          let fDis := RandomModel (getE dc.dimConsedDis g 0) ("dd")
          ((v.1.set idx 0.0,
            v.2.1.set idx dval,
            v.2.2.1.set idx ((zeroRow.set 0 (dx / dval)).set 1 (dy / dval)),
            setIdx2 v.2.2.2 idx idx (Pow2 (DimErr * fHdop * fDis))), g1 + 1)
        else if rows.length = 2 then
          let a0 := getE rows 1 1 - getE rows 0 1
          let b0 := getE rows 0 0 - getE rows 1 0
          let c0 := getE rows 1 0 * getE rows 0 1 - getE rows 0 0 * getE rows 1 1
          let norm0 := hypot a0 b0
          let norm := if norm0 < MinDistance then MinDistance else norm0
          let a := a0 / norm
          let b := b0 / norm
          let c := c0 / norm
          let zeroRow := List.replicate (v.2.2.1.getD idx []).length (0 : ℝ)
          let fHdop := RandomModel hdop ("dh")
          let fDis := RandomModel (getE dc.dimConsedDis g 0) ("dd")
          ((v.1.set idx 0.0,
            v.2.1.set idx (a * xkk1.getD 0 0 + b * xkk1.getD 1 0 + c),
            v.2.2.1.set idx ((zeroRow.set 0 a).set 1 b),
            setIdx2 v.2.2.2 idx idx (Pow2 (DimErr * fHdop * fDis))), g1 + 1)
        else (v, g1 + 1))
    (v0, 0)).1

/-- Go DimConstrain.ConsHk: append the virtual-measurement rows for enabled
constraints, using the predicted state, and set their noise entries. -/
noncomputable def consHk (sample : EKFSample) (k0 : EKFState) : EKFState :=
  if k0.usedMea.getD 3 0 = 0 then k0
  else
    let meaSize := k0.usedMea.getD 0 0 + k0.usedMea.getD 1 0 + k0.usedMea.getD 2 0
    let v := consHkCore sample meaSize k0.xkk1 k0.HDOP k0.Dc (k0.yk, k0.ykk1, k0.Hk, k0.Rk)
    { k0 with yk := v.1, ykk1 := v.2.1, Hk := v.2.2.1, Rk := v.2.2.2 }

/-- Health refresh of RkConst on the constraint record: the Go method reads
the innovation statistics of the real rows and writes only the constraint
record.  The history shift carries the same value-semantics note as
dimConsDeterCore. -/
noncomputable def rkConstCore (meaSize : ℕ) (used3 : ℕ) (rkIn : List ℝ)
    (pykk1In : List (List ℝ)) (dcIn : DimConstrain) : DimConstrain :=
  let dc := { dcIn with dimRkOverLim := false }
  if meaSize = 0 then dc
  else
    let rkVec := rkIn.take meaSize
    let py := (List.range meaSize).map fun i =>
      (List.range meaSize).map fun j => getE pykk1In i j
    let stats := RKStatistics meaSize rkVec py
    let shifted :=
      if 1 < dc.rkExamed.length then dc.rkExamed.dropLast else dc.rkExamed.drop 1
    let rkExamed := [stats.getD 0 0, stats.getD 1 0, stats.getD 2 0] :: shifted
    let sums := rkExamed.foldl
      (fun (acc : ℝ × ℝ × ℝ) row =>
        (acc.1 + row.getD 0 0, acc.2.1 + row.getD 1 0, acc.2.2 + row.getD 2 0))
      (0, 0, 0)
    let l := (rkExamed.length : ℝ)
    let meanSrk := sums.1 / l
    let stdSrk := sums.2.1 / l
    let nisTotal := sums.2.2 / l
    let chiThr := Chi2Inv 0.99 (meaSize : ℤ)
    let nisRatio := if 0 < chiThr then nisTotal / chiThr else 0
    let abnormal := (if 0.3 < |meanSrk| then 1 else 0) + (if 0.4 < stdSrk then 1 else 0) +
      (if 1.0 < nisRatio then 1 else 0)
    let overLim := 0 < used3 ∧ 2 ≤ abnormal
    { dc with rkExamed := rkExamed, dimRkOverLim := overLim }

/-- Go DimConstrain.RkConst: refresh constraint health from the real-row
innovation statistics. -/
noncomputable def rkConst (k0 : EKFState) : EKFState :=
  let meaSize := k0.usedMea.getD 0 0 + k0.usedMea.getD 1 0 + k0.usedMea.getD 2 0
  { k0 with Dc := rkConstCore meaSize (k0.usedMea.getD 3 0) k0.rk k0.Pykk1 k0.Dc }

end EngineGo


namespace EngineGo

/-- Go EKF.resetState: reset state vector, covariance, transition and
process noise; the remaining fields are kept. -/
noncomputable def resetState (k : EKFState) : EKFState :=
  { k with
    xk := ((List.replicate k.n (0 : ℝ)).set 4 (PathLossExp.getD 1 0)).set 5 (DeltaA.getD 1 0)
    Pxk := matSet (matSet (matSet (matSet (matSet (matSet (zeroMat k.n k.n)
      0 0 (Pow2 SigmaPos)) 1 1 (Pow2 SigmaPos)) 2 2 (Pow2 SigmaVel)) 3 3 (Pow2 SigmaVel))
      4 4 (Pow2 SigmaN0)) 5 5 (Pow2 SigmaA0)
    Phikk1 := identityMat k.n
    Qk := zeroMat k.n k.n }

/-- Go NewEKF. -/
noncomputable def newEKF : EKFState :=
  resetState
    { n := StateDim
      m := MaxMeaDim
      ts := 0.1
      fading := Fading
      adaptive := UseAdaptive
      beta := BetaInit
      b := BetaB
      xconstrain := [false, false, true, true, true, true]
      xMin := ((((List.replicate StateDim (0 : ℝ)).set 2 (-MaxVel)).set 3 (-MaxVel)).set 4
        (PathLossExp.getD 0 0)).set 5 (DeltaA.getD 0 0)
      xMax := ((((List.replicate StateDim (0 : ℝ)).set 2 MaxVel).set 3 MaxVel).set 4
        (PathLossExp.getD 2 0)).set 5 (DeltaA.getD 2 0)
      usedMea := List.replicate 4 0
      ret := 0
      HDOP := 0
      HMaha := 0
      BLE2Dis := List.replicate MaxMeaDim (List.replicate 3 (0 : ℝ))
      xk := []
      Pxk := []
      Phikk1 := []
      Qk := []
      yk := []
      ykk1 := []
      Hk := []
      Rk := []
      Rmin := []
      Rmax := []
      Dc := newDimConstrain HistoryLen
      xkk1 := List.replicate StateDim (0 : ℝ)
      Pykk1 := []
      rk := [] }

/-- Go EKF.Updt: transition matrix and process noise for one time step. -/
noncomputable def updt (dtime : ℝ) (k : EKFState) : EKFState :=
  let qx := Pow2 SigmaAcc
  let qn := Pow2 SigmaN
  let qA := Pow2 SigmaA
  let nAScale : ℝ := if k.usedMea.getD 1 0 = 0 then 0.01 * 0.01 else 1.0
  { k with
    ts := dtime
    Phikk1 := matSet (matSet (identityMat k.n) 0 2 dtime) 1 3 dtime
    Qk :=
      matSet (matSet (matSet (matSet (matSet (matSet (matSet (matSet (matSet (matSet
        (zeroMat k.n k.n)
        0 0 ((goPow dtime 3 / 3.0) * qx))
        0 2 ((goPow dtime 2 / 2.0) * qx))
        2 0 ((goPow dtime 2 / 2.0) * qx))
        2 2 (dtime * qx))
        1 1 ((goPow dtime 3 / 3.0) * qx))
        1 3 ((goPow dtime 2 / 2.0) * qx))
        3 1 ((goPow dtime 2 / 2.0) * qx))
        3 3 (dtime * qx))
        4 4 (dtime * qn * nAScale))
        5 5 (dtime * qA * nAScale) }

/-- Measurement distance of a row position against the predicted or current
position, with the MinDistance floor (shared shape of the UpMeas and
KfUpdate loops). -/
noncomputable def meaDistance (px py pz rx ry rz : ℝ) : ℝ :=
  let dx := px - rx
  let dy := py - ry
  let dz := pz - rz
  let d0 := hypot dx dy
  let d := Real.sqrt (d0 * d0 + dz * dz)
  if d < MinDistance then MinDistance else d

/-- Go EKF.ManagePxk: cross-covariance scaling, bias-variance clamping,
symmetrization and regularization of the state covariance. -/
noncomputable def managePxk (k : EKFState) : EKFState :=
  let consFac := if k.usedMea.getD 1 0 = 0 then PxkFacNoBle else PxkFacWithBle
  let scaled :=
    if k.usedMea.getD 1 0 = 0 then
      (List.range 4).foldl
        (fun M i =>
          matSet (matSet (matSet (matSet M 4 i (getE M 4 i * PxkFacNoBle))
            i 4 (getE M i 4 * PxkFacNoBle)) 5 i (getE M 5 i * PxkFacNoBle))
            i 5 (getE M i 5 * PxkFacNoBle))
        k.Pxk
    else k.Pxk
  let maxNVar := Pow2 (consFac * SigmaN0)
  let maxAVar := Pow2 (consFac * SigmaA0)
  let clamped0 := if maxNVar < getE scaled 4 4 then matSet scaled 4 4 maxNVar else scaled
  let clamped := if maxAVar < getE clamped0 5 5 then matSet clamped0 5 5 maxAVar else clamped0
  let symmed := symmetrize clamped
  let mind := minEigen symmed
  let regged :=
    if mind < SReg then
      (List.range k.n).foldl (fun M i => matSet M i i (getE M i i + SReg)) symmed
    else symmed
  { k with Pxk := regged }

/-- Go EKF.UpMeas: measurement bookkeeping, constraint determination,
measurement matrices, HDOP and initial measurement noise with its adaptive
bounds, followed by covariance management. -/
noncomputable def upMeas (sample : EKFSample) (k : EKFState) : EKFState :=
  let kU := { k with
    usedMea := (((k.usedMea.set 0 sample.TWR.length).set 1 sample.BLE.length).set 2 0).set 3 0 }
  let kD := dimConsDeter sample kU
  let total := kD.usedMea.getD 0 0 + kD.usedMea.getD 1 0 + kD.usedMea.getD 3 0
  let enabled := kD.Dc.dimConsUse.count true
  let yk := sample.TWR.map (fun tw => tw.Range) ++ sample.BLE.map (fun bl => bl.Strength) ++
    List.replicate enabled (0 : ℝ)
  let twrHk := sample.TWR.map fun tw =>
    let dx := kD.xk.getD 0 0 - tw.X
    let dy := kD.xk.getD 1 0 - tw.Y
    let d := meaDistance (kD.xk.getD 0 0) (kD.xk.getD 1 0) sample.TagHeight tw.X tw.Y tw.Z
    ((List.replicate kD.n (0 : ℝ)).set 0 (dx / d)).set 1 (dy / d)
  let bleHk := sample.BLE.map fun bl =>
    let dx := kD.xk.getD 0 0 - bl.X
    let dy := kD.xk.getD 1 0 - bl.Y
    let d := meaDistance (kD.xk.getD 0 0) (kD.xk.getD 1 0) sample.TagHeight bl.X bl.Y bl.Z
    let common := 10.0 * kD.xk.getD 4 0 / (Ln10 * d * d)
    ((((List.replicate kD.n (0 : ℝ)).set 0 (common * dx)).set 1 (common * dy)).set 4
      (10.0 * log10 d)).set 5 1.0
  let Hk := twrHk ++ bleHk ++ List.replicate (total - sample.TWR.length - sample.BLE.length)
    (List.replicate kD.n (0 : ℝ))
  let totalMea := kD.usedMea.getD 0 0 + kD.usedMea.getD 1 0
  let hdop :=
    if 2 ≤ totalMea then
      let hxy := (List.range totalMea).map fun i => [getE Hk i 0, getE Hk i 1]
      let g := matMul (transposeMat hxy) hxy
      if rank2 g = 2 then
        let ginv := invert2x2 g
        let h0 := Real.sqrt (getE ginv 0 0 + getE ginv 1 1)
        if HDOPMax < h0 then HDOPMax else h0
      else 0.0
    else 0.0
  let fHdop := RandomModel hdop ("MH")
  let rkDiag := sample.TWR.map (fun tw => Pow2 (ToFErr * RandomModel tw.Range ("tof") * fHdop))
    ++ sample.BLE.map (fun bl => Pow2 (BleErr * RandomModel bl.Strength ("ble") * fHdop))
  let Rk := (List.range total).map fun i =>
    (List.range total).map fun j => if i = j then rkDiag.getD i 0 else 0
  let Rmax := (List.range total).map fun i =>
    (List.range total).map fun j => if i = j then 100.0 * getE Rk i i else 0
  let Rmin := (List.range total).map fun i =>
    (List.range total).map fun j => if i = j then 0.01 * getE Rk i i else 0
  managePxk { kD with
    yk := yk
    ykk1 := List.replicate total (0 : ℝ)
    Hk := Hk
    Rk := Rk
    Rmin := Rmin
    Rmax := Rmax
    HDOP := hdop }

/-- BLE2Dis write loop of KfUpdate: each row write carries the bound check of
the fixed twelve-row buffer; an out-of-range row index is the out-of-bounds
panic of the original, modelled as none. -/
noncomputable def bleYkk1Loop (sample : EKFSample) (tagHeight : ℝ) (xkk1 : List ℝ)
    (startIdx : ℕ) (ykk1 : List ℝ) (ble2dis : List (List ℝ)) :
    Option (List ℝ × List (List ℝ)) :=
  sample.BLE.enum.foldl
    (fun acc entry => acc.bind fun st =>
      let o := entry.1
      let bl := entry.2
      let d := meaDistance (xkk1.getD 0 0) (xkk1.getD 1 0) tagHeight bl.X bl.Y bl.Z
      let pred := xkk1.getD 5 0 + 10.0 * xkk1.getD 4 0 * log10 d
      let ykk1b := st.1.set (startIdx + o) pred
      if o < st.2.length then
        some (ykk1b,
          setIdx2 (setIdx2 (setIdx2 st.2 o 0 ((bl.AnchorID : ℝ))) o 1 bl.Strength) o 2
            (goPow 10.0 ((bl.Strength - xkk1.getD 5 0) / (10.0 * xkk1.getD 4 0))))
      else none)
    (some (ykk1, ble2dis))

/-- Assembly stage of KfUpdate after the BLE prediction loop: innovations,
adaptive noise, innovation covariance with regularization, gain, state and
covariance update, constraint health, state clamping and the finiteness
check. -/
noncomputable def kfMeasAssemble (k : EKFState) (k1 : EKFState) (Pxkk1 : List (List ℝ))
    (xkk1 : List ℝ) (total : ℕ) (bleRes : List ℝ × List (List ℝ)) : EKFState :=
  let ykk1 := bleRes.1
  let ble2dis := bleRes.2
  let rk := (List.range total).map fun i => k1.yk.getD i 0 - ykk1.getD i 0
  let Pxykk1 := matMul Pxkk1 (transposeMat k1.Hk)
  let Py0 := matMul k1.Hk Pxykk1
  let adapted :=
    if k.adaptive then
      ((List.range total).foldl
        (fun M i =>
          let ry0 := rk.getD i 0 * rk.getD i 0 - getE Py0 i i
          let rymax := getE k1.Rmax i i
          let rymin := getE k1.Rmin i i
          let ry := if ry0 < rymin then rymin else ry0
          if rymax < ry then matSet M i i rymax
          else matSet M i i ((1 - k.beta) * getE M i i + k.beta * ry))
        k1.Rk,
        k.beta / (k.beta + k.b))
    else (k1.Rk, k.beta)
  let Rk := adapted.1
  let beta := adapted.2
  let Py1 := matAdd Py0 Rk
  let minEig := minEigen Py1
  let Pykk1 :=
    if minEig < 1e-9 then
      (List.range Py1.length).foldl
        (fun M i => matSet M i i (getE M i i + (|minEig| + 1e-9))) Py1
    else Py1
  let invPy := pinv Pykk1
  let hmaha := Real.sqrt ((List.range total).foldl
    (fun s2 i => s2 + (List.range total).foldl
      (fun t j => t + rk.getD i 0 * getE invPy i j * rk.getD j 0) 0) 0)
  let Kk := matMul Pxykk1 invPy
  let incr := matVec Kk rk
  let xkNew := (List.range k.n).foldl
    (fun v i => v.set i (xkk1.getD i 0 + incr.getD i 0)) k.xk
  let PxkNew := scalarMat
    (matSub Pxkk1 (matMul Kk (matMul Pykk1 (transposeMat Kk)))) (k.fading / 2.0)
  let k2 := rkConst { k1 with
    ykk1 := ykk1
    BLE2Dis := ble2dis
    rk := rk
    Rk := Rk
    beta := beta
    HMaha := hmaha
    xk := xkNew
    Pxk := PxkNew
    Pykk1 := Pykk1 }
  let xkCon := (List.range k2.n).foldl
    (fun v i =>
      if k2.xconstrain.getD i false then
        v.set i (clamp (v.getD i 0) (k2.xMin.getD i 0) (k2.xMax.getD i 0))
      else v)
    k2.xk
  let k3 := { k2 with xk := xkCon }
  if allFinite k3.xk ∧ allFiniteMat k3.Pxk then { k3 with ret := 2 }
  else { resetState k3 with ret := -2 }

/-- Go EKF.KfUpdate: predict-only step when there is no measurement,
otherwise the full fusion update.  The result is none exactly when the BLE
row count overruns the BLE2Dis buffer, where the original panics. -/
noncomputable def kfUpdate (sample : EKFSample) (k : EKFState) : Option EKFState :=
  let total := k.usedMea.getD 0 0 + k.usedMea.getD 1 0 + k.usedMea.getD 3 0
  if total = 0 then
    some { k with
      xk := matVec k.Phikk1 k.xk
      Pxk := matAdd (matMul k.Phikk1 (matMul k.Pxk (transposeMat k.Phikk1))) k.Qk
      ret := 1 }
  else
    let xkk1 := matVec k.Phikk1 k.xk
    let Pxkk1 := matAdd (matMul k.Phikk1 (matMul k.Pxk (transposeMat k.Phikk1))) k.Qk
    let k1 := consHk sample { k with xkk1 := xkk1 }
    let twrPred := sample.TWR.map fun tw =>
      meaDistance (xkk1.getD 0 0) (xkk1.getD 1 0) sample.TagHeight tw.X tw.Y tw.Z
    let ykk1a := twrPred ++ k1.ykk1.drop sample.TWR.length
    (bleYkk1Loop sample sample.TagHeight xkk1 sample.TWR.length ykk1a k1.BLE2Dis).map
      (kfMeasAssemble k k1 Pxkk1 xkk1 total)

/-- Go EKF.PredictConstrain: deceleration of the velocity components and
capping of the leading covariance diagonal after a predict-only step. -/
noncomputable def predictConstrain (k : EKFState) : EKFState :=
  let speed := hypot (k.xk.getD 2 0) (k.xk.getD 3 0)
  if 0.01 < speed ∧ 0.01 < Deceleration then
    let scale := goMax (speed - Deceleration * k.ts) 0.0 / speed
    let xk := (k.xk.set 2 (k.xk.getD 2 0 * scale)).set 3 (k.xk.getD 3 0 * scale)
    let Pxk := (List.range 4).foldl
      (fun M i =>
        if i ≤ 1 then
          if Pow2 SigmaPos * 3 < getE M i i then matSet M i i (Pow2 SigmaPos * 3) else M
        else
          if Pow2 SigmaVel * 3 < getE M i i then matSet M i i (Pow2 SigmaVel * 3) else M)
      k.Pxk
    { k with xk := xk, Pxk := Pxk }
  else k

end EngineGo

namespace EngineGo

/-- UWB fix fed to the loose fusor. -/
structure UwbFix where
  X : ℝ
  Y : ℝ

/-- IMU report fed to the loose fusor. -/
structure ImuReport where
  YawDeg : ℝ
  SpeedMps : ℝ
  ForwardDisM : ℝ
  MotionCode : ℤ
  YawSigmaCode : ℤ
  DsSigmaCode : ℤ

/-- Sensor batch accepted by the loose fusor. -/
structure SensorBatch where
  Timestamp : ℝ
  Uwb : Option UwbFix
  Imu : Option ImuReport

/-- Loose estimate produced by the loose fusor. -/
structure LooseEstimate where
  RawX : ℝ
  RawY : ℝ
  SmoothedX : ℝ
  SmoothedY : ℝ

/-- Modelled from the spec: the loose-coupling secondary filter lives in the
loose package, whose source is not part of this tree; the specification pins
only its interface (construction with a default configuration, IngestBatch
accepting either input kind, Latest reporting an estimate when one exists).
The pipeline is therefore parameterized by an arbitrary implementation of
this contract. -/
structure FusorImpl where
  State : Type
  new : State
  ingest : State → SensorBatch → State
  latest : State → Option LooseEstimate

/-- Fusion result returned by one Process call. -/
structure FusionResult where
  TimestampMs : ℤ
  X : ℝ
  Y : ℝ
  Flag : ℤ
  UsedMea : ℕ × ℕ
  NumBeacons : ℕ
  Algo : String
  Layer : Option ℤ

/-- Per-tag fusion pipeline state. -/
structure PipelineState (F : FusorImpl) where
  anchors : AnchorTable
  rssiModel : BLERssi
  ekf : EKFState
  lastTS : Option ℤ
  lastImuDist : Option ℝ
  initialized : Bool
  dimMap : ℤ → List DimMat
  beaconLayer : ℤ → ℤ
  beaconDims : ℤ → List DimMat
  layerManager : Option LayerManager
  divergeCount : ℤ
  looseFusor : F.State

/-- Short-id alias pass of NewFusionPipeline: for each configured anchor, add
the anchor under its low sixteen bits when that id is not yet bound. -/
def addShortAliases (anchors : AnchorTable) : AnchorTable :=
  anchors.foldl
    (fun acc p =>
      let short := Int.land p.1 0xFFFF
      match lookupAnchor acc short with
      | some _ => acc
      | none => acc ++ [(short, { p.2 with ID := short })])
    anchors

/-- Go NewFusionPipeline. -/
noncomputable def newFusionPipeline (F : FusorImpl) (anchors : AnchorTable)
    (rssi : BLERssi) (dimMap : ℤ → List DimMat) (beaconLayer : ℤ → ℤ)
    (beaconDims : ℤ → List DimMat) (lm : Option LayerManager) : PipelineState F :=
  { anchors := addShortAliases anchors
    rssiModel := rssi
    ekf := newEKF
    lastTS := none
    lastImuDist := none
    initialized := false
    dimMap := dimMap
    beaconLayer := beaconLayer
    beaconDims := beaconDims
    layerManager := lm
    divergeCount := 0
    looseFusor := F.new }

/-- Go FusionPipeline.chooseLayer: layer selection from the current position
or, before initialization, from the centroid of the in-view anchors. -/
noncomputable def chooseLayer {F : FusorImpl} (p : PipelineState F)
    (bleMeas : List BLEMeas) (twrMeas : List TWRMeas) (currentPos : List ℝ) : Option ℤ :=
  match p.layerManager with
  | none => none
  | some lm =>
    let pos3 :=
      if p.initialized then [currentPos.getD 0 0, currentPos.getD 1 0, 0]
      else
        let pts := (twrMeas.foldl
          (fun (acc : List ℝ × List ℝ) m =>
            match lookupAnchor p.anchors m.AnchorID with
            | some a => (acc.1 ++ [a.X], acc.2 ++ [a.Y])
            | none => acc) ([], []))
        let pts2 := bleMeas.foldl
          (fun (acc : List ℝ × List ℝ) m =>
            match lookupAnchor p.anchors m.AnchorID with
            | some a => (acc.1 ++ [a.X], acc.2 ++ [a.Y])
            | none => acc) pts
        if 0 < pts2.1.length ∧ 0 < pts2.2.length then
          [pts2.1.foldl (· + ·) 0 / (pts2.1.length : ℝ),
            pts2.2.foldl (· + ·) 0 / (pts2.2.length : ℝ), 0]
        else [0, 0, 0]
    lm.getLayer bleMeas twrMeas pos3 p.rssiModel p.anchors

/-- Minimum of the valid BLE estimated ranges collected by buildSample. -/
noncomputable def minBleEst (ranges : List ℝ) : ℝ :=
  match ranges with
  | [] => 0
  | r :: rest => rest.foldl (fun m v => if v < m then v else m) r

/-- Go FusionPipeline.buildSample. -/
noncomputable def buildSample {F : FusorImpl} (p : PipelineState F) (tsMs : ℤ) (tagID : ℤ)
    (bleMeas : List BLEMeas) (twrMeas : List TWRMeas) (tagHeight : ℝ)
    (layerSel : Option ℤ) (currentPos : List ℝ) (initialized : Bool) :
    EKFSample × List DimMat :=
  let bleAcc := bleMeas.foldl
    (fun (acc : List BLERow × List ℝ) m =>
      match lookupAnchor p.anchors m.AnchorID with
      | none => acc
      | some a =>
        let strength := p.rssiModel.strengthFromDbm m.RSSIDb
        let rows := acc.1 ++ [(⟨a.X, a.Y, a.Z, (strength : ℝ), m.AnchorID, a.Layer⟩ : BLERow)]
        if p.rssiModel.validRssi strength then
          (rows, acc.2 ++ [0.01 * ((p.rssiModel.rssi2Range strength : ℤ) : ℝ)])
        else (rows, acc.2))
    ([], [])
  let bleRows := bleAcc.1
  let bleEstRanges := bleAcc.2
  let twrRows := twrMeas.foldl
    (fun acc m =>
      match lookupAnchor p.anchors m.AnchorID with
      | none => acc
      | some a =>
        if m.Range < 0.01 ∨ 400.0 < m.Range then acc
        else if initialized ∧
            50.0 < |m.Range - hypot (a.X - currentPos.getD 0 0) (a.Y - currentPos.getD 1 0)|
          then acc
        else if 0 < bleEstRanges.length ∧
            goMax 30.0 (2.0 * minBleEst bleEstRanges) < m.Range then acc
        else acc ++ [(⟨a.X, a.Y, a.Z, m.Range, m.AnchorID, a.Layer⟩ : TWRRow)])
    []
  let bleList := bleMeas.foldl
    (fun (acc : List (ℤ × ℤ)) m =>
      match lookupAnchor p.anchors m.AnchorID with
      | none => acc
      | some _ => acc ++ [(m.AnchorID, p.rssiModel.strengthFromDbm m.RSSIDb)])
    []
  let sorted := bleList.mergeSort (fun x y => decide (x.2 ≤ y.2))
  let dimCap := 5
  let dimPos0 := sorted.foldl
    (fun (dimPos : List DimMat) item =>
      if dimCap ≤ dimPos.length then dimPos
      else
        let aid := item.1
        let layOk :=
          match layerSel with
          | none => true
          | some sel =>
            let lay0 := p.beaconLayer aid
            let lay :=
              if lay0 = 0 then
                match lookupAnchor p.anchors aid with
                | some a => a.Layer
                | none => lay0
              else lay0
            decide (lay = 0 ∨ lay = sel)
        if layOk = false then dimPos
        else
          let mats := p.beaconDims aid
          if 0 < mats.length then
            mats.foldl (fun dp mm => if dimCap ≤ dp.length then dp else dp ++ [mm]) dimPos
          else
            match lookupAnchor p.anchors aid with
            | some a => dimPos ++ [([[a.X, a.Y, a.Z]] : DimMat)]
            | none => dimPos)
    []
  let dimPos :=
    match layerSel with
    | some sel =>
      if sel ≠ OutdoorLayer then
        (p.dimMap sel).foldl (fun dp mm => if dimCap ≤ dp.length then dp else dp ++ [mm])
          dimPos0
      else dimPos0
    | none => dimPos0
  ({ Timestamp := tsMs
     TagID := tagID
     TagHeight := tagHeight
     BLE := bleRows
     TWR := twrRows
     DimPos := dimPos }, dimPos)

end EngineGo

namespace EngineGo

/-- Bootstrap block of Process: on the first usable sample, place the state
at the measurement centroid offset by one meter in each axis. -/
noncomputable def bootstrapState {F : FusorImpl} (p : PipelineState F)
    (sample : EKFSample) : PipelineState F :=
  if ¬ p.initialized ∧ (0 < sample.TWR.length ∨ 0 < sample.BLE.length) then
    let xy :=
      if 0 < sample.BLE.length then
        ((sample.BLE.foldl (fun s b => s + b.X) 0) / (sample.BLE.length : ℝ),
          (sample.BLE.foldl (fun s b => s + b.Y) 0) / (sample.BLE.length : ℝ))
      else
        ((sample.TWR.foldl (fun s t => s + t.X) 0) / (sample.TWR.length : ℝ),
          (sample.TWR.foldl (fun s t => s + t.Y) 0) / (sample.TWR.length : ℝ))
    { p with
      ekf := { p.ekf with xk := (p.ekf.xk.set 0 (xy.1 + 1.0)).set 1 (xy.2 + 1.0) }
      initialized := true
      divergeCount := 0 }
  else p

/-- Hard-reset FusionResult shared by the watchdog returns of Process. -/
def resetResult (tsMs : ℤ) (layerSel : Option ℤ) : FusionResult :=
  ⟨tsMs, 0, 0, -2, (0, 0), 0, "NA", layerSel⟩

/-- Divergence-count block of Process (step after the covariance watchdog). -/
noncomputable def divergeAdjust {F : FusorImpl} (p2 : PipelineState F) (flag : ℤ) :
    PipelineState F :=
  if flag = -3 then { p2 with divergeCount := p2.divergeCount + 1 }
  else if 0 ≤ flag then { p2 with divergeCount := 0 }
  else p2

/-- Layer recheck block of Process: recompute the layer with the post-update
position; an indeterminate layer forces flag -1. -/
noncomputable def relayerStep {F : FusorImpl} (p5 : PipelineState F)
    (bleMeas : List BLEMeas) (twrMeas : List TWRMeas) (flag : ℤ) (layerSel : Option ℤ) :
    ℤ × Option ℤ :=
  match p5.layerManager with
  | none => (flag, layerSel)
  | some lm =>
    match lm.getLayer bleMeas twrMeas [p5.ekf.xk.getD 0 0, p5.ekf.xk.getD 1 0, 0]
      p5.rssiModel p5.anchors with
    | none => (-1, layerSel)
    | some chk => (flag, some chk)

/-- Output-selection block of Process: prefer the raw loose estimate unless
it diverges from the EKF by more than twenty meters, in which case the loose
fusor is rebuilt seeded with the EKF position. -/
noncomputable def looseOutput {F : FusorImpl} (p5 : PipelineState F) (tsSec : ℝ) :
    ℝ × ℝ × PipelineState F :=
  match F.latest p5.looseFusor with
  | none => (p5.ekf.xk.getD 0 0, p5.ekf.xk.getD 1 0, p5)
  | some est =>
    if isNaN est.RawX then (p5.ekf.xk.getD 0 0, p5.ekf.xk.getD 1 0, p5)
    else
      let dist := hypot (est.RawX - p5.ekf.xk.getD 0 0) (est.RawY - p5.ekf.xk.getD 1 0)
      if 20.0 < dist then
        let fix : SensorBatch := ⟨tsSec, some ⟨p5.ekf.xk.getD 0 0, p5.ekf.xk.getD 1 0⟩, none⟩
        let seeded := F.ingest F.new fix
        (p5.ekf.xk.getD 0 0, p5.ekf.xk.getD 1 0, { p5 with looseFusor := seeded })
      else (est.RawX, est.RawY, p5)

/-- Tail of Process after the measurement update: watchdogs, loose coupling,
layer recheck and result assembly. -/
noncomputable def processTail {F : FusorImpl} (p2 : PipelineState F)
    (bleMeas : List BLEMeas) (twrMeas : List TWRMeas) (sample : EKFSample)
    (dimUsed : List DimMat) (layerSel : Option ℤ) (tsMs : ℤ) :
    FusionResult × PipelineState F :=
  let kB := p2.ekf
  let flag := kB.ret
  if 10000.0 < getE kB.Pxk 0 0 ∨ 10000.0 < getE kB.Pxk 1 1 then
    (resetResult tsMs layerSel,
      { p2 with
        ekf := resetState p2.ekf
        initialized := false
        divergeCount := 0 })
  else if flag = -3 ∧ 5 < p2.divergeCount + 1 then
    (resetResult tsMs layerSel,
      { p2 with
        ekf := resetState p2.ekf
        initialized := false
        divergeCount := 0 })
  else
    let p3 := divergeAdjust p2 flag
    let p4 := if flag = 1 then { p3 with ekf := predictConstrain p3.ekf } else p3
    let tsSec := (tsMs : ℝ) / 1000.0
    let p5 :=
      if flag = 2 then
        let fix : SensorBatch := ⟨tsSec, some ⟨p4.ekf.xk.getD 0 0, p4.ekf.xk.getD 1 0⟩, none⟩
        { p4 with looseFusor := F.ingest p4.looseFusor fix }
      else p4
    let relayer := relayerStep p5 bleMeas twrMeas flag layerSel
    let algo := if dimUsed.any (fun mm => (mm : List (List ℝ)).length = 2) then "1D" else "0D"
    let used := (p5.ekf.usedMea.getD 0 0, p5.ekf.usedMea.getD 1 0)
    let outSel := looseOutput p5 tsSec
    let outX := outSel.1
    let outY := outSel.2.1
    let p6 := outSel.2.2
    if isNaN outX ∨ isNaN outY then
      (resetResult tsMs relayer.2,
        { p6 with
          ekf := resetState p6.ekf
          initialized := false
          divergeCount := 0
          looseFusor := F.new })
    else
      (⟨tsMs, outX, outY, relayer.1, used, sample.BLE.length + sample.TWR.length, algo,
        relayer.2⟩, p6)

/-- Go FusionPipeline.Process.  The result is none exactly where the original
program panics (BLE row count beyond the BLE2Dis buffer, claim C10); every
other path yields the FusionResult together with the successor state. -/
noncomputable def process {F : FusorImpl} (p0 : PipelineState F) (tsMs0 : ℤ) (tagID : ℤ)
    (bleMeas : List BLEMeas) (twrMeas : List TWRMeas) (tagHeight : ℝ) :
    Option (FusionResult × PipelineState F) :=
  let p := if p0.lastTS = none then { p0 with lastTS := some tsMs0 } else p0
  let lastT := p.lastTS.getD tsMs0
  let currentPos :=
    if p.initialized then [p.ekf.xk.getD 0 0, p.ekf.xk.getD 1 0] else [(0 : ℝ), 0]
  let layerSel := chooseLayer p bleMeas twrMeas currentPos
  let built := buildSample p tsMs0 tagID bleMeas twrMeas tagHeight layerSel currentPos
    p.initialized
  let sample := built.1
  let dimUsed := built.2
  let p1 := bootstrapState p sample
  let tsMs := if tsMs0 ≤ lastT then lastT + 1 else tsMs0
  let dt := ((tsMs - lastT : ℤ) : ℝ) / 1000.0
  if 30.0 < dt then
    some (resetResult tsMs layerSel,
      { p1 with
        ekf := resetState p1.ekf
        initialized := false
        lastTS := some tsMs
        divergeCount := 0 })
  else
    let kA := upMeas sample (updt (goMax dt 0.01) p1.ekf)
    (kfUpdate sample kA).map fun kB =>
      processTail { p1 with ekf := kB, lastTS := some tsMs } bleMeas twrMeas sample dimUsed
        layerSel tsMs

/-- EKF predict and displacement stage of ProcessIMU: time update, state
prediction, heading displacement and world clamp of the position. -/
noncomputable def imuEKFPredictDisp (k0 : EKFState) (deltaDist yawDeg dt : ℝ) : EKFState :=
  let kA := updt (goMax dt 0.01) k0
  let xkPred := matVec kA.Phikk1 kA.xk
  let pxkPred := matAdd (matMul kA.Phikk1 (matMul kA.Pxk (transposeMat kA.Phikk1))) kA.Qk
  let rad := yawDeg * Real.pi / 180.0
  let dx := deltaDist * Real.cos rad
  let dy := deltaDist * Real.sin rad
  let xkDisp := (xkPred.set 0 (xkPred.getD 0 0 + dx)).set 1 (xkPred.getD 1 0 + dy)
  let xkClamp := (xkDisp.set 0 (clamp (xkDisp.getD 0 0) (kA.xMin.getD 0 0)
    (kA.xMax.getD 0 0))).set 1 (clamp (xkDisp.getD 1 0) (kA.xMin.getD 1 0)
    (kA.xMax.getD 1 0))
  { kA with xk := xkClamp, Pxk := pxkPred }

/-- Velocity write stage of ProcessIMU: derived velocities scaled down to
MaxVel when the speed exceeds it. -/
noncomputable def imuVelAdjust (kB : EKFState) (deltaDist yawDeg dt : ℝ) : EKFState :=
  if 0 < dt then
    let rad := yawDeg * Real.pi / 180.0
    let vx := deltaDist * Real.cos rad / dt
    let vy := deltaDist * Real.sin rad / dt
    let speed := hypot vx vy
    let scaled :=
      if MaxVel < speed then (vx * (MaxVel / speed), vy * (MaxVel / speed)) else (vx, vy)
    { kB with xk := (kB.xk.set 2 scaled.1).set 3 scaled.2 }
  else kB

/-- Main path of ProcessIMU after the sanity gate: loose-fusor feed, predict
with displacement, covariance watchdog and velocity write. -/
noncomputable def processIMUMain {F : FusorImpl} (p1 : PipelineState F) (distance : ℝ)
    (deltaDist : ℝ) (yawDeg : ℝ) (dt : ℝ) (tsMs : ℤ) : PipelineState F :=
  let tsSec := (tsMs : ℝ) / 1000.0
  let rep : SensorBatch := ⟨tsSec, none, some ⟨yawDeg, 0, distance, 1, 0, 0⟩⟩
  let p2 := { p1 with looseFusor := F.ingest p1.looseFusor rep }
  let kB := imuEKFPredictDisp p2.ekf deltaDist yawDeg dt
  if 10000.0 < getE kB.Pxk 0 0 ∨ 10000.0 < getE kB.Pxk 1 1 then
    { p2 with
      ekf := resetState kB
      initialized := false
      divergeCount := 0 }
  else
    { p2 with ekf := imuVelAdjust kB deltaDist yawDeg dt, lastTS := some tsMs }

/-- Go FusionPipeline.ProcessIMU: dead-reckoning advance of the filter. -/
noncomputable def processIMU {F : FusorImpl} (p0 : PipelineState F) (tsMs0 : ℤ)
    (distance : ℝ) (yawDeg : ℝ) : PipelineState F :=
  if p0.lastTS = none then
    { p0 with lastTS := some tsMs0, lastImuDist := some distance }
  else
    let p := if p0.lastImuDist = none then { p0 with lastImuDist := some distance } else p0
    let deltaDist := distance - p.lastImuDist.getD 0
    let p1 := { p with lastImuDist := some distance }
    let lastT := p1.lastTS.getD tsMs0
    let tsMs := if tsMs0 ≤ lastT then lastT + 1 else tsMs0
    let dt := ((tsMs - lastT : ℤ) : ℝ) / 1000.0
    if 30.0 < dt then
      { p1 with
        ekf := resetState p1.ekf
        initialized := false
        lastTS := some tsMs
        lastImuDist := some distance
        divergeCount := 0 }
    else if 5.0 < |deltaDist| ∨ (0 < dt ∧ 20.0 < |deltaDist| / dt) then p1
    else processIMUMain p1 distance deltaDist yawDeg dt tsMs

/-- One external event fed to a pipeline. -/
inductive FusionEvent : Type
  | meas (tsMs : ℤ) (tagID : ℤ) (ble : List BLEMeas) (twr : List TWRMeas) (tagHeight : ℝ)
  | imu (tsMs : ℤ) (distance : ℝ) (yawDeg : ℝ)

/-- One pipeline step; none is the out-of-bounds panic of Process. -/
noncomputable def stepPipeline {F : FusorImpl} (p : PipelineState F) :
    FusionEvent → Option (PipelineState F)
  | FusionEvent.meas tsMs tagID ble twr h => (process p tsMs tagID ble twr h).map Prod.snd
  | FusionEvent.imu tsMs dist yaw => some (processIMU p tsMs dist yaw)

/-- Run a pipeline over an event sequence from a freshly constructed state. -/
noncomputable def runPipeline (F : FusorImpl) (anchors : AnchorTable) (rssi : BLERssi)
    (dimMap : ℤ → List DimMat) (beaconLayer : ℤ → ℤ) (beaconDims : ℤ → List DimMat)
    (lm : Option LayerManager) (events : List FusionEvent) : Option (PipelineState F) :=
  events.foldlM stepPipeline (newFusionPipeline F anchors rssi dimMap beaconLayer beaconDims lm)

end EngineGo


namespace EngineGo

/-- Transition matrix written by Updt (proof-side name for the same
expression). -/
noncomputable def phiMat (n : ℕ) (dt : ℝ) : List (List ℝ) :=
  matSet (matSet (identityMat n) 0 2 dt) 1 3 dt

/-- Clamp window of the specification on the state vector: velocities within
MaxVel, path-loss exponent in [2.5, 3.5], adjustment in [7, 9]. -/
def stateBounds (v : List ℝ) : Prop :=
  -MaxVel ≤ v.getD 2 0 ∧ v.getD 2 0 ≤ MaxVel ∧ -MaxVel ≤ v.getD 3 0 ∧ v.getD 3 0 ≤ MaxVel ∧
    2.5 ≤ v.getD 4 0 ∧ v.getD 4 0 ≤ 3.5 ∧ 7 ≤ v.getD 5 0 ∧ v.getD 5 0 ≤ 9

/-- Filter invariant carried through every pipeline operation: fixed
dimensions and clamp tables, nonnegative step length, a six-element state
vector within the clamp window, and a transition matrix of the Updt form. -/
def EKFInv (k : EKFState) : Prop :=
  k.n = 6 ∧ k.xconstrain = [false, false, true, true, true, true] ∧
    k.xMin = newEKF.xMin ∧ k.xMax = newEKF.xMax ∧ 0 ≤ k.ts ∧ k.xk.length = 6 ∧
    stateBounds k.xk ∧ ∃ dt, k.Phikk1 = phiMat 6 dt

/-- A trivial loose-fusor instance used to instantiate the pipeline at
concrete inputs: its state is Unit and it never reports an estimate. -/
def trivFusor : FusorImpl :=
  { State := Unit
    new := ()
    ingest := fun s _ => s
    latest := fun _ => none }

/-- A concrete RSSI model record used to instantiate the pipeline at
concrete inputs. -/
noncomputable def trivRssi : BLERssi :=
  { Factor := 3.0
    AdjustRSSI := 8.0
    MaxRSSI := 0
    RssiThresh1 := 0
    RssiThresh2 := 0
    SideLength := 0
    HypotenuseLen := 0
    ranges := [] }

/-- A concrete pipeline configuration (trivial fusor, no anchors, no layer
manager) used to instantiate claims at concrete inputs. -/
noncomputable def trivPipeline : PipelineState trivFusor :=
  newFusionPipeline trivFusor [] trivRssi (fun _ => []) (fun _ => 0) (fun _ => []) none

/-- A loose-fusor instance with observable state: a call counter. Its state
counts ingested batches, so fusor reconstruction (replacement by F.new = 0) is
distinguishable from carrying the old instance over. -/
def natFusor : FusorImpl :=
  { State := ℕ
    new := 0
    ingest := fun s _ => s + 1
    latest := fun _ => none }

/-- A concrete pipeline over natFusor used to instantiate claims. -/
noncomputable def natPipeline : PipelineState natFusor :=
  newFusionPipeline natFusor [] trivRssi (fun _ => []) (fun _ => 0) (fun _ => []) none

/-- The natFusor pipeline after one prior call: lastTS 0 and one ingested
batch (fusor counter 1). -/
noncomputable def natPipeline1 : PipelineState natFusor :=
  { natPipeline with lastTS := some 0, looseFusor := (1 : ℕ) }

/-- The estimated-range list the BLE block of buildSample accumulates: one
entry (in meters) per known anchor whose RSSI strength is valid. -/
noncomputable def bleEstList {F : FusorImpl} (p : PipelineState F)
    (bleMeas : List BLEMeas) : List ℝ :=
  (bleMeas.foldl
    (fun (acc : List BLERow × List ℝ) m =>
      match lookupAnchor p.anchors m.AnchorID with
      | none => acc
      | some a =>
        let strength := p.rssiModel.strengthFromDbm m.RSSIDb
        let rows := acc.1 ++ [(⟨a.X, a.Y, a.Z, (strength : ℝ), m.AnchorID, a.Layer⟩ : BLERow)]
        if p.rssiModel.validRssi strength then
          (rows, acc.2 ++ [0.01 * ((p.rssiModel.rssi2Range strength : ℤ) : ℝ)])
        else (rows, acc.2))
    ([], [])).2

/-- One step of the TWR gate of buildSample as a partial row constructor:
none when the measurement is dropped (unknown anchor, range outside
[0.01, 400], initialized-state distance gate, BLE-estimate gate), otherwise
the TWR row appended to the sample. -/
noncomputable def twrRowAccept {F : FusorImpl} (p : PipelineState F) (estR : List ℝ)
    (currentPos : List ℝ) (initialized : Bool) (m : TWRMeas) : Option TWRRow :=
  match lookupAnchor p.anchors m.AnchorID with
  | none => none
  | some a =>
    if m.Range < 0.01 ∨ 400.0 < m.Range then none
    else if initialized ∧
        50.0 < |m.Range - hypot (a.X - currentPos.getD 0 0) (a.Y - currentPos.getD 1 0)|
      then none
    else if 0 < estR.length ∧ goMax 30.0 (2.0 * minBleEst estR) < m.Range then none
    else some (⟨a.X, a.Y, a.Z, m.Range, m.AnchorID, a.Layer⟩ : TWRRow)

/-- A pipeline over trivFusor with a single known anchor (id 1 at the
origin), used to instantiate claims that need known anchor ids. -/
noncomputable def anchPipeline : PipelineState trivFusor :=
  newFusionPipeline trivFusor [(1, ⟨1, 0, 0, 0, 0, 0⟩)] trivRssi (fun _ => [])
    (fun _ => 0) (fun _ => []) none

/-- Concrete position, measurements, anchors and layers exercising the
GetLayer trust-rate tie-break. -/
noncomputable def posC7 : List ℝ := [0, 0, 0]

noncomputable def twrC7 : List TWRMeas := [⟨10, 0.019⟩, ⟨11, 0.015⟩]

noncomputable def anchorsC7 : AnchorTable :=
  [((10 : ℤ), (⟨10, 0.01, 0, 0, 2, 0⟩ : Anchor)), ((11 : ℤ), (⟨11, 0.01, 0, 0, 3, 0⟩ : Anchor))]

noncomputable def layer2C7 : Layer :=
  ⟨2, 0, 0, 0, -100, -100, 100, 100, 0, [⟨-100, -100, 100, 100⟩]⟩

noncomputable def layer3C7 : Layer :=
  ⟨3, 0, 0, 0, -100, -100, 100, 100, 0, [⟨-100, -100, 100, 100⟩]⟩

/-- The RSSI model at the default configuration of the program entry point:
path-loss exponent 3.0, adjust 8.0, deployment interval 800 cm. -/
noncomputable def rssiDefault : BLERssi := initBLERssi 3.0 8.0 800

/-- Target value ry of one row of the adaptive measurement-noise loop of
KfUpdate: the innovation-based estimate floored at the row's Rmin entry. -/
noncomputable def adaptRy (rk : List ℝ) (Py0 Rmin : List (List ℝ)) (i : ℕ) : ℝ :=
  let ry0 := rk.getD i 0 * rk.getD i 0 - getE Py0 i i
  if ry0 < getE Rmin i i then getE Rmin i i else ry0

/-- Loop body of the adaptive measurement-noise update of KfUpdate, exactly
as it appears inside kfMeasAssemble. -/
noncomputable def adaptStep (rk : List ℝ) (Py0 Rmin Rmax : List (List ℝ)) (beta : ℝ)
    (M : List (List ℝ)) (i : ℕ) : List (List ℝ) :=
  let ry0 := rk.getD i 0 * rk.getD i 0 - getE Py0 i i
  let rymax := getE Rmax i i
  let rymin := getE Rmin i i
  let ry := if ry0 < rymin then rymin else ry0
  if rymax < ry then matSet M i i rymax
  else matSet M i i ((1 - beta) * getE M i i + beta * ry)

/-- Segment constraint through the origin along the y axis, used in the
concrete C1 trace. -/
noncomputable def matC1 : DimMat := [[0, 0, 0], [0, 1, 0]]

/-- Concrete sample carrying one segment constraint and no ranging rows. -/
noncomputable def sampleC1 : EKFSample :=
  { Timestamp := 0, TagID := 1, TagHeight := 1.2, BLE := [], TWR := [], DimPos := [matC1] }

/-- Constraint record after a DimConsDeter pass that enabled the segment at
line and endpoint distance zero. -/
noncomputable def dcC1 : DimConstrain :=
  { hisLen := HistoryLen
    rkExamed := List.replicate HistoryLen [0, 0, 0]
    dimConsedFlags := List.replicate HistoryLen [0, 0]
    dimConsedDis := List.replicate HistoryLen [0, 0]
    dimConsUse := [true]
    dimRkOverLim := false }

/-- Transition matrix written by Updt at dt = 0.1. -/
noncomputable def phiC1 : List (List ℝ) :=
  [[1, 0, 0.1, 0, 0, 0],
   [0, 1, 0, 0.1, 0, 0],
   [0, 0, 1, 0, 0, 0],
   [0, 0, 0, 1, 0, 0],
   [0, 0, 0, 0, 1, 0],
   [0, 0, 0, 0, 0, 1]]

/-- EKF state shaped like the outcome of UpMeas on a sample with a single
enabled dimension constraint and no real rows: one virtual measurement row
whose initial noise and adaptive bounds are all zero, the predicted position
on the segment, and the adaptive update enabled with a beta below one (beta
drops to 1/1.98 after the first adaptive update and keeps falling). -/
noncomputable def ekfC1 : EKFState :=
  { n := 6, m := 12, ts := 0.1, fading := Fading, adaptive := true, beta := 0.5, b := BetaB,
    xconstrain := [false, false, true, true, true, true],
    xMin := [0, 0, -MaxVel, -MaxVel, 2.5, 7],
    xMax := [0, 0, MaxVel, MaxVel, 3.5, 9],
    usedMea := [0, 0, 0, 1], ret := 1, HDOP := 0, HMaha := 0,
    BLE2Dis := List.replicate 12 (List.replicate 3 0),
    xk := [0, 0, 0, 0, 3, 8],
    Pxk := zeroMat 6 6,
    Phikk1 := phiC1,
    Qk := zeroMat 6 6,
    yk := [0], ykk1 := [0], Hk := [List.replicate 6 (0 : ℝ)],
    Rk := [[0]], Rmin := [[0]], Rmax := [[0]],
    Dc := dcC1,
    xkk1 := List.replicate 6 (0 : ℝ),
    Pykk1 := [[0]], rk := [0] }

/-- The state ConsHk produces from ekfC1 inside KfUpdate: the virtual row's
measurement is zero, its prediction lands exactly on the segment, and its
noise entry becomes the positive constraint noise while Rmin and Rmax stay
zero. -/
noncomputable def k1C1 : EKFState :=
  { ekfC1 with
    xkk1 := [0, 0, 0, 0, 3, 8],
    yk := [0], ykk1 := [0],
    Hk := [[1, 0, 0, 0, 0, 0]],
    Rk := [[Pow2 (DimErr * RandomModel 0 ("dh") * RandomModel 0 ("dd"))]] }

/-- A constraint-free variant of k1C1 whose single row carries nontrivial
adaptive bounds, used to exercise the in-bounds case. -/
noncomputable def k1W : EKFState :=
  { ekfC1 with yk := [1], Rk := [[1]], Rmin := [[0.5]], Rmax := [[2]] }

/-- Reading another index than the one written leaves getD unchanged. -/
theorem getD_set_ne {α : Type} (l : List α) (i j : ℕ) (a : α) (d : α) (h : i ≠ j) :
    (l.set i a).getD j d = l.getD j d := by
  induction l generalizing i j with
  | nil => simp
  | cons x xs ih =>
    cases i with
    | zero =>
      cases j with
      | zero => exact absurd rfl h
      | succ j => simp [List.set, List.getD]
    | succ i =>
      cases j with
      | zero => simp [List.set, List.getD]
      | succ j =>
        simp only [List.set, List.getD_cons_succ]
        exact ih i j (fun hij => h (by omega))

/-- Reading the written index returns the written value when it is in range. -/
theorem getD_set_self {α : Type} (l : List α) (i : ℕ) (a : α) (d : α) (h : i < l.length) :
    (l.set i a).getD i d = a := by
  induction l generalizing i with
  | nil => simp at h
  | cons x xs ih =>
    cases i with
    | zero => simp [List.set, List.getD]
    | succ i =>
      simp only [List.set, List.getD_cons_succ]
      exact ih i (by simpa using h)

/-- A list of length six is a six-element literal. -/
theorem length_six_destruct {α : Type} (l : List α) (h : l.length = 6) :
    ∃ a b c d e f, l = [a, b, c, d, e, f] := by
  match l, h with
  | [a, b, c, d, e, f], _ => exact ⟨a, b, c, d, e, f, rfl⟩

/-- hypot is nonnegative. -/
theorem hypot_nonneg (x y : ℝ) : 0 ≤ hypot x y := Real.sqrt_nonneg _

/-- The first component is bounded by the norm. -/
theorem abs_le_hypot_left (x y : ℝ) : |x| ≤ hypot x y := by
  have h : |x| = Real.sqrt (x * x) := by
    rw [← Real.sqrt_mul_self (abs_nonneg x)]
    congr 1
    exact abs_mul_abs_self x
  rw [h]
  exact Real.sqrt_le_sqrt (by nlinarith [sq_nonneg y])

/-- The second component is bounded by the norm. -/
theorem abs_le_hypot_right (x y : ℝ) : |y| ≤ hypot x y := by
  have h : hypot x y = hypot y x := by
    unfold hypot
    ring_nf
  rw [h]
  exact abs_le_hypot_left y x

/-- clamp lands in the interval when it is nonempty. -/
theorem clamp_mem (x lo hi : ℝ) (h : lo ≤ hi) : lo ≤ clamp x lo hi ∧ clamp x lo hi ≤ hi := by
  unfold clamp
  split
  · exact ⟨le_refl lo, h⟩
  · split
    · exact ⟨h, le_refl hi⟩
    · constructor <;> linarith

/-- Scaling by a factor in the unit interval keeps a symmetric bound. -/
theorem scale_keeps_bound (v s bnd : ℝ) (hb : -bnd ≤ v) (hb2 : v ≤ bnd) (h0 : 0 ≤ s)
    (h1 : s ≤ 1) : -bnd ≤ v * s ∧ v * s ≤ bnd := by
  constructor <;> nlinarith

/-- dimConsDeter rewrites only the constraint record and the counters. -/
theorem dimConsDeter_shape (s : EKFSample) (k : EKFState) :
    ∃ dc um, dimConsDeter s k = { k with Dc := dc, usedMea := um } := ⟨_, _, rfl⟩

/-- consHk rewrites only the measurement vectors. -/
theorem consHk_shape (s : EKFSample) (k : EKFState) :
    ∃ yk ykk1 Hk Rk, consHk s k =
      { k with
        yk := yk
        ykk1 := ykk1
        Hk := Hk
        Rk := Rk } := by
  unfold consHk
  split
  · exact ⟨k.yk, k.ykk1, k.Hk, k.Rk, rfl⟩
  · exact ⟨_, _, _, _, rfl⟩

/-- rkConst rewrites only the constraint record. -/
theorem rkConst_shape (k : EKFState) : ∃ dc, rkConst k = { k with Dc := dc } := ⟨_, rfl⟩

/-- managePxk rewrites only the state covariance. -/
theorem managePxk_shape (k : EKFState) : ∃ P, managePxk k = { k with Pxk := P } := ⟨_, rfl⟩

/-- updt rewrites exactly the step length, the transition and the process
noise. -/
theorem updt_shape (d : ℝ) (k : EKFState) :
    ∃ phi qk, updt d k = { k with ts := d, Phikk1 := phi, Qk := qk } := ⟨_, _, rfl⟩

/-- upMeas leaves the state vector, the transition, the process noise and the
filter configuration unchanged. -/
theorem upMeas_shape (s : EKFSample) (k : EKFState) :
    ∃ um dc yk ykk1 Hk Rk Rmin Rmax hdop P, upMeas s k =
      { k with
        usedMea := um
        Dc := dc
        yk := yk
        ykk1 := ykk1
        Hk := Hk
        Rk := Rk
        Rmin := Rmin
        Rmax := Rmax
        HDOP := hdop
        Pxk := P } := by
  exact ⟨_, _, _, _, _, _, _, _, _, _, rfl⟩

end EngineGo

namespace EngineGo

theorem newEKF_xMin_eval : newEKF.xMin = [0, 0, -1.5, -1.5, 2.5, 7.0] := by rfl

theorem newEKF_xMax_eval : newEKF.xMax = [0, 0, 1.5, 1.5, 3.5, 9.0] := by rfl

theorem identityMat6_eval :
    identityMat 6 = [[1, 0, 0, 0, 0, 0], [0, 1, 0, 0, 0, 0], [0, 0, 1, 0, 0, 0],
      [0, 0, 0, 1, 0, 0], [0, 0, 0, 0, 1, 0], [0, 0, 0, 0, 0, 1]] := by rfl

theorem phiMat6_eval (dt : ℝ) :
    phiMat 6 dt = [[1, 0, dt, 0, 0, 0], [0, 1, 0, dt, 0, 0], [0, 0, 1, 0, 0, 0],
      [0, 0, 0, 1, 0, 0], [0, 0, 0, 0, 1, 0], [0, 0, 0, 0, 0, 1]] := by
  show matSet (matSet (identityMat 6) 0 2 dt) 1 3 dt = _
  rw [identityMat6_eval]
  rfl

theorem matVec_phi6 (dt a b c d e f : ℝ) :
    matVec (phiMat 6 dt) [a, b, c, d, e, f] = [a + dt * c, b + dt * d, c, d, e, f] := by
  rw [phiMat6_eval]
  show (List.map _ _) = _
  simp only [List.map_cons, List.map_nil, List.cons.injEq, and_true]
  norm_num [List.range_succ]

end EngineGo

namespace EngineGo

theorem stateBounds_reset : stateBounds [0, 0, 0, 0, 3.0, 8.0] := by
  norm_num [stateBounds, MaxVel]

theorem resetState_inv (k : EKFState) (h : EKFInv k) : EKFInv (resetState k) := by
  obtain ⟨hn, hxc, hmin, hmax, hts, _, _, _⟩ := h
  refine ⟨hn, hxc, hmin, hmax, hts, ?_, ?_, 0, ?_⟩
  · show (((List.replicate k.n (0 : ℝ)).set 4 (PathLossExp.getD 1 0)).set 5
      (DeltaA.getD 1 0)).length = 6
    simp [hn]
  · show stateBounds (((List.replicate k.n (0 : ℝ)).set 4 (PathLossExp.getD 1 0)).set 5
      (DeltaA.getD 1 0))
    rw [hn]
    have : ((List.replicate 6 (0 : ℝ)).set 4 (PathLossExp.getD 1 0)).set 5 (DeltaA.getD 1 0)
        = [0, 0, 0, 0, 3.0, 8.0] := by rfl
    rw [this]
    exact stateBounds_reset
  · show identityMat k.n = phiMat 6 0
    rw [hn, identityMat6_eval, phiMat6_eval]

theorem updt_inv (d : ℝ) (k : EKFState) (hd : 0 ≤ d) (h : EKFInv k) : EKFInv (updt d k) := by
  obtain ⟨hn, hxc, hmin, hmax, _, hlen, hb, _⟩ := h
  refine ⟨hn, hxc, hmin, hmax, hd, hlen, hb, d, ?_⟩
  show matSet (matSet (identityMat k.n) 0 2 d) 1 3 d = phiMat 6 d
  rw [hn]
  rfl

theorem dimConsDeter_inv (s : EKFSample) (k : EKFState) (h : EKFInv k) :
    EKFInv (dimConsDeter s k) := by
  obtain ⟨dc, um, hshape⟩ := dimConsDeter_shape s k
  rw [hshape]
  exact h

theorem managePxk_inv (k : EKFState) (h : EKFInv k) : EKFInv (managePxk k) := by
  obtain ⟨P, hshape⟩ := managePxk_shape k
  rw [hshape]
  exact h

theorem upMeas_inv (s : EKFSample) (k : EKFState) (h : EKFInv k) : EKFInv (upMeas s k) := by
  obtain ⟨um, dc, yk, ykk1, Hk, Rk, Rmin, Rmax, hdop, P, hshape⟩ := upMeas_shape s k
  rw [hshape]
  exact h

theorem predictConstrain_inv (k : EKFState) (h : EKFInv k) : EKFInv (predictConstrain k) := by
  obtain ⟨hn, hxc, hmin, hmax, hts, hlen, hb, dt, hphi⟩ := h
  unfold predictConstrain
  dsimp only
  split
  · rename_i hcond
    obtain ⟨hsp, _⟩ := hcond
    have hspeed : (0 : ℝ) < hypot (k.xk.getD 2 0) (k.xk.getD 3 0) :=
      lt_trans (by norm_num) hsp
    set speed := hypot (k.xk.getD 2 0) (k.xk.getD 3 0) with hspdef
    have hscale0 : 0 ≤ goMax (speed - Deceleration * k.ts) 0.0 / speed := by
      unfold goMax
      have h0 : (0.0 : ℝ) = 0 := by norm_num
      rw [h0]
      exact div_nonneg (le_max_right _ _) hspeed.le
    have hscale1 : goMax (speed - Deceleration * k.ts) 0.0 / speed ≤ 1 := by
      unfold goMax
      have h0 : (0.0 : ℝ) = 0 := by norm_num
      rw [h0, div_le_one hspeed]
      have h1 : speed - Deceleration * k.ts ≤ speed := by
        have : 0 ≤ Deceleration * k.ts := mul_nonneg (by norm_num [Deceleration]) hts
        linarith
      exact max_le h1 hspeed.le
    obtain ⟨a, b2, c, d2, e, f, hxk⟩ := length_six_destruct k.xk hlen
    refine ⟨hn, hxc, hmin, hmax, hts, ?_, ?_, dt, hphi⟩
    · simp [hxk]
    · rw [hxk] at hb ⊢
      set scale := goMax (speed - Deceleration * k.ts) 0.0 / speed with hscdef
      simp only [stateBounds, List.getD] at hb ⊢
      simp only [List.set]
      norm_num at hb ⊢
      obtain ⟨h1, h2, h3, h4, h5, h6, h7, h8⟩ := hb
      exact ⟨(scale_keeps_bound c scale MaxVel h1 h2 hscale0 hscale1).1,
        (scale_keeps_bound c scale MaxVel h1 h2 hscale0 hscale1).2,
        (scale_keeps_bound d2 scale MaxVel h3 h4 hscale0 hscale1).1,
        (scale_keeps_bound d2 scale MaxVel h3 h4 hscale0 hscale1).2, h5, h6, h7, h8⟩
  · exact ⟨hn, hxc, hmin, hmax, hts, hlen, hb, dt, hphi⟩

end EngineGo

namespace EngineGo

section FieldLemmas

variable (s : EKFSample) (k : EKFState)

theorem rkConst_n : (rkConst k).n = k.n := rfl

theorem rkConst_xconstrain : (rkConst k).xconstrain = k.xconstrain := rfl

theorem rkConst_xMin : (rkConst k).xMin = k.xMin := rfl

theorem rkConst_xMax : (rkConst k).xMax = k.xMax := rfl

theorem rkConst_ts : (rkConst k).ts = k.ts := rfl

theorem rkConst_xk : (rkConst k).xk = k.xk := rfl

theorem rkConst_Pxk : (rkConst k).Pxk = k.Pxk := rfl

theorem rkConst_Phikk1 : (rkConst k).Phikk1 = k.Phikk1 := rfl

theorem rkConst_Qk : (rkConst k).Qk = k.Qk := rfl

theorem rkConst_usedMea : (rkConst k).usedMea = k.usedMea := rfl

theorem rkConst_Rmin : (rkConst k).Rmin = k.Rmin := rfl

theorem rkConst_Rmax : (rkConst k).Rmax = k.Rmax := rfl

theorem rkConst_Rk : (rkConst k).Rk = k.Rk := rfl

theorem rkConst_beta : (rkConst k).beta = k.beta := rfl

theorem rkConst_ret : (rkConst k).ret = k.ret := rfl

theorem consHk_n : (consHk s k).n = k.n := by unfold consHk; split <;> rfl

theorem consHk_xconstrain : (consHk s k).xconstrain = k.xconstrain := by
  unfold consHk; split <;> rfl

theorem consHk_xMin : (consHk s k).xMin = k.xMin := by unfold consHk; split <;> rfl

theorem consHk_xMax : (consHk s k).xMax = k.xMax := by unfold consHk; split <;> rfl

theorem consHk_ts : (consHk s k).ts = k.ts := by unfold consHk; split <;> rfl

theorem consHk_xk : (consHk s k).xk = k.xk := by unfold consHk; split <;> rfl

theorem consHk_Pxk : (consHk s k).Pxk = k.Pxk := by unfold consHk; split <;> rfl

theorem consHk_Phikk1 : (consHk s k).Phikk1 = k.Phikk1 := by unfold consHk; split <;> rfl

theorem consHk_Qk : (consHk s k).Qk = k.Qk := by unfold consHk; split <;> rfl

theorem consHk_usedMea : (consHk s k).usedMea = k.usedMea := by unfold consHk; split <;> rfl

theorem consHk_Rmin : (consHk s k).Rmin = k.Rmin := by unfold consHk; split <;> rfl

theorem consHk_Rmax : (consHk s k).Rmax = k.Rmax := by unfold consHk; split <;> rfl

theorem consHk_beta : (consHk s k).beta = k.beta := by unfold consHk; split <;> rfl

theorem consHk_adaptive : (consHk s k).adaptive = k.adaptive := by unfold consHk; split <;> rfl

theorem consHk_b : (consHk s k).b = k.b := by unfold consHk; split <;> rfl

theorem consHk_BLE2Dis : (consHk s k).BLE2Dis = k.BLE2Dis := by unfold consHk; split <;> rfl

theorem consHk_xkk1 : (consHk s k).xkk1 = k.xkk1 := by unfold consHk; split <;> rfl

theorem consHk_Dc : (consHk s k).Dc = k.Dc := by unfold consHk; split <;> rfl

end FieldLemmas

end EngineGo

namespace EngineGo

theorem range6_eval : List.range 6 = [0, 1, 2, 3, 4, 5] := by rfl

theorem setFold_eval (x0 : List ℝ) (h : x0.length = 6) (g : ℕ → ℝ) :
    (List.range 6).foldl (fun v i => v.set i (g i)) x0 = [g 0, g 1, g 2, g 3, g 4, g 5] := by
  obtain ⟨a, b, c, d, e, f, hx⟩ := length_six_destruct x0 h
  subst hx
  rfl

theorem kfMeasAssemble_n (k k1 : EKFState) (P : List (List ℝ)) (x : List ℝ) (t : ℕ)
    (v : List ℝ × List (List ℝ)) : (kfMeasAssemble k k1 P x t v).n = k1.n := by
  unfold kfMeasAssemble
  rw [if_pos (by simp [allFinite, allFiniteMat])]
  rfl

theorem kfMeasAssemble_xconstrain (k k1 : EKFState) (P : List (List ℝ)) (x : List ℝ)
    (t : ℕ) (v : List ℝ × List (List ℝ)) :
    (kfMeasAssemble k k1 P x t v).xconstrain = k1.xconstrain := by
  unfold kfMeasAssemble
  rw [if_pos (by simp [allFinite, allFiniteMat])]
  rfl

theorem kfMeasAssemble_xMin (k k1 : EKFState) (P : List (List ℝ)) (x : List ℝ) (t : ℕ)
    (v : List ℝ × List (List ℝ)) : (kfMeasAssemble k k1 P x t v).xMin = k1.xMin := by
  unfold kfMeasAssemble
  rw [if_pos (by simp [allFinite, allFiniteMat])]
  rfl

theorem kfMeasAssemble_xMax (k k1 : EKFState) (P : List (List ℝ)) (x : List ℝ) (t : ℕ)
    (v : List ℝ × List (List ℝ)) : (kfMeasAssemble k k1 P x t v).xMax = k1.xMax := by
  unfold kfMeasAssemble
  rw [if_pos (by simp [allFinite, allFiniteMat])]
  rfl

theorem kfMeasAssemble_ts (k k1 : EKFState) (P : List (List ℝ)) (x : List ℝ) (t : ℕ)
    (v : List ℝ × List (List ℝ)) : (kfMeasAssemble k k1 P x t v).ts = k1.ts := by
  unfold kfMeasAssemble
  rw [if_pos (by simp [allFinite, allFiniteMat])]
  rfl

theorem kfMeasAssemble_Phikk1 (k k1 : EKFState) (P : List (List ℝ)) (x : List ℝ) (t : ℕ)
    (v : List ℝ × List (List ℝ)) : (kfMeasAssemble k k1 P x t v).Phikk1 = k1.Phikk1 := by
  unfold kfMeasAssemble
  rw [if_pos (by simp [allFinite, allFiniteMat])]
  rfl

theorem kfMeasAssemble_Qk (k k1 : EKFState) (P : List (List ℝ)) (x : List ℝ) (t : ℕ)
    (v : List ℝ × List (List ℝ)) : (kfMeasAssemble k k1 P x t v).Qk = k1.Qk := by
  unfold kfMeasAssemble
  rw [if_pos (by simp [allFinite, allFiniteMat])]
  rfl

theorem kfMeasAssemble_usedMea (k k1 : EKFState) (P : List (List ℝ)) (x : List ℝ) (t : ℕ)
    (v : List ℝ × List (List ℝ)) : (kfMeasAssemble k k1 P x t v).usedMea = k1.usedMea := by
  unfold kfMeasAssemble
  rw [if_pos (by simp [allFinite, allFiniteMat])]
  rfl

theorem kfMeasAssemble_Rmin (k k1 : EKFState) (P : List (List ℝ)) (x : List ℝ) (t : ℕ)
    (v : List ℝ × List (List ℝ)) : (kfMeasAssemble k k1 P x t v).Rmin = k1.Rmin := by
  unfold kfMeasAssemble
  rw [if_pos (by simp [allFinite, allFiniteMat])]
  rfl

theorem kfMeasAssemble_Rmax (k k1 : EKFState) (P : List (List ℝ)) (x : List ℝ) (t : ℕ)
    (v : List ℝ × List (List ℝ)) : (kfMeasAssemble k k1 P x t v).Rmax = k1.Rmax := by
  unfold kfMeasAssemble
  rw [if_pos (by simp [allFinite, allFiniteMat])]
  rfl

theorem kfMeasAssemble_ret (k k1 : EKFState) (P : List (List ℝ)) (x : List ℝ) (t : ℕ)
    (v : List ℝ × List (List ℝ)) : (kfMeasAssemble k k1 P x t v).ret = 2 := by
  unfold kfMeasAssemble
  rw [if_pos (by simp [allFinite, allFiniteMat])]

theorem kfMeasAssemble_xk (k k1 : EKFState) (P : List (List ℝ)) (x : List ℝ) (t : ℕ)
    (v : List ℝ × List (List ℝ)) :
    ∃ incr : List ℝ,
      (kfMeasAssemble k k1 P x t v).xk =
        (List.range k1.n).foldl
          (fun w i =>
            if k1.xconstrain.getD i false then
              w.set i (clamp (w.getD i 0) (k1.xMin.getD i 0) (k1.xMax.getD i 0))
            else w)
          ((List.range k.n).foldl (fun w i => w.set i (x.getD i 0 + incr.getD i 0)) k.xk) := by
  unfold kfMeasAssemble
  rw [if_pos (by simp [allFinite, allFiniteMat])]
  exact ⟨_, rfl⟩

theorem conFold_eval (u0 u1 u2 u3 u4 u5 : ℝ) :
    (List.range 6).foldl
      (fun w i =>
        if (([false, false, true, true, true, true] : List Bool).getD i false : Bool) then
          w.set i (clamp (w.getD i 0) (([0, 0, -1.5, -1.5, 2.5, 7.0] : List ℝ).getD i 0)
            (([0, 0, 1.5, 1.5, 3.5, 9.0] : List ℝ).getD i 0))
        else w)
      [u0, u1, u2, u3, u4, u5] =
      [u0, u1, clamp u2 (-1.5) 1.5, clamp u3 (-1.5) 1.5, clamp u4 2.5 3.5,
        clamp u5 7.0 9.0] := by
  rfl

theorem kfMeasAssemble_inv (k k1 : EKFState) (P : List (List ℝ)) (x : List ℝ) (t : ℕ)
    (v : List ℝ × List (List ℝ)) (hn1 : k1.n = 6)
    (hxc1 : k1.xconstrain = [false, false, true, true, true, true])
    (hmin1 : k1.xMin = newEKF.xMin) (hmax1 : k1.xMax = newEKF.xMax) (hts1 : 0 ≤ k1.ts)
    (hkn : k.n = 6) (hxklen : k.xk.length = 6) (hphi : ∃ dt, k1.Phikk1 = phiMat 6 dt) :
    EKFInv (kfMeasAssemble k k1 P x t v) := by
  obtain ⟨incr, hxk⟩ := kfMeasAssemble_xk k k1 P x t v
  rw [hn1, hkn, hxc1, hmin1, hmax1, newEKF_xMin_eval, newEKF_xMax_eval,
    setFold_eval k.xk hxklen, conFold_eval] at hxk
  obtain ⟨dt, hphi⟩ := hphi
  refine ⟨?_, ?_, ?_, ?_, ?_, ?_, ?_, dt, ?_⟩
  · rw [kfMeasAssemble_n, hn1]
  · rw [kfMeasAssemble_xconstrain, hxc1]
  · rw [kfMeasAssemble_xMin, hmin1]
  · rw [kfMeasAssemble_xMax, hmax1]
  · rw [kfMeasAssemble_ts]
    exact hts1
  · rw [hxk]
    rfl
  · rw [hxk]
    unfold stateBounds
    norm_num [MaxVel]
    have h23 := clamp_mem (x.getD 2 0 + incr.getD 2 0) (-1.5) 1.5 (by norm_num)
    have h33 := clamp_mem (x.getD 3 0 + incr.getD 3 0) (-1.5) 1.5 (by norm_num)
    have h43 := clamp_mem (x.getD 4 0 + incr.getD 4 0) 2.5 3.5 (by norm_num)
    have h53 := clamp_mem (x.getD 5 0 + incr.getD 5 0) 7.0 9.0 (by norm_num)
    norm_num at h23 h33 h43 h53
    exact ⟨h23.1, h23.2, h33.1, h33.2, h43.1, h43.2, h53.1, h53.2⟩
  · rw [kfMeasAssemble_Phikk1]
    exact hphi

end EngineGo

namespace EngineGo

theorem kfUpdate_pres (s : EKFSample) (k kp : EKFState) (h : kfUpdate s k = some kp) :
    kp.n = k.n ∧ kp.xconstrain = k.xconstrain ∧ kp.xMin = k.xMin ∧ kp.xMax = k.xMax ∧
    kp.ts = k.ts ∧ kp.Qk = k.Qk ∧ kp.Phikk1 = k.Phikk1 ∧ kp.usedMea = k.usedMea ∧
    kp.Rmin = k.Rmin ∧ kp.Rmax = k.Rmax ∧ (kp.ret = 1 ∨ kp.ret = 2) := by
  unfold kfUpdate at h
  dsimp only at h
  split at h
  · obtain rfl : _ = kp := Option.some.inj h
    exact ⟨rfl, rfl, rfl, rfl, rfl, rfl, rfl, rfl, rfl, rfl, Or.inl rfl⟩
  · rw [Option.map_eq_some'] at h
    obtain ⟨v, hv, hkp⟩ := h
    subst hkp
    refine ⟨?_, ?_, ?_, ?_, ?_, ?_, ?_, ?_, ?_, ?_, Or.inr ?_⟩
    · rw [kfMeasAssemble_n, consHk_n]
    · rw [kfMeasAssemble_xconstrain, consHk_xconstrain]
    · rw [kfMeasAssemble_xMin, consHk_xMin]
    · rw [kfMeasAssemble_xMax, consHk_xMax]
    · rw [kfMeasAssemble_ts, consHk_ts]
    · rw [kfMeasAssemble_Qk, consHk_Qk]
    · rw [kfMeasAssemble_Phikk1, consHk_Phikk1]
    · rw [kfMeasAssemble_usedMea, consHk_usedMea]
    · rw [kfMeasAssemble_Rmin, consHk_Rmin]
    · rw [kfMeasAssemble_Rmax, consHk_Rmax]
    · rw [kfMeasAssemble_ret]

theorem kfUpdate_inv (s : EKFSample) (k kp : EKFState) (h : kfUpdate s k = some kp)
    (hI : EKFInv k) : EKFInv kp := by
  obtain ⟨hn, hxc, hmin, hmax, hts, hlen, hb, dt, hphi⟩ := hI
  unfold kfUpdate at h
  dsimp only at h
  split at h
  · obtain rfl : _ = kp := Option.some.inj h
    obtain ⟨a, b2, c, d2, e, f, hxk⟩ := length_six_destruct k.xk hlen
    refine ⟨hn, hxc, hmin, hmax, hts, ?_, ?_, dt, hphi⟩
    · show (matVec k.Phikk1 k.xk).length = 6
      rw [hphi, hxk, matVec_phi6]
      rfl
    · show stateBounds (matVec k.Phikk1 k.xk)
      rw [hphi, hxk, matVec_phi6]
      rw [hxk] at hb
      unfold stateBounds at hb ⊢
      simpa using hb
  · rw [Option.map_eq_some'] at h
    obtain ⟨v, hv, hkp⟩ := h
    subst hkp
    refine kfMeasAssemble_inv _ _ _ _ _ _ ?_ ?_ ?_ ?_ ?_ hn hlen ?_
    · rw [consHk_n]
      exact hn
    · rw [consHk_xconstrain]
      exact hxc
    · rw [consHk_xMin]
      exact hmin
    · rw [consHk_xMax]
      exact hmax
    · rw [consHk_ts]
      exact hts
    · rw [consHk_Phikk1]
      exact ⟨dt, hphi⟩

end EngineGo

namespace EngineGo

theorem set01_keeps (v : List ℝ) (a b : ℝ) (hlen : v.length = 6) (hb : stateBounds v) :
    ((v.set 0 a).set 1 b).length = 6 ∧ stateBounds ((v.set 0 a).set 1 b) := by
  obtain ⟨x0, x1, x2, x3, x4, x5, hx⟩ := length_six_destruct v hlen
  subst hx
  unfold stateBounds at hb ⊢
  simpa using hb

theorem bootstrapState_inv {F : FusorImpl} (p : PipelineState F) (s : EKFSample)
    (h : EKFInv p.ekf) : EKFInv (bootstrapState p s).ekf := by
  unfold bootstrapState
  split
  · obtain ⟨hn, hxc, hmin, hmax, hts, hlen, hb, dt, hphi⟩ := h
    obtain ⟨hlen2, hb2⟩ := set01_keeps p.ekf.xk _ _ hlen hb
    exact ⟨hn, hxc, hmin, hmax, hts, hlen2, hb2, dt, hphi⟩
  · exact h

theorem divergeAdjust_ekf {F : FusorImpl} (p : PipelineState F) (flag : ℤ) :
    (divergeAdjust p flag).ekf = p.ekf := by
  unfold divergeAdjust
  split
  · rfl
  · split <;> rfl

theorem looseOutput_ekf {F : FusorImpl} (p : PipelineState F) (tsSec : ℝ) :
    (looseOutput p tsSec).2.2.ekf = p.ekf := by
  unfold looseOutput
  split
  · rfl
  · split
    · rfl
    · dsimp only
      split <;> rfl

theorem processTail_inv {F : FusorImpl} (p2 : PipelineState F) (ble : List BLEMeas)
    (twr : List TWRMeas) (sample : EKFSample) (dimUsed : List DimMat)
    (layerSel : Option ℤ) (tsMs : ℤ) (h : EKFInv p2.ekf) :
    EKFInv (processTail p2 ble twr sample dimUsed layerSel tsMs).2.ekf := by
  unfold processTail
  dsimp only
  split
  · exact resetState_inv _ h
  · split
    · exact resetState_inv _ h
    · simp only [isNaN, Bool.false_eq_true, or_self, if_false]
      rw [looseOutput_ekf]
      split
      · split
        · show EKFInv (predictConstrain (divergeAdjust p2 p2.ekf.ret).ekf)
          exact predictConstrain_inv _ (by rw [divergeAdjust_ekf]; exact h)
        · show EKFInv (divergeAdjust p2 p2.ekf.ret).ekf
          rw [divergeAdjust_ekf]
          exact h
      · split
        · exact predictConstrain_inv _ (by rw [divergeAdjust_ekf]; exact h)
        · rw [divergeAdjust_ekf]
          exact h

end EngineGo

namespace EngineGo

theorem process_inv {F : FusorImpl} (p0 : PipelineState F) (tsMs0 tagID : ℤ)
    (ble : List BLEMeas) (twr : List TWRMeas) (h : ℝ) (r : FusionResult)
    (pp : PipelineState F) (hres : process p0 tsMs0 tagID ble twr h = some (r, pp))
    (hI : EKFInv p0.ekf) : EKFInv pp.ekf := by
  unfold process at hres
  dsimp only at hres
  have hIp : EKFInv (if p0.lastTS = none then
      ({ p0 with lastTS := some tsMs0 } : PipelineState F) else p0).ekf := by
    split <;> exact hI
  set p := if p0.lastTS = none then
    ({ p0 with lastTS := some tsMs0 } : PipelineState F) else p0 with hpdef
  have hgoal : EKFInv ((r, pp).2).ekf → EKFInv pp.ekf := fun x => x
  split at hres <;> split at hres <;>
    first
      | (apply hgoal
         rw [← Option.some.inj hres]
         exact resetState_inv _ (bootstrapState_inv _ _ hIp))
      | (rw [Option.map_eq_some'] at hres
         obtain ⟨kB, hkB, hrp⟩ := hres
         have hkBI : EKFInv kB := by
           refine kfUpdate_inv _ _ _ hkB ?_
           refine upMeas_inv _ _ ?_
           refine updt_inv _ _ ?_ (bootstrapState_inv _ _ hIp)
           unfold goMax
           exact le_trans (by norm_num) (le_max_right _ _)
         apply hgoal
         rw [← hrp]
         exact processTail_inv _ _ _ _ _ _ _ hkBI)

end EngineGo

namespace EngineGo

theorem set23_bounds (v : List ℝ) (s1 s2 : ℝ) (hlen : v.length = 6) (hb : stateBounds v)
    (h1 : -MaxVel ≤ s1) (h2 : s1 ≤ MaxVel) (h3 : -MaxVel ≤ s2) (h4 : s2 ≤ MaxVel) :
    ((v.set 2 s1).set 3 s2).length = 6 ∧ stateBounds ((v.set 2 s1).set 3 s2) := by
  obtain ⟨x0, x1, x2, x3, x4, x5, hx⟩ := length_six_destruct v hlen
  subst hx
  unfold stateBounds at hb ⊢
  simp only [List.set, List.getD] at hb ⊢
  norm_num at hb ⊢
  exact ⟨h1, h2, h3, h4, hb.2.2.2.2⟩

theorem imuScaled_bounds (vx vy : ℝ) :
    -MaxVel ≤ (if MaxVel < hypot vx vy then
        (vx * (MaxVel / hypot vx vy), vy * (MaxVel / hypot vx vy)) else (vx, vy)).1 ∧
      (if MaxVel < hypot vx vy then
        (vx * (MaxVel / hypot vx vy), vy * (MaxVel / hypot vx vy)) else (vx, vy)).1 ≤ MaxVel ∧
      -MaxVel ≤ (if MaxVel < hypot vx vy then
        (vx * (MaxVel / hypot vx vy), vy * (MaxVel / hypot vx vy)) else (vx, vy)).2 ∧
      (if MaxVel < hypot vx vy then
        (vx * (MaxVel / hypot vx vy), vy * (MaxVel / hypot vx vy)) else (vx, vy)).2 ≤ MaxVel := by
  have hx := abs_le_hypot_left vx vy
  have hy := abs_le_hypot_right vx vy
  have hM : (0 : ℝ) < MaxVel := by norm_num [MaxVel]
  split
  · rename_i hgt
    have hsp : (0 : ℝ) < hypot vx vy := lt_trans hM hgt
    have hxb : |vx * (MaxVel / hypot vx vy)| ≤ MaxVel := by
      rw [abs_mul, abs_of_nonneg (div_nonneg hM.le hsp.le)]
      calc |vx| * (MaxVel / hypot vx vy) ≤ hypot vx vy * (MaxVel / hypot vx vy) := by
            apply mul_le_mul_of_nonneg_right hx (div_nonneg hM.le hsp.le)
        _ = MaxVel := by field_simp
    have hyb : |vy * (MaxVel / hypot vx vy)| ≤ MaxVel := by
      rw [abs_mul, abs_of_nonneg (div_nonneg hM.le hsp.le)]
      calc |vy| * (MaxVel / hypot vx vy) ≤ hypot vx vy * (MaxVel / hypot vx vy) := by
            apply mul_le_mul_of_nonneg_right hy (div_nonneg hM.le hsp.le)
        _ = MaxVel := by field_simp
    obtain ⟨ha, hb⟩ := abs_le.mp hxb
    obtain ⟨hc, hd⟩ := abs_le.mp hyb
    exact ⟨ha, hb, hc, hd⟩
  · rename_i hle
    push_neg at hle
    have hxb := abs_le.mp (le_trans hx hle)
    have hyb := abs_le.mp (le_trans hy hle)
    exact ⟨hxb.1, hxb.2, hyb.1, hyb.2⟩

end EngineGo

namespace EngineGo

theorem imuEKFPredictDisp_inv (k0 : EKFState) (deltaDist yaw dt : ℝ) (hI : EKFInv k0) :
    EKFInv (imuEKFPredictDisp k0 deltaDist yaw dt) := by
  unfold imuEKFPredictDisp
  dsimp only
  have hkA : EKFInv (updt (goMax dt 0.01) k0) := by
    refine updt_inv _ _ ?_ hI
    unfold goMax
    exact le_trans (by norm_num) (le_max_right _ _)
  obtain ⟨hn, hxc, hmin, hmax, hts, hlen, hb, dt2, hphi⟩ := hkA
  set kA := updt (goMax dt 0.01) k0 with hkAdef
  have hbpred : stateBounds (matVec kA.Phikk1 kA.xk) := by
    obtain ⟨a, b2, c, d2, e, f, hxk⟩ := length_six_destruct kA.xk hlen
    rw [hphi, hxk, matVec_phi6]
    rw [hxk] at hb
    unfold stateBounds at hb ⊢
    simpa using hb
  have hlpred : (matVec kA.Phikk1 kA.xk).length = 6 := by
    obtain ⟨a, b2, c, d2, e, f, hxk⟩ := length_six_destruct kA.xk hlen
    rw [hphi, hxk, matVec_phi6]
    rfl
  refine ⟨hn, hxc, hmin, hmax, hts, ?_, ?_, dt2, hphi⟩
  · exact (set01_keeps _ _ _ (set01_keeps _ _ _ hlpred hbpred).1
      (set01_keeps _ _ _ hlpred hbpred).2).1
  · exact (set01_keeps _ _ _ (set01_keeps _ _ _ hlpred hbpred).1
      (set01_keeps _ _ _ hlpred hbpred).2).2

theorem imuVelAdjust_inv (kB : EKFState) (deltaDist yaw dt : ℝ) (hI : EKFInv kB) :
    EKFInv (imuVelAdjust kB deltaDist yaw dt) := by
  unfold imuVelAdjust
  dsimp only
  split
  · obtain ⟨hkn, hkxc, hkmin, hkmax, hkts, hklen, hkb, dt3, hkphi⟩ := hI
    have hsc := imuScaled_bounds (deltaDist * Real.cos (yaw * Real.pi / 180.0) / dt)
      (deltaDist * Real.sin (yaw * Real.pi / 180.0) / dt)
    have h23 := set23_bounds _ _ _ hklen hkb hsc.1 hsc.2.1 hsc.2.2.1 hsc.2.2.2
    exact ⟨hkn, hkxc, hkmin, hkmax, hkts, h23.1, h23.2, dt3, hkphi⟩
  · exact hI

theorem processIMUMain_inv {F : FusorImpl} (p1 : PipelineState F)
    (distance deltaDist yaw dt : ℝ) (tsMs : ℤ) (hI : EKFInv p1.ekf) :
    EKFInv (processIMUMain p1 distance deltaDist yaw dt tsMs).ekf := by
  unfold processIMUMain
  dsimp only
  split
  · exact resetState_inv _ (imuEKFPredictDisp_inv _ _ _ _ hI)
  · exact imuVelAdjust_inv _ _ _ _ (imuEKFPredictDisp_inv _ _ _ _ hI)

theorem processIMU_inv {F : FusorImpl} (p0 : PipelineState F) (tsMs0 : ℤ) (dist yaw : ℝ)
    (hI : EKFInv p0.ekf) : EKFInv (processIMU p0 tsMs0 dist yaw).ekf := by
  unfold processIMU
  dsimp only
  split
  · exact hI
  · have hIp : EKFInv (if p0.lastImuDist = none then
        ({ p0 with lastImuDist := some dist } : PipelineState F) else p0).ekf := by
      split <;> exact hI
    set p := if p0.lastImuDist = none then
      ({ p0 with lastImuDist := some dist } : PipelineState F) else p0 with hpdef
    split
    all_goals
      split
      · exact resetState_inv _ hIp
      · split
        · exact hIp
        · refine processIMUMain_inv _ _ _ _ _ _ ?_
          exact hIp

end EngineGo

namespace EngineGo

theorem newEKF_inv : EKFInv newEKF := by
  refine ⟨rfl, rfl, rfl, rfl, ?_, ?_, ?_, 0, ?_⟩
  · show (0 : ℝ) ≤ 0.1
    norm_num
  · rfl
  · show stateBounds (((List.replicate StateDim (0 : ℝ)).set 4 (PathLossExp.getD 1 0)).set 5
      (DeltaA.getD 1 0))
    have h : ((List.replicate StateDim (0 : ℝ)).set 4 (PathLossExp.getD 1 0)).set 5
        (DeltaA.getD 1 0) = [0, 0, 0, 0, 3.0, 8.0] := by rfl
    rw [h]
    exact stateBounds_reset
  · show identityMat 6 = phiMat 6 0
    rw [identityMat6_eval, phiMat6_eval]

theorem stepPipeline_inv {F : FusorImpl} (p q : PipelineState F) (e : FusionEvent)
    (hstep : stepPipeline p e = some q) (hI : EKFInv p.ekf) : EKFInv q.ekf := by
  cases e with
  | meas tsMs tagID ble twr hgt =>
    unfold stepPipeline at hstep
    rw [Option.map_eq_some'] at hstep
    obtain ⟨rp, hproc, hq⟩ := hstep
    rw [← hq]
    exact process_inv p tsMs tagID ble twr hgt rp.1 rp.2 hproc hI
  | imu tsMs dist yaw =>
    unfold stepPipeline at hstep
    rw [← Option.some.inj hstep]
    exact processIMU_inv p tsMs dist yaw hI

theorem foldPipeline_inv {F : FusorImpl} (events : List FusionEvent) (p q : PipelineState F)
    (hI : EKFInv p.ekf) (hrun : events.foldlM stepPipeline p = some q) : EKFInv q.ekf := by
  induction events generalizing p with
  | nil =>
    rw [List.foldlM_nil] at hrun
    rw [← Option.some.inj hrun]
    exact hI
  | cons e es ih =>
    rw [List.foldlM_cons] at hrun
    cases hstep : stepPipeline p e with
    | none =>
      rw [hstep] at hrun
      simp at hrun
    | some p1 =>
      rw [hstep] at hrun
      simp only [Option.bind_eq_bind, Option.some_bind] at hrun
      exact ih p1 (stepPipeline_inv p p1 e hstep hI) hrun

/-- C2: for every sequence of Process and ProcessIMU calls on a pipeline
(modelled as a run of `runPipeline` over any event list), after each call the
EKF state satisfies vx, vy ∈ [-MaxVel, MaxVel] with MaxVel = 1.5, n ∈
[2.5, 3.5] and A ∈ [7, 9]; every prefix of a sequence is itself a sequence, so
the final state of an arbitrary run covers the state after every call. -/
theorem claim_C2_state_bounds (F : FusorImpl) (anchors : AnchorTable) (rssi : BLERssi)
    (dimMap : ℤ → List DimMat) (beaconLayer : ℤ → ℤ) (beaconDims : ℤ → List DimMat)
    (lm : Option LayerManager) (events : List FusionEvent) (p : PipelineState F)
    (hrun : runPipeline F anchors rssi dimMap beaconLayer beaconDims lm events = some p) :
    -MaxVel ≤ p.ekf.xk.getD 2 0 ∧ p.ekf.xk.getD 2 0 ≤ MaxVel ∧
      -MaxVel ≤ p.ekf.xk.getD 3 0 ∧ p.ekf.xk.getD 3 0 ≤ MaxVel ∧
      2.5 ≤ p.ekf.xk.getD 4 0 ∧ p.ekf.xk.getD 4 0 ≤ 3.5 ∧
      7 ≤ p.ekf.xk.getD 5 0 ∧ p.ekf.xk.getD 5 0 ≤ 9 := by
  unfold runPipeline at hrun
  have hI : EKFInv (newFusionPipeline F anchors rssi dimMap beaconLayer beaconDims lm).ekf :=
    newEKF_inv
  exact (foldPipeline_inv events _ p hI hrun).2.2.2.2.2.2.1

/-- Witness for C2 at a concrete pipeline configuration and the empty event
sequence. -/
theorem claim_C2_state_bounds_witness :
    -MaxVel ≤ ((newFusionPipeline trivFusor [] trivRssi (fun _ => []) (fun _ => 0)
        (fun _ => []) none).ekf.xk.getD 2 0) ∧
      ((newFusionPipeline trivFusor [] trivRssi (fun _ => []) (fun _ => 0)
        (fun _ => []) none).ekf.xk.getD 2 0) ≤ MaxVel ∧
      -MaxVel ≤ ((newFusionPipeline trivFusor [] trivRssi (fun _ => []) (fun _ => 0)
        (fun _ => []) none).ekf.xk.getD 3 0) ∧
      ((newFusionPipeline trivFusor [] trivRssi (fun _ => []) (fun _ => 0)
        (fun _ => []) none).ekf.xk.getD 3 0) ≤ MaxVel ∧
      2.5 ≤ ((newFusionPipeline trivFusor [] trivRssi (fun _ => []) (fun _ => 0)
        (fun _ => []) none).ekf.xk.getD 4 0) ∧
      ((newFusionPipeline trivFusor [] trivRssi (fun _ => []) (fun _ => 0)
        (fun _ => []) none).ekf.xk.getD 4 0) ≤ 3.5 ∧
      7 ≤ ((newFusionPipeline trivFusor [] trivRssi (fun _ => []) (fun _ => 0)
        (fun _ => []) none).ekf.xk.getD 5 0) ∧
      ((newFusionPipeline trivFusor [] trivRssi (fun _ => []) (fun _ => 0)
        (fun _ => []) none).ekf.xk.getD 5 0) ≤ 9 :=
  claim_C2_state_bounds trivFusor [] trivRssi (fun _ => []) (fun _ => 0) (fun _ => [])
    none [] _ rfl

/-- C6: a Process call whose time step exceeds 30 seconds (the pipeline has a
previous timestamp L and the new timestamp exceeds L + 30000 ms, the only way
the computed dt can exceed 30 s) resets the EKF state, marks the pipeline
uninitialized, and returns flag -2, x = 0, y = 0 and algo "NA". -/
theorem claim_C6_dt_reset {F : FusorImpl} (p0 : PipelineState F) (tsMs0 tagID : ℤ)
    (ble : List BLEMeas) (twr : List TWRMeas) (hgt : ℝ) (L : ℤ)
    (hL : p0.lastTS = some L) (hdt : L + 30000 < tsMs0) :
    ∃ r pp, process p0 tsMs0 tagID ble twr hgt = some (r, pp) ∧
      r.Flag = -2 ∧ r.X = 0 ∧ r.Y = 0 ∧ r.Algo = "NA" ∧
      pp.initialized = false ∧ (∃ k, pp.ekf = resetState k) := by
  have hlt : L < tsMs0 := by linarith
  have h30 : (30.0 : ℝ) < ((tsMs0 - L : ℤ) : ℝ) / 1000.0 := by
    have hc : (30000 : ℝ) < ((tsMs0 - L : ℤ) : ℝ) := by
      exact_mod_cast (by linarith : (30000 : ℤ) < tsMs0 - L)
    linarith
  unfold process
  dsimp only
  simp only [hL, Option.getD_some, if_neg (Option.some_ne_none L),
    if_neg (not_le.mpr hlt), if_pos h30]
  exact ⟨_, _, rfl, rfl, rfl, rfl, rfl, rfl, _, rfl⟩

/-- Witness for C6: a concrete pipeline with lastTS 0 processed at 40000 ms. -/
theorem claim_C6_dt_reset_witness :
    ∃ r pp, process ({ trivPipeline with lastTS := some 0 }) 40000 1 [] [] 1.2
        = some (r, pp) ∧
      r.Flag = -2 ∧ r.X = 0 ∧ r.Y = 0 ∧ r.Algo = "NA" ∧
      pp.initialized = false ∧ (∃ k, pp.ekf = resetState k) :=
  claim_C6_dt_reset ({ trivPipeline with lastTS := some 0 }) 40000 1 [] [] 1.2 0 rfl
    (by norm_num)

theorem bootstrapState_looseFusor {F : FusorImpl} (p : PipelineState F)
    (sample : EKFSample) : (bootstrapState p sample).looseFusor = p.looseFusor := by
  unfold bootstrapState
  split <;> rfl

theorem process_dt_reset_keeps_fusor {F : FusorImpl} (p0 : PipelineState F)
    (tsMs0 tagID : ℤ) (ble : List BLEMeas) (twr : List TWRMeas) (hgt : ℝ) (L : ℤ)
    (hL : p0.lastTS = some L) (hdt : L + 30000 < tsMs0) :
    ∃ r pp, process p0 tsMs0 tagID ble twr hgt = some (r, pp) ∧
      r.Flag = -2 ∧ pp.initialized = false ∧ pp.looseFusor = p0.looseFusor := by
  have hlt : L < tsMs0 := by linarith
  have h30 : (30.0 : ℝ) < ((tsMs0 - L : ℤ) : ℝ) / 1000.0 := by
    have hc : (30000 : ℝ) < ((tsMs0 - L : ℤ) : ℝ) := by
      exact_mod_cast (by linarith : (30000 : ℤ) < tsMs0 - L)
    linarith
  unfold process
  dsimp only
  simp only [hL, Option.getD_some, if_neg (Option.some_ne_none L),
    if_neg (not_le.mpr hlt), if_pos h30]
  exact ⟨_, _, rfl, rfl, rfl, bootstrapState_looseFusor _ _⟩

/-- The relayer step never introduces the reset flag: it keeps the incoming
flag or forces -1 on an indeterminate layer. -/
theorem relayerStep_ne {F : FusorImpl} (p5 : PipelineState F) (ble : List BLEMeas)
    (twr : List TWRMeas) (flag : ℤ) (layerSel : Option ℤ) (h : ¬ flag = -2) :
    ¬ (relayerStep p5 ble twr flag layerSel).1 = -2 := by
  unfold relayerStep
  split
  · exact h
  · split
    · intro hc
      have hc2 : (-1 : ℤ) = -2 := hc
      exact absurd hc2 (by decide)
    · exact h

/-- In the embedding KfUpdate returns ret 1 (predict only) or ret 2 (the
finiteness check always passes over the reals). -/
theorem kfUpdate_ret (sample : EKFSample) (k : EKFState) (kB : EKFState)
    (h : kfUpdate sample k = some kB) : kB.ret = 1 ∨ kB.ret = 2 := by
  unfold kfUpdate at h
  dsimp only at h
  split at h
  · have h2 := Option.some.inj h
    exact Or.inl (by rw [← h2])
  · rw [Option.map_eq_some'] at h
    obtain ⟨a, ha, hfa⟩ := h
    exact Or.inr (by rw [← hfa, kfMeasAssemble_ret])

/-- Both hard-reset returns of the Process tail leave the pipeline
uninitialized and keep the loose fusor, and no other path of the tail
reports flag -2. -/
theorem processTail_reset {F : FusorImpl} (p2 : PipelineState F) (ble : List BLEMeas)
    (twr : List TWRMeas) (sample : EKFSample) (dimUsed : List DimMat)
    (layerSel : Option ℤ) (tsMs : ℤ) (r : FusionResult) (pp : PipelineState F)
    (hret : p2.ekf.ret = 1 ∨ p2.ekf.ret = 2)
    (heq : processTail p2 ble twr sample dimUsed layerSel tsMs = (r, pp))
    (hflag : r.Flag = -2) :
    pp.initialized = false ∧ pp.looseFusor = p2.looseFusor := by
  unfold processTail at heq
  dsimp only at heq
  split at heq
  · rw [Prod.mk.injEq] at heq
    obtain ⟨h1, h2⟩ := heq
    rw [← h2]
    exact ⟨rfl, rfl⟩
  · split at heq
    · rw [Prod.mk.injEq] at heq
      obtain ⟨h1, h2⟩ := heq
      rw [← h2]
      exact ⟨rfl, rfl⟩
    · rw [if_neg (by simp [isNaN])] at heq
      rw [Prod.mk.injEq] at heq
      obtain ⟨h1, h2⟩ := heq
      rw [← h1] at hflag
      dsimp only at hflag
      have hne : ¬ p2.ekf.ret = -2 := by
        rcases hret with hh | hh
        · rw [hh]
          decide
        · rw [hh]
          decide
      exact absurd hflag (relayerStep_ne _ _ _ _ _ hne)

/-- C4, amended: every hard reset Process reports (flag -2, which covers the
dt > 30, covariance-watchdog and divergence-count reset paths) leaves the
pipeline uninitialized, but the loose fusor is carried over unchanged rather
than reconstructed. -/
theorem claim_C4_reset_keeps_fusor {F : FusorImpl} (p0 : PipelineState F)
    (tsMs0 tagID : ℤ) (ble : List BLEMeas) (twr : List TWRMeas) (hgt : ℝ)
    (r : FusionResult) (pp : PipelineState F)
    (heq : process p0 tsMs0 tagID ble twr hgt = some (r, pp)) (hflag : r.Flag = -2) :
    pp.initialized = false ∧ pp.looseFusor = p0.looseFusor := by
  unfold process at heq
  dsimp only at heq
  repeat' split at heq
  all_goals first
  | (have h2 := Option.some.inj heq
     rw [Prod.mk.injEq] at h2
     obtain ⟨h2a, h2b⟩ := h2
     rw [← h2b]
     refine ⟨rfl, ?_⟩
     show (bootstrapState _ _).looseFusor = p0.looseFusor
     rw [bootstrapState_looseFusor])
  | (rw [Option.map_eq_some'] at heq
     obtain ⟨kB, hkB, hf⟩ := heq
     have hret : kB.ret = 1 ∨ kB.ret = 2 := kfUpdate_ret _ _ _ hkB
     have h := processTail_reset _ _ _ _ _ _ _ _ _ hret hf hflag
     refine ⟨h.1, ?_⟩
     rw [h.2]
     show (bootstrapState _ _).looseFusor = p0.looseFusor
     rw [bootstrapState_looseFusor])

/-- Witness for the amended C4: a concrete dt > 30 hard reset where the old
fusor state (counter one) is carried over. -/
theorem claim_C4_reset_keeps_fusor_witness :
    ∃ r pp, process natPipeline1 40000 1 [] [] 1.2 = some (r, pp) ∧ r.Flag = -2 ∧
      pp.initialized = false ∧ pp.looseFusor = natPipeline1.looseFusor := by
  obtain ⟨r, pp, heq, hflag, _, _⟩ := process_dt_reset_keeps_fusor natPipeline1 40000 1 [] []
    1.2 0 rfl (by norm_num)
  obtain ⟨hi, hf⟩ := claim_C4_reset_keeps_fusor natPipeline1 40000 1 [] [] 1.2 r pp heq hflag
  exact ⟨r, pp, heq, hflag, hi, hf⟩

/-- Counterexample to C4 as stated: a concrete Process call takes the dt > 30
hard reset (flag -2, uninitialized) yet the loose fusor afterwards is the old
instance (counter 1), not a reconstructed one (natFusor.new = 0). -/
theorem claim_C4_counterexample :
    ∃ r pp, process natPipeline1 40000 1 [] [] 1.2 = some (r, pp) ∧
      r.Flag = -2 ∧ pp.initialized = false ∧ ¬ pp.looseFusor = natFusor.new := by
  obtain ⟨r, pp, heq, hflag, hinit, hfus⟩ := process_dt_reset_keeps_fusor
    natPipeline1 40000 1 [] [] 1.2 0 rfl (by norm_num)
  refine ⟨r, pp, heq, hflag, hinit, ?_⟩
  rw [hfus]
  show ¬ (1 : ℕ) = 0
  norm_num

theorem divergeAdjust_lastTS {F : FusorImpl} (p : PipelineState F) (flag : ℤ) :
    (divergeAdjust p flag).lastTS = p.lastTS := by
  unfold divergeAdjust
  split
  · rfl
  · split <;> rfl

theorem looseOutput_lastTS {F : FusorImpl} (p : PipelineState F) (tsSec : ℝ) :
    (looseOutput p tsSec).2.2.lastTS = p.lastTS := by
  unfold looseOutput
  split
  · rfl
  · split
    · rfl
    · dsimp only
      split <;> rfl

theorem processTail_lastTS {F : FusorImpl} (p2 : PipelineState F) (ble : List BLEMeas)
    (twr : List TWRMeas) (sample : EKFSample) (dimUsed : List DimMat)
    (layerSel : Option ℤ) (tsMs : ℤ) :
    (processTail p2 ble twr sample dimUsed layerSel tsMs).2.lastTS = p2.lastTS := by
  unfold processTail
  dsimp only
  split
  · rfl
  · split
    · rfl
    · simp only [isNaN, Bool.false_eq_true, or_self, if_false]
      rw [looseOutput_lastTS]
      split <;> split <;> exact divergeAdjust_lastTS p2 p2.ekf.ret

theorem process_lastTS_mono {F : FusorImpl} (p0 : PipelineState F) (L : ℤ)
    (hL : p0.lastTS = some L) (tsMs0 tagID : ℤ) (ble : List BLEMeas)
    (twr : List TWRMeas) (hgt : ℝ) (r : FusionResult) (pp : PipelineState F)
    (hres : process p0 tsMs0 tagID ble twr hgt = some (r, pp)) :
    ∃ v, pp.lastTS = some v ∧ L < v := by
  unfold process at hres
  dsimp only at hres
  simp only [hL, Option.getD_some, if_neg (Option.some_ne_none L)] at hres
  rcases le_or_lt tsMs0 L with hc | hc
  · rw [if_pos hc] at hres
    refine ⟨L + 1, ?_, by omega⟩
    split at hres
    · exact (congrArg (fun z => z.2.lastTS) (Option.some.inj hres)).symm
    · rw [Option.map_eq_some'] at hres
      obtain ⟨kB, hkB, hrp⟩ := hres
      have hgoal : ((r, pp).2).lastTS = some (L + 1) → pp.lastTS = some (L + 1) :=
        fun x => x
      apply hgoal
      rw [← hrp]
      exact processTail_lastTS _ _ _ _ _ _ _
  · rw [if_neg (not_le.mpr hc)] at hres
    refine ⟨tsMs0, ?_, hc⟩
    split at hres
    · exact (congrArg (fun z => z.2.lastTS) (Option.some.inj hres)).symm
    · rw [Option.map_eq_some'] at hres
      obtain ⟨kB, hkB, hrp⟩ := hres
      have hgoal : ((r, pp).2).lastTS = some tsMs0 → pp.lastTS = some tsMs0 :=
        fun x => x
      apply hgoal
      rw [← hrp]
      exact processTail_lastTS _ _ _ _ _ _ _

theorem processIMU_lastTS_mono {F : FusorImpl} (p0 : PipelineState F) (L : ℤ)
    (hL : p0.lastTS = some L) (tsMs0 : ℤ) (dist yaw : ℝ) :
    ∃ v, (processIMU p0 tsMs0 dist yaw).lastTS = some v ∧ L ≤ v := by
  have hnone : ¬ p0.lastTS = none := by
    rw [hL]
    exact Option.some_ne_none L
  suffices h : (processIMU p0 tsMs0 dist yaw).lastTS = some L ∨
      (processIMU p0 tsMs0 dist yaw).lastTS = some (if tsMs0 ≤ L then L + 1 else tsMs0) by
    rcases h with h | h
    · exact ⟨L, h, le_refl L⟩
    · exact ⟨_, h, by split <;> omega⟩
  unfold processIMU
  dsimp only
  rw [if_neg hnone]
  by_cases hpi : p0.lastImuDist = none
  · rw [if_pos hpi]
    simp only [hL, Option.getD_some]
    rcases le_or_lt tsMs0 L with hc | hc
    · rw [if_pos hc]
      split
      · right
        rfl
      · split
        · left
          rfl
        · unfold processIMUMain
          dsimp only
          split
          · left
            rfl
          · right
            rfl
    · rw [if_neg (not_le.mpr hc)]
      split
      · right
        rfl
      · split
        · left
          rfl
        · unfold processIMUMain
          dsimp only
          split
          · left
            rfl
          · right
            rfl
  · rw [if_neg hpi]
    simp only [hL, Option.getD_some]
    rcases le_or_lt tsMs0 L with hc | hc
    · rw [if_pos hc]
      split
      · right
        rfl
      · split
        · left
          rfl
        · unfold processIMUMain
          dsimp only
          split
          · left
            rfl
          · right
            rfl
    · rw [if_neg (not_le.mpr hc)]
      split
      · right
        rfl
      · split
        · left
          rfl
        · unfold processIMUMain
          dsimp only
          split
          · left
            rfl
          · right
            rfl

/-- C3, amended: lastTS never decreases, and a successful Process call leaves
it strictly above the previous value; a ProcessIMU call leaves it at least the
previous value (the IMU sanity-reject and IMU covariance-watchdog paths return
with lastTS unchanged, so across ProcessIMU the growth is not strict). -/
theorem claim_C3_lastTS_monotone {F : FusorImpl} (p : PipelineState F) (L : ℤ)
    (hL : p.lastTS = some L) :
    (∀ tsMs0 tagID ble twr hgt r pp, process p tsMs0 tagID ble twr hgt = some (r, pp) →
      ∃ v, pp.lastTS = some v ∧ L < v) ∧
    (∀ tsMs0 dist yaw, ∃ v, (processIMU p tsMs0 dist yaw).lastTS = some v ∧ L ≤ v) :=
  ⟨fun ts tag ble twr hgt r pp hres =>
      process_lastTS_mono p L hL ts tag ble twr hgt r pp hres,
    fun ts d y => processIMU_lastTS_mono p L hL ts d y⟩

/-- Witness for the amended C3 statement at a concrete pipeline with
lastTS = 0. -/
theorem claim_C3_lastTS_monotone_witness :
    (∀ tsMs0 tagID ble twr hgt r pp,
      process natPipeline1 tsMs0 tagID ble twr hgt = some (r, pp) →
      ∃ v, pp.lastTS = some v ∧ 0 < v) ∧
    (∀ tsMs0 dist yaw,
      ∃ v, (processIMU natPipeline1 tsMs0 dist yaw).lastTS = some v ∧ 0 ≤ v) :=
  claim_C3_lastTS_monotone natPipeline1 0 rfl

/-- Counterexample to C3 as stated: after a first ProcessIMU call lastTS is
1000; a second ProcessIMU call at 2000 ms whose odometer jump fails the sanity
gate (|delta| = 90 > 5) returns with lastTS still 1000, not strictly greater
than the prior observed value. -/
theorem claim_C3_counterexample :
    (processIMU trivPipeline 1000 10 0).lastTS = some 1000 ∧
      (processIMU (processIMU trivPipeline 1000 10 0) 2000 100 0).lastTS = some 1000 := by
  have hq1 : processIMU trivPipeline 1000 10 0
      = { trivPipeline with lastTS := some 1000, lastImuDist := some 10 } := rfl
  refine ⟨by rw [hq1], ?_⟩
  rw [hq1]
  unfold processIMU
  dsimp only
  rw [if_neg (Option.some_ne_none (1000 : ℤ))]
  rw [if_neg (Option.some_ne_none (10 : ℝ))]
  dsimp only
  simp only [Option.getD_some]
  rw [if_neg (by norm_num : ¬ (2000 : ℤ) ≤ 1000)]
  rw [if_neg (by norm_num : ¬ (30.0 : ℝ) < ((2000 - 1000 : ℤ) : ℝ) / 1000.0)]
  rw [if_pos (Or.inl (by norm_num : (5.0 : ℝ) < |(100 : ℝ) - (10 : ℝ)|))]

theorem upMeas_Qk (s : EKFSample) (k : EKFState) : (upMeas s k).Qk = k.Qk := rfl

/-- C9, amended: in the measurement-update composition that Process applies
(UpMeas after Updt), the process-noise entries are Q[4,4] = dt * sigma_n^2 * s
and Q[5,5] = dt * sigma_A^2 * s where s = 1e-4 exactly when the BLE count
recorded in usedMea before the call — the count of the PREVIOUS sample — is
zero; the count of the sample being processed plays no part, since Updt runs
before UpMeas overwrites usedMea. -/
theorem claim_C9_Qk_scale (sample : EKFSample) (dt : ℝ) (k : EKFState) (hn : k.n = 6) :
    getE (upMeas sample (updt dt k)).Qk 4 4
        = dt * Pow2 SigmaN * (if k.usedMea.getD 1 0 = 0 then 0.01 * 0.01 else 1.0) ∧
      getE (upMeas sample (updt dt k)).Qk 5 5
        = dt * Pow2 SigmaA * (if k.usedMea.getD 1 0 = 0 then 0.01 * 0.01 else 1.0) := by
  rw [upMeas_Qk]
  constructor
  · unfold updt
    dsimp only
    rw [hn]
    rfl
  · unfold updt
    dsimp only
    rw [hn]
    rfl

/-- Witness for the amended C9 statement at a concrete state and sample. -/
theorem claim_C9_Qk_scale_witness :
    getE (upMeas (⟨0, 1, 1.2, [], [], []⟩ : EKFSample) (updt 1.0 newEKF)).Qk 4 4
        = 1.0 * Pow2 SigmaN * (if newEKF.usedMea.getD 1 0 = 0 then 0.01 * 0.01 else 1.0) ∧
      getE (upMeas (⟨0, 1, 1.2, [], [], []⟩ : EKFSample) (updt 1.0 newEKF)).Qk 5 5
        = 1.0 * Pow2 SigmaA * (if newEKF.usedMea.getD 1 0 = 0 then 0.01 * 0.01 else 1.0) :=
  claim_C9_Qk_scale (⟨0, 1, 1.2, [], [], []⟩ : EKFSample) 1.0 newEKF rfl

/-- Counterexample to C9 as stated: a call whose own sample carries zero BLE
rows, arriving at a state whose usedMea still records three BLE rows from the
previous call, builds Q[4,4] with s = 1, not with s = 1e-4 as the claim (s
from the sample being processed) requires. -/
theorem claim_C9_counterexample :
    (⟨0, 1, 1.2, [], [], []⟩ : EKFSample).BLE.length = 0 ∧
      getE (upMeas (⟨0, 1, 1.2, [], [], []⟩ : EKFSample)
          (updt 1.0 { newEKF with usedMea := [0, 3, 0, 0] })).Qk 4 4
        = 1.0 * Pow2 SigmaN * 1.0 ∧
      ¬ getE (upMeas (⟨0, 1, 1.2, [], [], []⟩ : EKFSample)
          (updt 1.0 { newEKF with usedMea := [0, 3, 0, 0] })).Qk 4 4
        = 1.0 * Pow2 SigmaN * (0.01 * 0.01) := by
  have h1 : getE (upMeas (⟨0, 1, 1.2, [], [], []⟩ : EKFSample)
      (updt 1.0 { newEKF with usedMea := [0, 3, 0, 0] })).Qk 4 4
      = 1.0 * Pow2 SigmaN * 1.0 := by
    rw [upMeas_Qk]
    unfold updt
    dsimp only
    rfl
  refine ⟨rfl, h1, ?_⟩
  rw [h1]
  norm_num [Pow2, SigmaN]

theorem twrFold_filterMap {F : FusorImpl} (p : PipelineState F) (estR : List ℝ)
    (cp : List ℝ) (init : Bool) (l : List TWRMeas) (acc : List TWRRow) :
    l.foldl (fun acc m =>
      match lookupAnchor p.anchors m.AnchorID with
      | none => acc
      | some a =>
        if m.Range < 0.01 ∨ 400.0 < m.Range then acc
        else if init ∧
            50.0 < |m.Range - hypot (a.X - cp.getD 0 0) (a.Y - cp.getD 1 0)|
          then acc
        else if 0 < estR.length ∧ goMax 30.0 (2.0 * minBleEst estR) < m.Range then acc
        else acc ++ [(⟨a.X, a.Y, a.Z, m.Range, m.AnchorID, a.Layer⟩ : TWRRow)]) acc
      = acc ++ l.filterMap (twrRowAccept p estR cp init) := by
  induction l generalizing acc with
  | nil => simp
  | cons x xs ih =>
    rw [List.foldl_cons, List.filterMap_cons]
    cases hla : lookupAnchor p.anchors x.AnchorID with
    | none =>
      have hg : twrRowAccept p estR cp init x = none := by
        unfold twrRowAccept
        rw [hla]
      rw [hg]
      dsimp only
      exact ih acc
    | some a =>
      by_cases h1 : x.Range < 0.01 ∨ 400.0 < x.Range
      · have hg : twrRowAccept p estR cp init x = none := by
          unfold twrRowAccept
          rw [hla]
          dsimp only
          rw [if_pos h1]
        rw [hg]
        dsimp only
        rw [if_pos h1]
        exact ih acc
      · by_cases h2 : init = true ∧
            50.0 < |x.Range - hypot (a.X - cp.getD 0 0) (a.Y - cp.getD 1 0)|
        · have hg : twrRowAccept p estR cp init x = none := by
            unfold twrRowAccept
            rw [hla]
            dsimp only
            rw [if_neg h1, if_pos h2]
          rw [hg]
          dsimp only
          rw [if_neg h1, if_pos h2]
          exact ih acc
        · by_cases h3 : 0 < estR.length ∧ goMax 30.0 (2.0 * minBleEst estR) < x.Range
          · have hg : twrRowAccept p estR cp init x = none := by
              unfold twrRowAccept
              rw [hla]
              dsimp only
              rw [if_neg h1, if_neg h2, if_pos h3]
            rw [hg]
            dsimp only
            rw [if_neg h1, if_neg h2, if_pos h3]
            exact ih acc
          · have hg : twrRowAccept p estR cp init x
                = some (⟨a.X, a.Y, a.Z, x.Range, x.AnchorID, a.Layer⟩ : TWRRow) := by
              unfold twrRowAccept
              rw [hla]
              dsimp only
              rw [if_neg h1, if_neg h2, if_neg h3]
            rw [hg]
            dsimp only
            rw [if_neg h1, if_neg h2, if_neg h3]
            rw [ih (acc ++ [(⟨a.X, a.Y, a.Z, x.Range, x.AnchorID, a.Layer⟩ : TWRRow)])]
            simp

theorem buildSample_TWR {F : FusorImpl} (p : PipelineState F) (tsMs tagID : ℤ)
    (ble : List BLEMeas) (twr : List TWRMeas) (hgt : ℝ) (ls : Option ℤ)
    (cp : List ℝ) (init : Bool) :
    (buildSample p tsMs tagID ble twr hgt ls cp init).1.TWR
      = twr.filterMap (twrRowAccept p (bleEstList p ble) cp init) := by
  unfold buildSample
  dsimp only
  rw [twrFold_filterMap]
  rw [List.nil_append]
  rfl

/-- C5: a TWR measurement appears as a row of the built EKF sample exactly
when its anchor id is known, its range lies in [0.01, 400], the
initialized-state distance gate |range - dist| ≤ 50 holds, and, when the BLE
block produced at least one valid estimated range, range ≤ max(30, 2·min). -/
theorem claim_C5_twr_membership {F : FusorImpl} (p : PipelineState F) (tsMs tagID : ℤ)
    (ble : List BLEMeas) (twr : List TWRMeas) (hgt : ℝ) (ls : Option ℤ)
    (cp : List ℝ) (init : Bool) (row : TWRRow) :
    row ∈ (buildSample p tsMs tagID ble twr hgt ls cp init).1.TWR ↔
      ∃ m a, m ∈ twr ∧ lookupAnchor p.anchors m.AnchorID = some a ∧
        0.01 ≤ m.Range ∧ m.Range ≤ 400.0 ∧
        (init = true →
          |m.Range - hypot (a.X - cp.getD 0 0) (a.Y - cp.getD 1 0)| ≤ 50.0) ∧
        (0 < (bleEstList p ble).length →
          m.Range ≤ goMax 30.0 (2.0 * minBleEst (bleEstList p ble))) ∧
        row = ⟨a.X, a.Y, a.Z, m.Range, m.AnchorID, a.Layer⟩ := by
  rw [buildSample_TWR, List.mem_filterMap]
  constructor
  · rintro ⟨m, hm, hf⟩
    unfold twrRowAccept at hf
    cases hla : lookupAnchor p.anchors m.AnchorID with
    | none =>
      rw [hla] at hf
      cases hf
    | some a =>
      rw [hla] at hf
      dsimp only at hf
      by_cases h1 : m.Range < 0.01 ∨ 400.0 < m.Range
      · rw [if_pos h1] at hf
        cases hf
      · rw [if_neg h1] at hf
        by_cases h2 : init = true ∧
            50.0 < |m.Range - hypot (a.X - cp.getD 0 0) (a.Y - cp.getD 1 0)|
        · rw [if_pos h2] at hf
          cases hf
        · rw [if_neg h2] at hf
          by_cases h3 : 0 < (bleEstList p ble).length ∧
              goMax 30.0 (2.0 * minBleEst (bleEstList p ble)) < m.Range
          · rw [if_pos h3] at hf
            cases hf
          · rw [if_neg h3] at hf
            rcases not_or.mp h1 with ⟨h1a, h1b⟩
            refine ⟨m, a, hm, hla, not_lt.mp h1a, not_lt.mp h1b, ?_, ?_,
              (Option.some.inj hf).symm⟩
            · intro hi
              exact not_lt.mp fun hgt2 => h2 ⟨hi, hgt2⟩
            · intro hl
              exact not_lt.mp fun hgt2 => h3 ⟨hl, hgt2⟩
  · rintro ⟨m, a, hm, hla, h01, h400, hini, hble, hrow⟩
    refine ⟨m, hm, ?_⟩
    unfold twrRowAccept
    rw [hla]
    dsimp only
    rw [if_neg (by
      push_neg
      exact ⟨h01, h400⟩)]
    rw [if_neg (fun hc => absurd hc.2 (not_lt.mpr (hini hc.1)))]
    rw [if_neg (fun hc => absurd hc.2 (not_lt.mpr (hble hc.1)))]
    rw [hrow]

theorem setIdx2_length {α : Type} (m : List (List α)) (i j : ℕ) (v : α) :
    (setIdx2 m i j v).length = m.length := by
  simp [setIdx2]

theorem bleFold_some (tagHeight : ℝ) (xkk1 : List ℝ) (startIdx : ℕ) (n : ℕ)
    (l : List (ℕ × BLERow)) :
    ∀ (y : List ℝ) (b : List (List ℝ)), b.length = n → (∀ e ∈ l, e.1 < n) →
      ∃ y' b',
        List.foldl (fun acc entry => acc.bind fun st =>
          let o := entry.1
          let bl := entry.2
          let d := meaDistance (xkk1.getD 0 0) (xkk1.getD 1 0) tagHeight bl.X bl.Y bl.Z
          let pred := xkk1.getD 5 0 + 10.0 * xkk1.getD 4 0 * log10 d
          let ykk1b := st.1.set (startIdx + o) pred
          if o < st.2.length then
            some (ykk1b,
              setIdx2 (setIdx2 (setIdx2 st.2 o 0 ((bl.AnchorID : ℝ))) o 1 bl.Strength) o 2
                (goPow 10.0 ((bl.Strength - xkk1.getD 5 0) / (10.0 * xkk1.getD 4 0))))
          else none) (some (y, b)) l = some (y', b') ∧ b'.length = n := by
  induction l with
  | nil =>
    intro y b hb _
    exact ⟨y, b, rfl, hb⟩
  | cons e es ih =>
    intro y b hb hall
    rw [List.foldl_cons]
    simp only [Option.some_bind]
    have he : e.1 < b.length := by
      rw [hb]
      exact hall e (List.mem_cons_self e es)
    rw [if_pos he]
    exact ih _ _ (by
        simp only [setIdx2_length]
        exact hb)
      (fun e2 he2 => hall e2 (List.mem_cons_of_mem e he2))

theorem bleYkk1Loop_none (sample : EKFSample) (tagHeight : ℝ) (xkk1 : List ℝ)
    (startIdx : ℕ) (y : List ℝ) (b : List (List ℝ))
    (hn : bleYkk1Loop sample tagHeight xkk1 startIdx y b = none) :
    b.length < sample.BLE.length := by
  by_contra hge
  push_neg at hge
  have hall : ∀ e ∈ sample.BLE.enum, e.1 < b.length := by
    intro e he
    have h2 := List.mem_enum_iff_getElem?.mp he
    have h3 : e.1 < sample.BLE.length := by
      by_contra hno
      push_neg at hno
      rw [List.getElem?_eq_none hno] at h2
      cases h2
    exact lt_of_lt_of_le h3 hge
  obtain ⟨y', b', hf, _⟩ := bleFold_some tagHeight xkk1 startIdx b.length
    sample.BLE.enum y b rfl hall
  unfold bleYkk1Loop at hn
  rw [hf] at hn
  cases hn

theorem updt_BLE2Dis (dt : ℝ) (k : EKFState) : (updt dt k).BLE2Dis = k.BLE2Dis := rfl

theorem upMeas_BLE2Dis (s : EKFSample) (k : EKFState) :
    (upMeas s k).BLE2Dis = k.BLE2Dis := rfl

theorem bootstrapState_BLE2Dis {F : FusorImpl} (p : PipelineState F) (s : EKFSample) :
    (bootstrapState p s).ekf.BLE2Dis = p.ekf.BLE2Dis := by
  unfold bootstrapState
  split <;> rfl

theorem kfChain_BLE2Dis {F : FusorImpl} (p : PipelineState F) (s s2 : EKFSample)
    (dtv : ℝ) (X : List ℝ) :
    (consHk s2
        { upMeas s2 (updt dtv (bootstrapState p s).ekf) with xkk1 := X }).BLE2Dis
      = p.ekf.BLE2Dis := by
  rw [consHk_BLE2Dis]
  show (upMeas s2 (updt dtv (bootstrapState p s).ekf)).BLE2Dis = p.ekf.BLE2Dis
  rw [upMeas_BLE2Dis, updt_BLE2Dis, bootstrapState_BLE2Dis]

theorem bleRows_length {F : FusorImpl} (p : PipelineState F) (l : List BLEMeas) :
    ∀ acc : List BLERow × List ℝ,
      (l.foldl
        (fun (acc : List BLERow × List ℝ) m =>
          match lookupAnchor p.anchors m.AnchorID with
          | none => acc
          | some a =>
            let strength := p.rssiModel.strengthFromDbm m.RSSIDb
            let rows := acc.1 ++ [(⟨a.X, a.Y, a.Z, (strength : ℝ), m.AnchorID, a.Layer⟩
              : BLERow)]
            if p.rssiModel.validRssi strength then
              (rows, acc.2 ++ [0.01 * ((p.rssiModel.rssi2Range strength : ℤ) : ℝ)])
            else (rows, acc.2)) acc).1.length
        = acc.1.length + l.countP (fun m => (lookupAnchor p.anchors m.AnchorID).isSome) := by
  induction l with
  | nil =>
    intro acc
    simp
  | cons x xs ih =>
    intro acc
    rw [List.foldl_cons, List.countP_cons]
    dsimp only
    cases hla : lookupAnchor p.anchors x.AnchorID with
    | none =>
      rw [ih acc]
      simp
    | some a =>
      dsimp only
      by_cases hv : p.rssiModel.validRssi (p.rssiModel.strengthFromDbm x.RSSIDb) = true
      · rw [if_pos hv, ih _]
        simp [List.length_append]
        try omega
      · rw [if_neg hv, ih _]
        simp [List.length_append]
        try omega

theorem buildSample_BLE_length {F : FusorImpl} (p : PipelineState F) (tsMs tagID : ℤ)
    (ble : List BLEMeas) (twr : List TWRMeas) (hgt : ℝ) (ls : Option ℤ)
    (cp : List ℝ) (init : Bool) :
    (buildSample p tsMs tagID ble twr hgt ls cp init).1.BLE.length
      = ble.countP (fun m => (lookupAnchor p.anchors m.AnchorID).isSome) := by
  unfold buildSample
  dsimp only
  rw [bleRows_length p ble ([], [])]
  simp

theorem kfUpdate_none (sample : EKFSample) (k : EKFState)
    (hn : kfUpdate sample k = none) : k.BLE2Dis.length < sample.BLE.length := by
  unfold kfUpdate at hn
  dsimp only at hn
  split at hn
  · exact Option.noConfusion hn
  · rw [Option.map_eq_none'] at hn
    have hb := bleYkk1Loop_none _ _ _ _ _ _ hn
    rw [consHk_BLE2Dis] at hb
    exact hb

/-- C10: Process fails (returns none, the model of the Go out-of-bounds panic
in KfUpdate's BLE2Dis write) only when the measurement event carries more than
12 BLE readings with known anchor ids, 12 = MaxMeaDim being the fixed
BLE2Dis row count allocated by NewEKF. -/
theorem claim_C10_ble_overflow {F : FusorImpl} (p0 : PipelineState F) (tsMs0 tagID : ℤ)
    (ble : List BLEMeas) (twr : List TWRMeas) (hgt : ℝ)
    (hlen : p0.ekf.BLE2Dis.length = 12) :
    process p0 tsMs0 tagID ble twr hgt = none →
      12 < ble.countP (fun m => (lookupAnchor p0.anchors m.AnchorID).isSome) := by
  intro hres
  unfold process at hres
  dsimp only at hres
  by_cases hnone : p0.lastTS = none
  · rw [if_pos hnone] at hres
    split at hres
    all_goals
      split at hres
      · exact absurd hres (by simp)
      · rw [Option.map_eq_none'] at hres
        have hb := kfUpdate_none _ _ hres
        rw [upMeas_BLE2Dis, updt_BLE2Dis, bootstrapState_BLE2Dis] at hb
        have hpe : ({ p0 with lastTS := some tsMs0 }
            : PipelineState F).ekf.BLE2Dis.length = 12 := hlen
        rw [hpe, buildSample_BLE_length] at hb
        exact hb
  · rw [if_neg hnone] at hres
    split at hres
    all_goals
      split at hres
      · exact absurd hres (by simp)
      · rw [Option.map_eq_none'] at hres
        have hb := kfUpdate_none _ _ hres
        rw [upMeas_BLE2Dis, updt_BLE2Dis, bootstrapState_BLE2Dis] at hb
        rw [hlen, buildSample_BLE_length] at hb
        exact hb

theorem bleFold_none (tagHeight : ℝ) (xkk1 : List ℝ) (startIdx : ℕ)
    (l : List (ℕ × BLERow)) :
    List.foldl (fun acc entry => acc.bind fun st =>
      let o := entry.1
      let bl := entry.2
      let d := meaDistance (xkk1.getD 0 0) (xkk1.getD 1 0) tagHeight bl.X bl.Y bl.Z
      let pred := xkk1.getD 5 0 + 10.0 * xkk1.getD 4 0 * log10 d
      let ykk1b := st.1.set (startIdx + o) pred
      if o < st.2.length then
        some (ykk1b,
          setIdx2 (setIdx2 (setIdx2 st.2 o 0 ((bl.AnchorID : ℝ))) o 1 bl.Strength) o 2
            (goPow 10.0 ((bl.Strength - xkk1.getD 5 0) / (10.0 * xkk1.getD 4 0))))
      else none) (none : Option (List ℝ × List (List ℝ))) l = none := by
  induction l with
  | nil => rfl
  | cons e es ih =>
    rw [List.foldl_cons]
    simp only [Option.none_bind]
    exact ih

theorem bleFold_none_of_lt (tagHeight : ℝ) (xkk1 : List ℝ) (startIdx : ℕ)
    (xs : List BLERow) :
    ∀ (i : ℕ) (y : List ℝ) (b : List (List ℝ)), i ≤ b.length → b.length < i + xs.length →
      List.foldl (fun acc entry => acc.bind fun st =>
        let o := entry.1
        let bl := entry.2
        let d := meaDistance (xkk1.getD 0 0) (xkk1.getD 1 0) tagHeight bl.X bl.Y bl.Z
        let pred := xkk1.getD 5 0 + 10.0 * xkk1.getD 4 0 * log10 d
        let ykk1b := st.1.set (startIdx + o) pred
        if o < st.2.length then
          some (ykk1b,
            setIdx2 (setIdx2 (setIdx2 st.2 o 0 ((bl.AnchorID : ℝ))) o 1 bl.Strength) o 2
              (goPow 10.0 ((bl.Strength - xkk1.getD 5 0) / (10.0 * xkk1.getD 4 0))))
        else none) (some (y, b)) (List.enumFrom i xs) = none := by
  induction xs with
  | nil =>
    intro i y b hle hb
    simp only [List.length_nil] at hb
    omega
  | cons x txs ih =>
    intro i y b hle hb
    rw [List.enumFrom_cons, List.foldl_cons]
    simp only [Option.some_bind]
    by_cases hi : i < b.length
    · rw [if_pos hi]
      refine ih (i + 1) _ _ ?_ ?_
      · simp only [setIdx2_length]
        omega
      · simp only [setIdx2_length]
        rw [List.length_cons] at hb
        omega
    · rw [if_neg hi]
      exact bleFold_none tagHeight xkk1 startIdx (List.enumFrom (i + 1) txs)

theorem bleYkk1Loop_none_of_lt (sample : EKFSample) (tagHeight : ℝ) (xkk1 : List ℝ)
    (startIdx : ℕ) (y : List ℝ) (b : List (List ℝ))
    (h : b.length < sample.BLE.length) :
    bleYkk1Loop sample tagHeight xkk1 startIdx y b = none := by
  unfold bleYkk1Loop
  show List.foldl _ (some (y, b)) (List.enumFrom 0 sample.BLE) = none
  exact bleFold_none_of_lt tagHeight xkk1 startIdx sample.BLE 0 y b (Nat.zero_le _) (by
    rw [Nat.zero_add]
    exact h)

theorem total13_ne_zero (a b c : ℕ) (hb : b = 13) : ¬ (a + b + c = 0) := by
  omega

/-- Witness for C10: a concrete Process call carrying thirteen BLE readings
against the known anchor returns none, and the theorem turns that failure into
the row-count bound. -/
theorem claim_C10_ble_overflow_witness :
    12 < (List.replicate 13 (⟨1, -50⟩ : BLEMeas)).countP
        (fun m => (lookupAnchor anchPipeline.anchors m.AnchorID).isSome) :=
  claim_C10_ble_overflow anchPipeline 1000 7 (List.replicate 13 (⟨1, -50⟩ : BLEMeas))
    [] 1.2 rfl (by
      unfold process
      dsimp only
      rw [if_pos (show anchPipeline.lastTS = none from rfl)]
      dsimp only
      rw [if_pos (show (1000 : ℤ) ≤ (Option.some (1000 : ℤ)).getD 1000 from by norm_num)]
      rw [if_neg (show ¬ (30.0 : ℝ) < (((Option.some (1000 : ℤ)).getD 1000 + 1
          - (Option.some (1000 : ℤ)).getD 1000 : ℤ) : ℝ) / 1000.0 by norm_num)]
      rw [Option.map_eq_none']
      unfold kfUpdate
      dsimp only
      rw [ite_eq_iff]
      refine Or.inr ⟨total13_ne_zero _ _ _ rfl, ?_⟩
      rw [Option.map_eq_none']
      apply bleYkk1Loop_none_of_lt
      rw [kfChain_BLE2Dis, buildSample_BLE_length]
      show (12 : ℕ) < 13
      norm_num)

theorem hypotC7 : hypot ((0 : ℝ) * 100.0 - 0.01 * 100.0) ((0 : ℝ) * 100.0 - 0 * 100.0)
    = 1 := by
  unfold hypot
  rw [show ((0 : ℝ) * 100.0 - 0.01 * 100.0) * ((0 : ℝ) * 100.0 - 0.01 * 100.0)
      + ((0 : ℝ) * 100.0 - 0 * 100.0) * ((0 : ℝ) * 100.0 - 0 * 100.0) = 1 by norm_num]
  exact Real.sqrt_one

theorem lookupC7_10 : lookupAnchor anchorsC7 10 = some (⟨10, 0.01, 0, 0, 2, 0⟩ : Anchor) :=
  rfl

theorem lookupC7_11 : lookupAnchor anchorsC7 11 = some (⟨11, 0.01, 0, 0, 3, 0⟩ : Anchor) :=
  rfl

theorem rateC7_layer2 : layerTrustRate [] twrC7 posC7 2 trivRssi anchorsC7 = 0.9 := by
  unfold layerTrustRate
  rw [if_neg (by simp [twrC7])]
  unfold twrC7 posC7
  simp only [List.getD_cons_zero, List.getD_cons_succ]
  rw [List.foldl_cons]
  dsimp only
  rw [lookupC7_10]
  dsimp only
  rw [if_neg (show ¬ ((2 : ℤ) ≠ 2) by simp)]
  rw [if_neg (show ¬ (hypot ((0 : ℝ) * 100.0 - 0.01 * 100.0)
      ((0 : ℝ) * 100.0 - 0 * 100.0) < 1e-3) by
    rw [hypotC7]
    norm_num)]
  rw [List.foldl_cons]
  dsimp only
  rw [lookupC7_11]
  dsimp only
  rw [if_pos (show (3 : ℤ) ≠ 2 by norm_num)]
  rw [List.foldl_nil, List.foldl_nil]
  rw [if_pos (show 0 < 0 + 1 by norm_num)]
  rw [hypotC7]
  rw [abs_eq (by norm_num : (0 : ℝ) ≤ 0.9)]
  right
  push_cast
  norm_num

theorem rateC7_layer3 : layerTrustRate [] twrC7 posC7 3 trivRssi anchorsC7 = 0.5 := by
  unfold layerTrustRate
  rw [if_neg (by simp [twrC7])]
  unfold twrC7 posC7
  simp only [List.getD_cons_zero, List.getD_cons_succ]
  rw [List.foldl_cons]
  dsimp only
  rw [lookupC7_10]
  dsimp only
  rw [if_pos (show (2 : ℤ) ≠ 3 by norm_num)]
  rw [List.foldl_cons]
  dsimp only
  rw [lookupC7_11]
  dsimp only
  rw [if_neg (show ¬ ((3 : ℤ) ≠ 3) by simp)]
  rw [if_neg (show ¬ (hypot ((0 : ℝ) * 100.0 - 0.01 * 100.0)
      ((0 : ℝ) * 100.0 - 0 * 100.0) < 1e-3) by
    rw [hypotC7]
    norm_num)]
  rw [List.foldl_nil, List.foldl_nil]
  rw [if_pos (show 0 < 0 + 1 by norm_num)]
  rw [hypotC7]
  rw [abs_eq (by norm_num : (0 : ℝ) ≤ 0.5)]
  right
  push_cast
  norm_num

theorem goTrunc_09 : goTrunc 0.9 = 0 := by
  unfold goTrunc
  rw [if_pos (by norm_num : (0 : ℝ) ≤ 0.9)]
  rw [Int.floor_eq_zero_iff]
  constructor <;> norm_num

/-- C7 evidence: with two candidate layers containing the position, the
tie-break of GetLayer returns layer 2 although layer 3 has the strictly
smaller trust rate, because the running best rate is truncated to int (here
0.9 becomes 0) before the next comparison. -/
theorem claim_C7_trust_truncation :
    trustTieBreak [] twrC7 posC7 trivRssi anchorsC7 [layer2C7, layer3C7] = some 2 ∧
      layerTrustRate [] twrC7 posC7 3 trivRssi anchorsC7
        < layerTrustRate [] twrC7 posC7 2 trivRssi anchorsC7 := by
  constructor
  · unfold trustTieBreak
    rw [List.foldl_cons]
    dsimp only
    unfold layer2C7
    dsimp only
    rw [rateC7_layer2]
    rw [if_pos (show (0.9 : ℝ) < ((255 : ℤ) : ℝ) by norm_num)]
    rw [List.foldl_cons]
    dsimp only
    unfold layer3C7
    dsimp only
    rw [rateC7_layer3, goTrunc_09]
    rw [if_neg (show ¬ (0.5 : ℝ) < ((0 : ℤ) : ℝ) by norm_num)]
    rw [List.foldl_nil]
  · rw [rateC7_layer2, rateC7_layer3]
    norm_num

theorem rpow_ratio_pow (p q : ℕ) (hq : 0 < q) :
    ((10 : ℝ) ^ ((p : ℝ) / (q : ℝ))) ^ q = (10 : ℝ) ^ p := by
  rw [← Real.rpow_natCast ((10 : ℝ) ^ ((p : ℝ) / (q : ℝ))) q]
  rw [← Real.rpow_mul (by norm_num : (0 : ℝ) ≤ 10)]
  rw [div_mul_cancel₀ (p : ℝ) (by exact_mod_cast hq.ne' : (q : ℝ) ≠ 0)]
  rw [Real.rpow_natCast]

theorem le_rpow_of_pow_le (a : ℝ) (p q : ℕ) (hq : 0 < q) (ha : 0 ≤ a)
    (h : a ^ q ≤ (10 : ℝ) ^ p) : a ≤ (10 : ℝ) ^ ((p : ℝ) / (q : ℝ)) := by
  have ht : (0 : ℝ) < (10 : ℝ) ^ ((p : ℝ) / (q : ℝ)) :=
    Real.rpow_pos_of_pos (by norm_num) _
  have htq := rpow_ratio_pow p q hq
  exact (pow_le_pow_iff_left ha ht.le hq.ne').mp (h.trans_eq htq.symm)

theorem rpow_lt_of_lt_pow (a : ℝ) (p q : ℕ) (hq : 0 < q) (ha : 0 ≤ a)
    (h : (10 : ℝ) ^ p < a ^ q) : (10 : ℝ) ^ ((p : ℝ) / (q : ℝ)) < a := by
  have ht : (0 : ℝ) < (10 : ℝ) ^ ((p : ℝ) / (q : ℝ)) :=
    Real.rpow_pos_of_pos (by norm_num) _
  have htq := rpow_ratio_pow p q hq
  exact (pow_lt_pow_iff_left ht.le ha hq.ne').mp (htq.symm ▸ h)

theorem tC8_lb : (1.075 : ℝ) ≤ (10 : ℝ) ^ ((1 : ℝ) / 30) := by
  have h := le_rpow_of_pow_le 1.075 1 30 (by norm_num) (by norm_num) (by norm_num)
  rwa [show (((1 : ℕ) : ℝ) / ((30 : ℕ) : ℝ)) = (1 : ℝ) / 30 by norm_num] at h

theorem tC8_ub : (10 : ℝ) ^ ((1 : ℝ) / 30) < 1.085 := by
  have h := rpow_lt_of_lt_pow 1.085 1 30 (by norm_num) (by norm_num) (by norm_num)
  rwa [show (((1 : ℕ) : ℝ) / ((30 : ℕ) : ℝ)) = (1 : ℝ) / 30 by norm_num] at h

theorem logC8_101_pos : 0 < log10 1.01 :=
  Real.logb_pos (by norm_num) (by norm_num)

theorem logC8_101_ub : log10 1.01 ≤ (1 : ℝ) / 30 := by
  unfold log10
  rw [Real.logb_le_iff_le_rpow (by norm_num) (by norm_num)]
  have h := le_rpow_of_pow_le 1.01 1 30 (by norm_num) (by norm_num) (by norm_num)
  rwa [show (((1 : ℕ) : ℝ) / ((30 : ℕ) : ℝ)) = (1 : ℝ) / 30 by norm_num] at h

theorem logC8_15_lb : (7 : ℝ) / 6 < log10 15 := by
  unfold log10
  rw [show (7 : ℝ) / 6 = ((7 : ℕ) : ℝ) / ((6 : ℕ) : ℝ) by norm_num]
  rw [Real.lt_logb_iff_rpow_lt (by norm_num) (by norm_num)]
  exact rpow_lt_of_lt_pow 15 7 6 (by norm_num) (by norm_num) (by norm_num)

theorem logC8_15_ub : log10 15 ≤ (6 : ℝ) / 5 := by
  unfold log10
  rw [Real.logb_le_iff_le_rpow (by norm_num) (by norm_num)]
  have h := le_rpow_of_pow_le 15 6 5 (by norm_num) (by norm_num) (by norm_num)
  rwa [show (((6 : ℕ) : ℝ) / ((5 : ℕ) : ℝ)) = (6 : ℝ) / 5 by norm_num] at h

theorem goTrunc_8 : goTrunc (8.0 : ℝ) = 8 := by
  unfold goTrunc
  rw [if_pos (by norm_num : (0 : ℝ) ≤ 8.0)]
  rw [Int.floor_eq_iff]
  constructor <;> norm_num

theorem goTrunc_abs8 : goTrunc |(8.0 : ℝ)| = 8 := by
  rw [abs_of_nonneg (by norm_num : (0 : ℝ) ≤ 8.0)]
  exact goTrunc_8

theorem rssiC8_max : range2rssiF 3.0 8.0 (800 + 700) = 28 := by
  unfold range2rssiF
  rw [if_neg (by norm_num : ¬ (800 + 700 : ℤ) ≤ 100)]
  rw [show (((800 + 700 : ℤ) : ℝ) * 0.01) = (15 : ℝ) by push_cast; norm_num]
  rw [Int.ceil_eq_iff]
  constructor
  · push_cast
    have := logC8_15_lb
    linarith
  · push_cast
    have := logC8_15_ub
    linarith

theorem rssiC8_101 : range2rssiF 3.0 8.0 101 = -7 := by
  unfold range2rssiF
  rw [if_neg (by norm_num : ¬ (101 : ℤ) ≤ 100)]
  rw [show (((101 : ℤ) : ℝ) * 0.01) = (1.01 : ℝ) by push_cast; norm_num]
  rw [Int.ceil_eq_iff]
  constructor
  · push_cast
    have := logC8_101_pos
    linarith
  · push_cast
    have := logC8_101_ub
    linarith

theorem rawC8_neg7 : rssi2rangeRawF 3.0 8.0 (-7) = 108 := by
  unfold rssi2rangeRawF
  dsimp only
  rw [if_neg (show ¬ (((-7 : ℤ) : ℝ) + 8.0 < 0) by push_cast; norm_num)]
  rw [show ((((-7 : ℤ) : ℝ) + 8.0) / (10.0 * 3.0)) = (1 : ℝ) / 30 by push_cast; norm_num]
  unfold goRound goPow
  rw [show (10.0 : ℝ) = (10 : ℝ) by norm_num]
  rw [if_pos (by positivity : (0 : ℝ) ≤ 100.0 * (10 : ℝ) ^ ((1 : ℝ) / 30))]
  rw [Int.floor_eq_iff]
  constructor
  · push_cast
    have := tC8_lb
    linarith
  · push_cast
    have := tC8_ub
    linarith

theorem range_map_getD (n : ℕ) (g : ℕ → ℤ) (i : ℕ) (h : i < n) :
    ((List.range n).map g).getD i 0 = g i := by
  rw [List.getD_eq_getElem?_getD, List.getElem?_map, List.getElem?_range h]
  rfl

theorem rssiDefault_ranges : rssiDefault.ranges
    = (List.range 37).map fun i : ℕ => rssi2rangeRawF 3.0 8.0 ((i : ℤ) - goTrunc 8.0) := by
  unfold rssiDefault initBLERssi
  dsimp only
  rw [rssiC8_max, goTrunc_abs8]
  rfl

theorem rssiDefault_roundtrip_101 :
    rssiDefault.rssi2Range (rssiDefault.range2rssi 101) = 108 := by
  have h1 : rssiDefault.range2rssi 101 = -7 := by
    show range2rssiF rssiDefault.Factor rssiDefault.AdjustRSSI 101 = -7
    rw [show rssiDefault.Factor = 3.0 from rfl]
    rw [show rssiDefault.AdjustRSSI = 8.0 from rfl]
    exact rssiC8_101
  rw [h1]
  unfold BLERssi.rssi2Range
  dsimp only
  rw [show rssiDefault.AdjustRSSI = 8.0 from rfl, goTrunc_8]
  rw [rssiDefault_ranges]
  have hlen : ((List.range 37).map fun i : ℕ =>
      rssi2rangeRawF 3.0 8.0 ((i : ℤ) - goTrunc 8.0)).length = 37 := by
    rw [List.length_map, List.length_range]
  rw [if_pos (by
    rw [hlen]
    norm_num)]
  rw [show ((-7 : ℤ) + 8).toNat = 1 by rfl]
  rw [range_map_getD 37 _ 1 (by norm_num)]
  rw [show (((1 : ℕ) : ℤ) - goTrunc 8.0) = -7 by rw [goTrunc_8]; norm_num]
  exact rawC8_neg7

theorem rawF_bounds (sZ : ℤ) (hs1 : -7 ≤ sZ) (x : ℝ) (hx : 0 < x)
    (hA1 : x ≤ (10 : ℝ) ^ (((sZ : ℝ) + 8) / 30))
    (hA2 : (10 : ℝ) ^ (((sZ : ℝ) + 8) / 30) < x * (10 : ℝ) ^ ((1 : ℝ) / 30)) :
    100 * x - 1 / 2 ≤ ((rssi2rangeRawF 3.0 8.0 sZ : ℤ) : ℝ) ∧
      ((rssi2rangeRawF 3.0 8.0 sZ : ℤ) : ℝ) ≤ 100 * (x * (10 : ℝ) ^ ((1 : ℝ) / 30)) + 1 / 2 := by
  have hs1R : (-7 : ℝ) ≤ (sZ : ℝ) := by exact_mod_cast hs1
  unfold rssi2rangeRawF
  dsimp only
  rw [if_neg (show ¬ ((sZ : ℝ) + 8.0 < 0) by norm_num; linarith)]
  unfold goRound goPow
  rw [show (((sZ : ℝ)) + 8.0) / (10.0 * 3.0) = ((sZ : ℝ) + 8) / 30 by norm_num]
  rw [show (10.0 : ℝ) = (10 : ℝ) by norm_num]
  rw [if_pos (by positivity : (0 : ℝ) ≤ 100.0 * (10 : ℝ) ^ (((sZ : ℝ) + 8) / 30))]
  have hy1 : 100 * x ≤ 100.0 * (10 : ℝ) ^ (((sZ : ℝ) + 8) / 30) := by
    have := mul_le_mul_of_nonneg_left hA1 (by norm_num : (0 : ℝ) ≤ 100)
    linarith
  have hy2 : 100.0 * (10 : ℝ) ^ (((sZ : ℝ) + 8) / 30)
      ≤ 100 * (x * (10 : ℝ) ^ ((1 : ℝ) / 30)) := by
    have := mul_le_mul_of_nonneg_left hA2.le (by norm_num : (0 : ℝ) ≤ 100)
    linarith
  have hfl1 : (100.0 * (10 : ℝ) ^ (((sZ : ℝ) + 8) / 30) + 1 / 2) - 1
      < ((⌊100.0 * (10 : ℝ) ^ (((sZ : ℝ) + 8) / 30) + 1 / 2⌋ : ℤ) : ℝ) :=
    Int.sub_one_lt_floor _
  have hfl2 : ((⌊100.0 * (10 : ℝ) ^ (((sZ : ℝ) + 8) / 30) + 1 / 2⌋ : ℤ) : ℝ)
      ≤ 100.0 * (10 : ℝ) ^ (((sZ : ℝ) + 8) / 30) + 1 / 2 :=
    Int.floor_le _
  constructor
  · linarith
  · linarith

/-- C8, amended: over the claimed domain d ∈ [1 m, 700 cm + intrDist] the
RSSI roundtrip satisfies the weaker relative bound
|rssi2range(range2rssi d) - d| ≤ 0.09 d.  The 2 % bound of the claim fails
(claim_C8_counterexample): one RSSI step is 10^(1/30) ≈ 1.08 in range, so the
ceiling in range2rssi alone contributes up to ≈ 8.5 % of error. -/
theorem claim_C8_roundtrip (d : ℤ) (h1 : 100 ≤ d) (h2 : d ≤ 800 + 700) :
    |((rssiDefault.rssi2Range (rssiDefault.range2rssi d) : ℤ) : ℝ) - (d : ℝ)|
      ≤ 0.09 * (d : ℝ) := by
  rcases eq_or_lt_of_le h1 with heq | hgt
  · have h0 : rssiDefault.range2rssi d = -8 := by
      show range2rssiF rssiDefault.Factor rssiDefault.AdjustRSSI d = -8
      rw [show rssiDefault.Factor = 3.0 from rfl]
      rw [show rssiDefault.AdjustRSSI = 8.0 from rfl]
      unfold range2rssiF
      rw [if_pos (by omega : d ≤ 100)]
      rw [goTrunc_8]
    have hv : rssiDefault.rssi2Range (-8) = 100 := by
      unfold BLERssi.rssi2Range
      dsimp only
      rw [show rssiDefault.AdjustRSSI = 8.0 from rfl, goTrunc_8]
      rw [rssiDefault_ranges]
      have hlen : ((List.range 37).map fun i : ℕ =>
          rssi2rangeRawF 3.0 8.0 ((i : ℤ) - goTrunc 8.0)).length = 37 := by
        rw [List.length_map, List.length_range]
      rw [if_pos (by
        rw [hlen]
        norm_num)]
      rw [show ((-8 : ℤ) + 8).toNat = 0 by rfl]
      rw [range_map_getD 37 _ 0 (by norm_num)]
      rw [show (((0 : ℕ) : ℤ) - goTrunc 8.0) = -8 by rw [goTrunc_8]; norm_num]
      unfold rssi2rangeRawF
      dsimp only
      rw [if_neg (show ¬ (((-8 : ℤ) : ℝ) + 8.0 < 0) by push_cast; norm_num)]
      rw [show ((((-8 : ℤ) : ℝ)) + 8.0) / (10.0 * 3.0) = (0 : ℝ) by push_cast; norm_num]
      unfold goRound goPow
      rw [Real.rpow_zero]
      rw [if_pos (by norm_num : (0 : ℝ) ≤ 100.0 * 1)]
      rw [Int.floor_eq_iff]
      constructor <;> norm_num
    rw [h0, hv]
    rw [← heq]
    norm_num
  · have hdR : (100 : ℝ) < (d : ℝ) := by exact_mod_cast hgt
    have hx : (0 : ℝ) < (d : ℝ) * 0.01 := by linarith
    have hx1 : (1 : ℝ) < (d : ℝ) * 0.01 := by linarith
    have hLpos : 0 < log10 ((d : ℝ) * 0.01) := Real.logb_pos (by norm_num) hx1
    have hLub : log10 ((d : ℝ) * 0.01) ≤ (6 : ℝ) / 5 := by
      refine le_trans ?_ logC8_15_ub
      unfold log10
      refine Real.logb_le_logb_of_le (by norm_num) hx ?_
      have : (d : ℝ) ≤ 1500 := by exact_mod_cast (by omega : d ≤ (1500 : ℤ))
      linarith
    have h0 : rssiDefault.range2rssi d
        = ⌈log10 ((d : ℝ) * 0.01) * 10.0 * 3.0 - 8.0⌉ := by
      show range2rssiF rssiDefault.Factor rssiDefault.AdjustRSSI d = _
      rw [show rssiDefault.Factor = 3.0 from rfl]
      rw [show rssiDefault.AdjustRSSI = 8.0 from rfl]
      unfold range2rssiF
      rw [if_neg (by omega : ¬ d ≤ 100)]
    have hsl : log10 ((d : ℝ) * 0.01) * 10.0 * 3.0 - 8.0
        ≤ ((⌈log10 ((d : ℝ) * 0.01) * 10.0 * 3.0 - 8.0⌉ : ℤ) : ℝ) := Int.le_ceil _
    have hsu : ((⌈log10 ((d : ℝ) * 0.01) * 10.0 * 3.0 - 8.0⌉ : ℤ) : ℝ)
        < log10 ((d : ℝ) * 0.01) * 10.0 * 3.0 - 8.0 + 1 := Int.ceil_lt_add_one _
    have hs28 : ⌈log10 ((d : ℝ) * 0.01) * 10.0 * 3.0 - 8.0⌉ ≤ 28 := by
      rw [Int.ceil_le]
      push_cast
      linarith
    have hsm7 : -7 ≤ ⌈log10 ((d : ℝ) * 0.01) * 10.0 * 3.0 - 8.0⌉ := by
      have : (-8 : ℤ) < ⌈log10 ((d : ℝ) * 0.01) * 10.0 * 3.0 - 8.0⌉ := by
        rw [Int.lt_ceil]
        push_cast
        linarith
      omega
    have htab : rssiDefault.rssi2Range (⌈log10 ((d : ℝ) * 0.01) * 10.0 * 3.0 - 8.0⌉)
        = rssi2rangeRawF 3.0 8.0 (⌈log10 ((d : ℝ) * 0.01) * 10.0 * 3.0 - 8.0⌉) := by
      unfold BLERssi.rssi2Range
      dsimp only
      rw [show rssiDefault.AdjustRSSI = 8.0 from rfl, goTrunc_8]
      rw [rssiDefault_ranges]
      have hlen : ((List.range 37).map fun i : ℕ =>
          rssi2rangeRawF 3.0 8.0 ((i : ℤ) - goTrunc 8.0)).length = 37 := by
        rw [List.length_map, List.length_range]
      rw [if_pos (by
        rw [hlen]
        constructor
        · omega
        · push_cast
          omega)]
      rw [range_map_getD 37 _ _ (by omega)]
      rw [goTrunc_8]
      rw [show ((((⌈log10 ((d : ℝ) * 0.01) * 10.0 * 3.0 - 8.0⌉ + 8).toNat : ℕ) : ℤ) - 8)
          = ⌈log10 ((d : ℝ) * 0.01) * 10.0 * 3.0 - 8.0⌉ by omega]
    have hA1 : (d : ℝ) * 0.01 ≤ (10 : ℝ)
        ^ ((((⌈log10 ((d : ℝ) * 0.01) * 10.0 * 3.0 - 8.0⌉ : ℤ) : ℝ) + 8) / 30) := by
      have hbase : (d : ℝ) * 0.01 = (10 : ℝ) ^ (log10 ((d : ℝ) * 0.01)) :=
        (Real.rpow_logb (by norm_num) (by norm_num) hx).symm
      conv_lhs => rw [hbase]
      rw [Real.rpow_le_rpow_left_iff (by norm_num : (1 : ℝ) < 10)]
      linarith
    have hA2 : (10 : ℝ)
        ^ ((((⌈log10 ((d : ℝ) * 0.01) * 10.0 * 3.0 - 8.0⌉ : ℤ) : ℝ) + 8) / 30)
        < ((d : ℝ) * 0.01) * (10 : ℝ) ^ ((1 : ℝ) / 30) := by
      have hbase : (d : ℝ) * 0.01 = (10 : ℝ) ^ (log10 ((d : ℝ) * 0.01)) :=
        (Real.rpow_logb (by norm_num) (by norm_num) hx).symm
      conv_rhs => rw [hbase]
      rw [← Real.rpow_add (by norm_num : (0 : ℝ) < 10)]
      rw [Real.rpow_lt_rpow_left_iff (by norm_num : (1 : ℝ) < 10)]
      linarith
    obtain ⟨hb1, hb2⟩ := rawF_bounds _ hsm7 ((d : ℝ) * 0.01) hx hA1 hA2
    rw [h0, htab]
    have hmul : ((d : ℝ) * 0.01) * (10 : ℝ) ^ ((1 : ℝ) / 30)
        ≤ ((d : ℝ) * 0.01) * 1.085 :=
      mul_le_mul_of_nonneg_left tC8_ub.le hx.le
    rw [abs_le]
    constructor
    · linarith
    · linarith

/-- Witness for the amended C8 statement at the concrete distance d = 101 cm. -/
theorem claim_C8_roundtrip_witness :
    |((rssiDefault.rssi2Range (rssiDefault.range2rssi 101) : ℤ) : ℝ) - ((101 : ℤ) : ℝ)|
      ≤ 0.09 * ((101 : ℤ) : ℝ) :=
  claim_C8_roundtrip 101 (by norm_num) (by norm_num)

/-- Counterexample to C8 as stated: at d = 101 cm, inside the claimed domain
[1 m, 700 cm + intrDist], the roundtrip gives 108 cm, a relative error of
7/101 ≈ 6.9 %, well above the claimed 2 %. -/
theorem claim_C8_counterexample :
    (100 : ℤ) ≤ 101 ∧ (101 : ℤ) ≤ 800 + 700 ∧
      rssiDefault.rssi2Range (rssiDefault.range2rssi 101) = 108 ∧
      (0.02 : ℝ) < |((108 : ℤ) : ℝ) - 101| / 101 := by
  refine ⟨by norm_num, by norm_num, rssiDefault_roundtrip_101, ?_⟩
  rw [show ((108 : ℤ) : ℝ) = 108 by norm_num]
  rw [abs_of_nonneg (by norm_num : (0 : ℝ) ≤ 108 - 101)]
  norm_num

end EngineGo

namespace EngineGo

/-- getD of a map over a range at an in-range index. -/
theorem getD_map_range {α : Type} (n : ℕ) (g : ℕ → α) (i : ℕ) (d : α) (h : i < n) :
    ((List.range n).map g).getD i d = g i := by
  rw [List.getD_eq_getElem?_getD, List.getElem?_map, List.getElem?_range h]
  rfl

/-- getD of a map over a range at an out-of-range index. -/
theorem getD_map_range_ge {α : Type} (n : ℕ) (g : ℕ → α) (i : ℕ) (d : α) (h : n ≤ i) :
    ((List.range n).map g).getD i d = d := by
  rw [List.getD_eq_getElem?_getD, List.getElem?_eq_none (by simpa using h)]
  rfl

/-- A fold whose body keeps the accumulator fixed on every member of the
list returns its initial value. -/
theorem foldl_keep (F : ℝ → ℕ → ℝ) (l : List ℕ) (h : ∀ s : ℝ, ∀ t ∈ l, F s t = s) :
    ∀ init : ℝ, l.foldl F init = init := by
  induction l with
  | nil => intro init; rfl
  | cons x xs ih =>
      intro init
      rw [List.foldl_cons, h init x (List.mem_cons_self x xs)]
      exact ih (fun s t ht => h s t (List.mem_cons_of_mem x ht)) init

/-- getD of a replicated list. -/
theorem getD_replicate2 {α : Type} (n : ℕ) (a : α) (i : ℕ) (d : α) :
    (List.replicate n a).getD i d = if i < n then a else d := by
  rcases Nat.lt_or_ge i n with h | h
  · rw [List.getD_eq_getElem?_getD, List.getElem?_replicate, if_pos h, Option.getD_some,
      if_pos h]
  · rw [List.getD_eq_getElem?_getD, List.getElem?_eq_none (by simpa using h),
      if_neg (Nat.not_lt.mpr h)]
    rfl

/-- Every getE read of a zero matrix is zero, in or out of range. -/
theorem getE_zeroMat (r c i j : ℕ) : getE (zeroMat r c) i j = 0 := by
  unfold getE zeroMat
  rw [getD_replicate2]
  split
  · rw [getD_replicate2]
    split
    · rfl
    · rfl
  · rfl

/-- getE of a doubly indexed range map. -/
theorem getE_map_range (n m : ℕ) (g : ℕ → ℕ → ℝ) (i j : ℕ) :
    getE ((List.range n).map fun a => (List.range m).map fun b => g a b) i j
      = if i < n ∧ j < m then g i j else 0 := by
  unfold getE
  rcases Nat.lt_or_ge i n with h | h
  · rw [getD_map_range n _ i [] h]
    rcases Nat.lt_or_ge j m with h2 | h2
    · rw [getD_map_range m _ j 0 h2, if_pos ⟨h, h2⟩]
    · rw [getD_map_range_ge m _ j 0 h2, if_neg (fun hc => (Nat.not_lt.mpr h2) hc.2)]
  · rw [getD_map_range_ge n _ i [] h]
    rw [show (([] : List ℝ).getD j 0) = 0 from rfl, if_neg (fun hc => (Nat.not_lt.mpr h) hc.1)]

/-- A matrix product with a left factor that reads zero everywhere reads
zero everywhere. -/
theorem getE_matMul_zl (a b : List (List ℝ)) (i j : ℕ) (ha : ∀ u v, getE a u v = 0) :
    getE (matMul a b) i j = 0 := by
  unfold matMul
  rw [getE_map_range]
  split
  · exact foldl_keep _ _ (fun s t _ => by rw [ha, zero_mul, add_zero]) 0
  · rfl

/-- A matrix product with a right factor that reads zero everywhere reads
zero everywhere. -/
theorem getE_matMul_zr (a b : List (List ℝ)) (i j : ℕ) (hb : ∀ u v, getE b u v = 0) :
    getE (matMul a b) i j = 0 := by
  unfold matMul
  rw [getE_map_range]
  split
  · exact foldl_keep _ _ (fun s t _ => by rw [hb, mul_zero, add_zero]) 0
  · rfl

/-- A sum of two matrices that read zero everywhere reads zero everywhere. -/
theorem getE_matAdd_zero (a b : List (List ℝ)) (i j : ℕ) (ha : ∀ u v, getE a u v = 0)
    (hb : ∀ u v, getE b u v = 0) : getE (matAdd a b) i j = 0 := by
  unfold matAdd
  rw [getE_map_range]
  split
  · rw [ha, hb, add_zero]
  · rfl

/-- Reading the entry written by matSet when it is in range. -/
theorem getE_matSet_self (M : List (List ℝ)) (i j : ℕ) (v : ℝ) (h1 : i < M.length)
    (h2 : j < (M.getD i []).length) : getE (matSet M i j v) i j = v := by
  unfold getE matSet
  rw [getD_set_self _ _ _ _ h1, getD_set_self _ _ _ _ h2]

/-- adaptStep leaves every other row unchanged. -/
theorem adaptStep_getD_ne (rk : List ℝ) (Py0 Rmin Rmax : List (List ℝ)) (beta : ℝ)
    (M : List (List ℝ)) (i a : ℕ) (h : a ≠ i) :
    (adaptStep rk Py0 Rmin Rmax beta M i).getD a [] = M.getD a [] := by
  unfold adaptStep matSet
  dsimp only
  split <;> split <;> exact getD_set_ne _ _ _ _ _ (Ne.symm h)

/-- adaptStep preserves the row count. -/
theorem adaptStep_length (rk : List ℝ) (Py0 Rmin Rmax : List (List ℝ)) (beta : ℝ)
    (M : List (List ℝ)) (i : ℕ) :
    (adaptStep rk Py0 Rmin Rmax beta M i).length = M.length := by
  unfold adaptStep matSet
  dsimp only
  split <;> split <;> simp

/-- Rows at or above the loop bound are untouched by the adaptive fold. -/
theorem adaptFold_getD_ge (rk : List ℝ) (Py0 Rmin Rmax : List (List ℝ)) (beta : ℝ)
    (M0 : List (List ℝ)) : ∀ n i : ℕ, n ≤ i →
    ((List.range n).foldl (adaptStep rk Py0 Rmin Rmax beta) M0).getD i [] = M0.getD i [] := by
  intro n
  induction n with
  | zero => intro i _; rfl
  | succ m ih =>
      intro i h
      rw [List.range_succ, List.foldl_append, List.foldl_cons, List.foldl_nil]
      rw [adaptStep_getD_ne _ _ _ _ _ _ _ _ (show i ≠ m by omega)]
      exact ih i (by omega)

/-- The adaptive fold preserves the row count. -/
theorem adaptFold_length (rk : List ℝ) (Py0 Rmin Rmax : List (List ℝ)) (beta : ℝ)
    (M0 : List (List ℝ)) : ∀ n : ℕ,
    ((List.range n).foldl (adaptStep rk Py0 Rmin Rmax beta) M0).length = M0.length := by
  intro n
  induction n with
  | zero => rfl
  | succ m ih =>
      rw [List.range_succ, List.foldl_append, List.foldl_cons, List.foldl_nil]
      rw [adaptStep_length]
      exact ih

/-- adaptStep in closed form. -/
theorem adaptStep_eq (rk : List ℝ) (Py0 Rmin Rmax : List (List ℝ)) (beta : ℝ)
    (M : List (List ℝ)) (i : ℕ) :
    adaptStep rk Py0 Rmin Rmax beta M i =
      if getE Rmax i i < adaptRy rk Py0 Rmin i then matSet M i i (getE Rmax i i)
      else matSet M i i ((1 - beta) * getE M i i + beta * adaptRy rk Py0 Rmin i) := rfl

/-- Diagonal entry of the adaptive fold at a visited in-range row. -/
theorem adaptFold_getE (rk : List ℝ) (Py0 Rmin Rmax : List (List ℝ)) (beta : ℝ)
    (M0 : List (List ℝ)) (n i : ℕ) (hlen : i < M0.length)
    (hrow : i < (M0.getD i []).length) (hin : i < n) :
    getE ((List.range n).foldl (adaptStep rk Py0 Rmin Rmax beta) M0) i i =
      if getE Rmax i i < adaptRy rk Py0 Rmin i then getE Rmax i i
      else (1 - beta) * getE M0 i i + beta * adaptRy rk Py0 Rmin i := by
  revert hin
  induction n with
  | zero => intro hin; exact absurd hin (Nat.not_lt_zero i)
  | succ m ih =>
      intro hin
      rw [List.range_succ, List.foldl_append, List.foldl_cons, List.foldl_nil]
      rcases Nat.lt_or_ge i m with him | him
      · have hrows : (adaptStep rk Py0 Rmin Rmax beta
            ((List.range m).foldl (adaptStep rk Py0 Rmin Rmax beta) M0) m).getD i []
            = ((List.range m).foldl (adaptStep rk Py0 Rmin Rmax beta) M0).getD i [] :=
          adaptStep_getD_ne _ _ _ _ _ _ _ _ (show i ≠ m by omega)
        have hE : getE (adaptStep rk Py0 Rmin Rmax beta
            ((List.range m).foldl (adaptStep rk Py0 Rmin Rmax beta) M0) m) i i
            = getE ((List.range m).foldl (adaptStep rk Py0 Rmin Rmax beta) M0) i i := by
          unfold getE
          rw [hrows]
        rw [hE]
        exact ih him
      · have him2 : i = m := by omega
        subst him2
        rw [adaptStep_eq]
        have hlen2 : i < ((List.range i).foldl (adaptStep rk Py0 Rmin Rmax beta) M0).length := by
          rw [adaptFold_length]
          exact hlen
        have hrowD : ((List.range i).foldl (adaptStep rk Py0 Rmin Rmax beta) M0).getD i []
            = M0.getD i [] := adaptFold_getD_ge _ _ _ _ _ _ i i (le_refl i)
        have hrow2 : i <
            (((List.range i).foldl (adaptStep rk Py0 Rmin Rmax beta) M0).getD i []).length := by
          rw [hrowD]
          exact hrow
        by_cases hc : getE Rmax i i < adaptRy rk Py0 Rmin i
        · rw [if_pos hc, if_pos hc]
          exact getE_matSet_self _ _ _ _ hlen2 hrow2
        · rw [if_neg hc, if_neg hc]
          rw [getE_matSet_self _ _ _ _ hlen2 hrow2]
          have hEE : getE ((List.range i).foldl (adaptStep rk Py0 Rmin Rmax beta) M0) i i
              = getE M0 i i := by
            unfold getE
            rw [hrowD]
          rw [hEE]

/-- Rk produced by kfMeasAssemble when the adaptive update is enabled. -/
theorem kfMeasAssemble_Rk (k k1 : EKFState) (P : List (List ℝ)) (x : List ℝ) (t : ℕ)
    (v : List ℝ × List (List ℝ)) (hadap : k.adaptive = true) :
    (kfMeasAssemble k k1 P x t v).Rk =
      (List.range t).foldl
        (adaptStep ((List.range t).map fun i => k1.yk.getD i 0 - v.1.getD i 0)
          (matMul k1.Hk (matMul P (transposeMat k1.Hk))) k1.Rmin k1.Rmax k.beta) k1.Rk := by
  unfold kfMeasAssemble
  rw [if_pos (by simp [allFinite, allFiniteMat])]
  rw [hadap]
  rw [if_pos (show true = true from rfl)]
  rfl

/-- A convex combination clamped from above stays inside established
bounds. -/
theorem convex_bound (rmin rmax rkv ry beta : ℝ) (hb0 : 0 ≤ beta) (hb1 : beta ≤ 1)
    (hlo : rmin ≤ rkv) (hhi : rkv ≤ rmax) (hry : rmin ≤ ry) :
    rmin ≤ (if rmax < ry then rmax else (1 - beta) * rkv + beta * ry) ∧
      (if rmax < ry then rmax else (1 - beta) * rkv + beta * ry) ≤ rmax := by
  by_cases hc : rmax < ry
  · rw [if_pos hc]
    exact ⟨le_trans hlo hhi, le_refl rmax⟩
  · rw [if_neg hc]
    have hc2 : ry ≤ rmax := le_of_not_lt hc
    constructor
    · nlinarith [mul_nonneg (show (0:ℝ) ≤ 1 - beta by linarith)
        (show (0:ℝ) ≤ rkv - rmin by linarith),
        mul_nonneg hb0 (show (0:ℝ) ≤ ry - rmin by linarith)]
    · nlinarith [mul_nonneg (show (0:ℝ) ≤ 1 - beta by linarith)
        (show (0:ℝ) ≤ rmax - rkv by linarith),
        mul_nonneg hb0 (show (0:ℝ) ≤ rmax - ry by linarith)]

/-- C1: after an adaptive KfUpdate measurement update with beta in the unit
interval, every row whose noise entry sat inside its adaptive bounds going
into the update (as the real TWR and BLE rows do after UpMeas) still
satisfies Rmin_i <= R[i,i] <= Rmax_i afterwards. -/
theorem claim_C1_adaptive_R_bounds (k k1 : EKFState) (P : List (List ℝ)) (x : List ℝ)
    (t : ℕ) (v : List ℝ × List (List ℝ)) (i : ℕ) (hadap : k.adaptive = true)
    (hb0 : 0 ≤ k.beta) (hb1 : k.beta ≤ 1) (hin : i < t) (hlen : i < k1.Rk.length)
    (hrow : i < (k1.Rk.getD i []).length) (hlo : getE k1.Rmin i i ≤ getE k1.Rk i i)
    (hhi : getE k1.Rk i i ≤ getE k1.Rmax i i) :
    getE k1.Rmin i i ≤ getE (kfMeasAssemble k k1 P x t v).Rk i i ∧
      getE (kfMeasAssemble k k1 P x t v).Rk i i ≤ getE k1.Rmax i i := by
  rw [kfMeasAssemble_Rk k k1 P x t v hadap]
  rw [adaptFold_getE _ _ _ _ _ _ t i hlen hrow hin]
  have hry : getE k1.Rmin i i ≤
      adaptRy ((List.range t).map fun j => k1.yk.getD j 0 - v.1.getD j 0)
        (matMul k1.Hk (matMul P (transposeMat k1.Hk))) k1.Rmin i := by
    unfold adaptRy
    dsimp only
    split
    next => exact le_refl _
    next h => exact le_of_not_lt h
  exact convex_bound _ _ _ _ _ hb0 hb1 hlo hhi hry

/-- Witness for C1 at a concrete in-bounds row. -/
theorem claim_C1_adaptive_R_bounds_witness :
    getE k1W.Rmin 0 0
        ≤ getE (kfMeasAssemble ekfC1 k1W (zeroMat 6 6) (List.replicate 6 0) 1 ([1], [])).Rk 0 0 ∧
      getE (kfMeasAssemble ekfC1 k1W (zeroMat 6 6) (List.replicate 6 0) 1 ([1], [])).Rk 0 0
        ≤ getE k1W.Rmax 0 0 :=
  claim_C1_adaptive_R_bounds ekfC1 k1W (zeroMat 6 6) (List.replicate 6 0) 1 ([1], []) 0 rfl
    (by rw [show ekfC1.beta = (0.5 : ℝ) from rfl]; norm_num)
    (by rw [show ekfC1.beta = (0.5 : ℝ) from rfl]; norm_num)
    (by norm_num) (by decide) (by decide)
    (by rw [show getE k1W.Rmin 0 0 = (0.5 : ℝ) from rfl,
          show getE k1W.Rk 0 0 = (1 : ℝ) from rfl]
        norm_num)
    (by rw [show getE k1W.Rk 0 0 = (1 : ℝ) from rfl,
          show getE k1W.Rmax 0 0 = (2 : ℝ) from rfl]
        norm_num)

/-- A single adaptive pass on a row whose bounds are pinned at zero but whose
entry is positive keeps a positive entry, breaking the upper bound. -/
theorem adapt_violation (rk : List ℝ) (Py0 Rmin Rmax M0 : List (List ℝ)) (beta : ℝ)
    (h1 : getE Rmax 0 0 = 0) (h2 : getE Rmin 0 0 = 0) (h3 : rk.getD 0 0 = 0)
    (h4 : getE Py0 0 0 = 0) (h5 : beta = 0.5) (h6 : 0 < getE M0 0 0)
    (h7 : 0 < M0.length) (h8 : 0 < (M0.getD 0 []).length) :
    getE Rmax 0 0 < getE ((List.range 1).foldl (adaptStep rk Py0 Rmin Rmax beta) M0) 0 0 := by
  rw [show List.range 1 = [0] from rfl, List.foldl_cons, List.foldl_nil]
  rw [adaptStep_eq]
  have hry : adaptRy rk Py0 Rmin 0 = 0 := by
    unfold adaptRy
    dsimp only
    rw [h3, h4, h2]
    norm_num
  rw [hry, h1, h5]
  rw [if_neg (lt_irrefl (0 : ℝ))]
  rw [getE_matSet_self _ _ _ _ h7 h8]
  linarith [h6]

theorem getD6_0 (a b c d e f : ℝ) : ([a, b, c, d, e, f] : List ℝ).getD 0 0 = a := rfl

theorem getD6_1 (a b c d e f : ℝ) : ([a, b, c, d, e, f] : List ℝ).getD 1 0 = b := rfl

theorem getD6_2 (a b c d e f : ℝ) : ([a, b, c, d, e, f] : List ℝ).getD 2 0 = c := rfl

theorem getD6_3 (a b c d e f : ℝ) : ([a, b, c, d, e, f] : List ℝ).getD 3 0 = d := rfl

theorem getD6_4 (a b c d e f : ℝ) : ([a, b, c, d, e, f] : List ℝ).getD 4 0 = e := rfl

theorem getD6_5 (a b c d e f : ℝ) : ([a, b, c, d, e, f] : List ℝ).getD 5 0 = f := rfl

/-- The predicted state of the C1 trace. -/
theorem matVecC1 : matVec ekfC1.Phikk1 ekfC1.xk = ([0, 0, 0, 0, 3, 8] : List ℝ) := by
  show matVec phiC1 ([0, 0, 0, 0, 3, 8] : List ℝ) = _
  unfold matVec phiC1
  rw [show ([0, 0, 0, 0, 3, 8] : List ℝ).length = 6 from rfl]
  rw [show List.range 6 = [0, 1, 2, 3, 4, 5] from rfl]
  simp only [List.map_cons, List.map_nil, List.foldl_cons, List.foldl_nil, getD6_0, getD6_1,
    getD6_2, getD6_3, getD6_4, getD6_5]
  norm_num

/-- ConsHk core evaluation of the C1 trace. -/
theorem consHkCoreC1 :
    consHkCore sampleC1 0 ([0, 0, 0, 0, 3, 8] : List ℝ) 0 dcC1
      (([0] : List ℝ), ([0] : List ℝ), ([List.replicate 6 (0 : ℝ)] : List (List ℝ)),
        ([[0]] : List (List ℝ)))
    = (([0] : List ℝ), ([0] : List ℝ), ([[1, 0, 0, 0, 0, 0]] : List (List ℝ)),
        ([[Pow2 (DimErr * RandomModel 0 ("dh") * RandomModel 0 ("dd"))]] : List (List ℝ))) := by
  unfold consHkCore
  rw [show sampleC1.DimPos.enum = [(0, matC1)] from rfl]
  rw [List.foldl_cons, List.foldl_nil]
  dsimp only
  rw [if_neg (show ¬¬(dcC1.dimConsUse.getD 0 false = true) from by decide)]
  rw [if_neg (show ¬(matC1.length = 1) from by decide)]
  rw [if_pos (show matC1.length = 2 from by decide)]
  dsimp only
  rw [show (0 + 0 : ℕ) = 0 from rfl]
  rw [show getE matC1 1 1 = (1 : ℝ) from rfl, show getE matC1 0 1 = (0 : ℝ) from rfl,
    show getE matC1 0 0 = (0 : ℝ) from rfl, show getE matC1 1 0 = (0 : ℝ) from rfl]
  rw [show (1 : ℝ) - 0 = 1 from by norm_num, show (0 : ℝ) - 0 = 0 from by norm_num]
  have h10 : hypot 1 0 = 1 := by
    unfold hypot
    rw [show (1 : ℝ) * 1 + 0 * 0 = 1 from by norm_num]
    exact Real.sqrt_one
  rw [h10]
  rw [if_neg (show ¬((1 : ℝ) < MinDistance) from by norm_num [MinDistance])]
  rw [show getE dcC1.dimConsedDis 0 0 = (0 : ℝ) from rfl]
  rw [show List.replicate ((([List.replicate 6 (0 : ℝ)] : List (List ℝ)).getD 0 []).length)
      (0 : ℝ) = ([0, 0, 0, 0, 0, 0] : List ℝ) from rfl]
  simp only [getD6_0, getD6_1]
  have hsetH : ∀ a b : ℝ, (([0, 0, 0, 0, 0, 0] : List ℝ).set 0 a).set 1 b
      = [a, b, 0, 0, 0, 0] := fun a b => rfl
  have hsetRow : ∀ r : List ℝ, ([List.replicate 6 (0 : ℝ)] : List (List ℝ)).set 0 r = [r] :=
    fun r => rfl
  have hsetE : ∀ y : ℝ, ([0] : List ℝ).set 0 y = [y] := fun y => rfl
  have hsetIdx : ∀ y : ℝ, setIdx2 ([[0]] : List (List ℝ)) 0 0 y = [[y]] := fun y => rfl
  simp only [hsetH, hsetRow, hsetE, hsetIdx]
  norm_num

/-- ConsHk of the C1 trace, stated on the record exactly as KfUpdate builds
it. -/
theorem consHkC1 :
    consHk sampleC1
      { n := ekfC1.n, m := ekfC1.m, ts := ekfC1.ts, fading := ekfC1.fading,
        adaptive := ekfC1.adaptive, beta := ekfC1.beta, b := ekfC1.b,
        xconstrain := ekfC1.xconstrain, xMin := ekfC1.xMin, xMax := ekfC1.xMax,
        usedMea := ekfC1.usedMea, ret := ekfC1.ret, HDOP := ekfC1.HDOP, HMaha := ekfC1.HMaha,
        BLE2Dis := ekfC1.BLE2Dis, xk := ekfC1.xk, Pxk := ekfC1.Pxk, Phikk1 := ekfC1.Phikk1,
        Qk := ekfC1.Qk, yk := ekfC1.yk, ykk1 := ekfC1.ykk1, Hk := ekfC1.Hk, Rk := ekfC1.Rk,
        Rmin := ekfC1.Rmin, Rmax := ekfC1.Rmax, Dc := ekfC1.Dc,
        xkk1 := ([0, 0, 0, 0, 3, 8] : List ℝ), Pykk1 := ekfC1.Pykk1, rk := ekfC1.rk }
      = k1C1 := by
  unfold consHk
  dsimp only [ekfC1]
  rw [if_neg (show ¬(([0, 0, 0, 1] : List ℕ).getD 3 0 = 0) from by decide)]
  rw [show (([0, 0, 0, 1] : List ℕ).getD 0 0 + ([0, 0, 0, 1] : List ℕ).getD 1 0
    + ([0, 0, 0, 1] : List ℕ).getD 2 0) = 0 from rfl]
  rw [consHkCoreC1]
  dsimp only [k1C1, ekfC1]

/-- C1 counterexample: on a state shaped like the UpMeas output for a single
enabled dimension constraint (zero noise row with zero adaptive bounds,
adaptive update on, beta one half), KfUpdate leaves the constraint row's
noise entry strictly above its Rmax bound, refuting the claimed invariant
for enabled dimension-constraint rows. -/
theorem claim_C1_counterexample :
    ekfC1.adaptive = true ∧
      ∃ kp : EKFState, kfUpdate sampleC1 ekfC1 = some kp ∧
        getE kp.Rmax 0 0 < getE kp.Rk 0 0 := by
  refine ⟨rfl, ?_⟩
  unfold kfUpdate
  rw [show (ekfC1.usedMea.getD 0 0 + ekfC1.usedMea.getD 1 0 + ekfC1.usedMea.getD 3 0) = 1
    from rfl]
  rw [if_neg (show ¬((1 : ℕ) = 0) from by decide)]
  rw [matVecC1]
  dsimp only
  rw [consHkC1]
  refine ⟨_, rfl, ?_⟩
  rw [kfMeasAssemble_Rmax]
  rw [kfMeasAssemble_Rk ekfC1 k1C1 _ _ _ _ rfl]
  apply adapt_violation
  · rfl
  · rfl
  · show (0 : ℝ) - 0 = 0
    norm_num
  · exact getE_matMul_zr _ _ 0 0 (fun u v => getE_matMul_zl _ _ u v
      (fun a b => getE_matAdd_zero _ _ a b
        (fun a2 b2 => getE_matMul_zr _ _ a2 b2
          (fun a3 b3 => getE_matMul_zl _ _ a3 b3 (fun a4 b4 => getE_zeroMat 6 6 a4 b4)))
        (fun a5 b5 => getE_zeroMat 6 6 a5 b5)))
  · rfl
  · show (0 : ℝ) < Pow2 (DimErr * RandomModel 0 ("dh") * RandomModel 0 ("dd"))
    have hdh : RandomModel 0 ("dh") = 0.5 := by
      unfold RandomModel
      rw [if_neg (show ¬(("dh" : String) = ("dd" : String)) from by decide)]
      rw [if_pos (show ("dh" : String) = ("dh" : String) from rfl)]
      rw [if_pos (show ((0 : ℝ) ≤ 0 ∨ (20 : ℝ) < 0) from Or.inl (le_refl 0))]
    have hdd : RandomModel 0 ("dd") = 5.0 * (goPow 2 (2 * 0 - 4.5) + 0.2) := by
      unfold RandomModel
      rw [if_pos (show (("dd" : String) = ("dd" : String)) from rfl)]
      rw [if_pos (show ((0 : ℝ) ≤ 3) from by norm_num)]
    rw [hdh, hdd, show DimErr = (0.2 : ℝ) from rfl]
    have hg : (0 : ℝ) < goPow 2 (2 * 0 - 4.5) := by
      unfold goPow
      exact Real.rpow_pos_of_pos (by norm_num) _
    have hc : (0 : ℝ) < 0.2 * 0.5 * (5.0 * (goPow 2 (2 * 0 - 4.5) + 0.2)) := by
      nlinarith [hg]
    unfold Pow2
    exact mul_pos hc hc
  · decide
  · decide

end EngineGo
